import Mathlib

/-!
# Efficient Compression Tool: batch dispatch and archive assembly

A shallow embedding of `src/main.cpp` (the orchestration layer of ECT): the
format dispatcher `fileHandler`, the Gzip container rewriter `ECTGzip`, the
PNG/JPEG drivers, the archive builder `zipHandler`, the worker loop
`multithreadFileLoop` and the tail of `main`.

The file system is an explicit value, the three global counters are fields of
the `World` record, and every call to a codec library or file-system mutation
is recorded in a ghost log so that "is (not) invoked" can be stated.
-/

namespace ECT

/-! ## Machine integers -/

/-- Value of `std::string::npos` (and of `SIZE_MAX`) on a 64-bit target. -/
def npos : Nat := 2 ^ 64 - 1

/-- Value of `UINT_MAX`. -/
def UINT_MAX : Int := 2 ^ 32 - 1

/-- Reduction of a mathematical integer to a `size_t`. -/
def toSizeT (n : Int) : Nat := (n % 2 ^ 64).toNat

/-- Reduction of a mathematical integer to a `long long` (two's complement). -/
def toLongLong (n : Int) : Int := (n + 2 ^ 63) % 2 ^ 64 - 2 ^ 63

/-- Reduction of a mathematical integer to an `int` (two's complement). -/
def toInt32 (n : Int) : Int := (n + 2 ^ 31) % 2 ^ 32 - 2 ^ 31

/-! ## Strings -/

abbrev Path := String
abbrev Bytes := List Nat

/-- Scan for `std::string::find_last_of`: `i` is the index of the head of the
remaining text, `acc` the last matching index seen so far. -/
def findLastAux (set : List Char) : List Char → Nat → Nat → Nat
  | [], _, acc => acc
  | c :: cs, i, acc => findLastAux set cs (i + 1) (if set.contains c then i else acc)

/-- Model of `s.find_last_of(set)`: the index of the last character of `s` that
occurs in `set`, or `npos`. -/
def find_last_of (s : String) (set : String) : Nat :=
  findLastAux set.data s.data 0 npos

/-- Model of `s.substr(pos)` for `pos <= s.size()`. -/
def substrFrom (s : String) (pos : Nat) : String := String.mk (s.data.drop pos)

/-- Model of `s.substr(0, n)`. -/
def substrTo (s : String) (n : Nat) : String := String.mk (s.data.take n)

/-- The expression `s.substr(s.find_last_of(".") + 1)` of `fileHandler` and
`zipHandler`; the addition is on `size_t`, so `npos + 1` is `0`. -/
def extensionOf (s : String) : String :=
  substrFrom s ((find_last_of s "." + 1) % 2 ^ 64)

/-- Model of `s.back()`. -/
def back (s : String) : Option Char := s.data.getLast?

/-- Model of `s.pop_back()`. -/
def pop_back (s : String) : String := String.mk s.data.dropLast

/-! ## File system -/

/-- A file-system object: a regular file with its bytes, modification time and
read permission, or a directory. -/
inductive Node where
  | file (data : Bytes) (mtime : Int) (readable : Bool)
  | dir (st_size : Nat) (mtime : Int)
deriving DecidableEq, Repr

/-- The file system: a finite table from paths to objects. The order of the
table is the order in which directory iterators yield entries. -/
structure FS where
  entries : List (Path × Node)
deriving DecidableEq, Repr

/-- First object stored under `p` in a table. -/
def lookupList (p : Path) : List (Path × Node) → Option Node
  | [] => none
  | e :: l => if e.1 = p then some e.2 else lookupList p l

/-- Table with the object under `p` replaced where it stands, or added last. -/
def writeList (p : Path) (n : Node) : List (Path × Node) → List (Path × Node)
  | [] => [(p, n)]
  | e :: l => if e.1 = p then (p, n) :: l else e :: writeList p n l

/-- Table without the objects stored under `p`. -/
def eraseList (p : Path) : List (Path × Node) → List (Path × Node)
  | [] => []
  | e :: l => if e.1 = p then eraseList p l else e :: eraseList p l

namespace FS

def lookup (fs : FS) (p : Path) : Option Node := lookupList p fs.entries

def erase (fs : FS) (p : Path) : FS := ⟨eraseList p fs.entries⟩

/-- Create or overwrite the object at `p`; an overwritten object keeps its
position, a new one goes last. -/
def write (fs : FS) (p : Path) (n : Node) : FS := ⟨writeList p n fs.entries⟩

end FS

/-- Bytes of a regular file that the process may open for reading
(`fopen(p, "rb")` followed by a full `fread`). -/
def readFile (fs : FS) (p : Path) : Option Bytes :=
  match fs.lookup p with
  | some (Node.file d _ true) => some d
  | _ => none

/-- Modelled from the spec: `filesize` of support.h ("Returns Filesize of
Infile"), one of the "low-level OS file metadata helpers" whose body is not
part of the sources; the callers test the result for `< 0`, which is the value
for a path that cannot be examined. -/
def filesize (fs : FS) (p : Path) : Int :=
  match fs.lookup p with
  | some (Node.file d _ _) => d.length
  | some (Node.dir sz _) => sz
  | none => -1

/-- Modelled from the spec: `exists` of support.h (existence test). -/
def exists_ (fs : FS) (p : Path) : Bool := (fs.lookup p).isSome

/-- The table holds a directory under exactly the name `p`. -/
def isDirNode (fs : FS) (p : Path) : Bool :=
  match fs.lookup p with
  | some (Node.dir _ _) => true
  | _ => false

/-- Model of `std::filesystem::is_regular_file`. -/
def is_regular_file (fs : FS) (p : Path) : Bool :=
  match fs.lookup p with
  | some (Node.file _ _ _) => true
  | _ => false

/-- Modelled from the spec: `get_file_time` of support.h (modification time;
`zipHandler` uses a negative value for "no time captured"). -/
def get_file_time (fs : FS) (p : Path) : Int :=
  match fs.lookup p with
  | some (Node.file _ t _) => t
  | some (Node.dir _ t) => t
  | none => -1

/-- File-system effect of `set_file_time`. -/
def setTime (fs : FS) (p : Path) (t : Int) : FS :=
  match fs.lookup p with
  | some (Node.file d _ r) => fs.write p (Node.file d t r)
  | some (Node.dir sz _) => fs.write p (Node.dir sz t)
  | none => fs

/-- File-system effect of `unlink`: removes a regular file. -/
def unlinkFS (fs : FS) (p : Path) : FS :=
  if is_regular_file fs p then fs.erase p else fs

/-- File-system effect of `rename` / `MoveFileExA(.., MOVEFILE_REPLACE_EXISTING)`
on a regular file: the source replaces the target; nothing happens when the
source is missing or the target is a directory. -/
def renameFS (fs : FS) (src dst : Path) : FS :=
  match fs.lookup src with
  | some (Node.file d t r) =>
      if isDirNode fs dst then fs else (fs.erase src).write dst (Node.file d t r)
  | _ => fs

/-! ## Configuration, externals and the world -/

/-- The record `ECTOptions` of main.h. -/
structure ECTOptions where
  Mode : Nat
  palette_sort : Nat
  strip : Bool
  Progressive : Bool
  Autorotate : Nat
  JPEG_ACTIVE : Bool
  PNG_ACTIVE : Bool
  SavingsCounter : Bool
  Strict : Bool
  Arithmetic : Bool
  Gzip : Bool
  Zip : Bool
  Reuse : Bool
  Allfilters : Bool
  Allfiltersbrute : Bool
  Allfilterscheap : Bool
  Recurse : Bool
  DeflateMultithreading : Int
  FileMultithreading : Int
  keep : Bool
deriving DecidableEq, Repr

/-- The codec libraries and platform facts `main.cpp` relies on but does not
define. Each is a function of the bytes it reads (`none` when the file cannot
be read); where it writes is fixed by the wrappers below. -/
structure Ext where
  /-- The classifier `IsGzip` of gztools.h. -/
  IsGzip : Option Bytes → Int
  /-- The content sniff `IsZIP` of gztools.h. -/
  IsZIP : Option Bytes → Bool
  /-- Inflation behind `ungz`; `none` is failure. -/
  inflate : Bytes → Option Bytes
  /-- The stream `ZopfliGzip` produces for (mode, multithreading, ZIP, input);
  `none` is failure. -/
  deflate : Nat → Nat → Nat → Bytes → Option Bytes
  /-- The call `Zopflipng` (strip, strict, Mode, filter, multithreading, quiet, input):
  result code and the rewritten file, if it rewrites it. -/
  zopflipng : Bool → Bool → Nat → Int → Nat → Nat → Option Bytes → Int × Option Bytes
  /-- The call `Optipng` (level, force_no_palette, clean_alpha, input): result code, the
  rewritten file if it rewrites it, and whether it leaves a `.bak` copy. -/
  optipng : Nat → Bool → Nat → Option Bytes → Int × Option Bytes × Bool
  /-- The call `mozjpegtran` (arithmetic, progressive, strip, autorotate, input): result
  code, the output file if one is written, and `*stripped_outsize`. -/
  jpegtran : Bool → Bool → Bool → Nat → Option Bytes → Int × Option Bytes × Nat
  /-- The call `mz_zip_add_mem_to_archive_file_in_place` (archive bytes if it exists,
  member name, member bytes or none for a directory entry, source time): the
  new archive, `none` on failure. -/
  zipAdd : Option Bytes → String → Option Bytes → Int → Option Bytes
  /-- The pass `ReZipFile`: the recompressed archive and the number of files touched. -/
  reZip : ECTOptions → Bytes → Bytes × Nat
  /-- Model of `std::filesystem::canonical(p).string()`. -/
  canonical : Path → Path
  /-- Modification time given to files the collaborators write. -/
  now : Int
  /-- Model of `std::filesystem::path(p).parent_path().string()`; `none` when
  `has_parent_path()` is false. -/
  parent_path : Path → Option Path
  /-- The macro `EXTSEP` of `zipHandler`: the separator of the platform, which
  the directory iterators put between a directory and its entries. -/
  EXTSEP : String

/-- Ghost record of a call to a collaborator or of a file-system mutation. -/
inductive Event where
  | OptimizePNG (Infile : Path)
  | OptimizeJPEG (Infile : Path)
  | Zopflipng (Infile : Path) (Mode : Nat) (filter : Int)
  | Optipng (level : Nat) (Infile : Path)
  | mozjpegtran (progressive : Bool) (Infile : Path)
  | ZopfliGzip (filename : Path) (ZIP : Nat)
  | ungz (Infile Outfile : Path)
  | rename (Infile Outfile : Path)
  | unlink (file : Path)
  | set_file_time (file : Path) (t : Int)
  | zipAdd (archive : Path) (member : String)
  | ReZipFile (archive : Path)
  | fileHandler (Infile : Path) (internal : Int) (result : Nat)
deriving DecidableEq, Repr

/-- Process state: the file system, the three global atomics of main.cpp
(`processedfiles`, `bytes`, `savings`) and the ghost log. -/
structure World where
  fs : FS
  processedfiles : Nat
  bytes : Nat
  savings : Int
  log : List Event
deriving DecidableEq, Repr

def World.emit (w : World) (e : Event) : World := { w with log := w.log ++ [e] }

def World.setFS (w : World) (fs : FS) : World := { w with fs := fs }

/-- Conversion of an `int` argument to an `unsigned` parameter. -/
def toUnsigned (n : Int) : Nat := (n % 2 ^ 32).toNat

/-- Conversion of an `int` argument to an `unsigned char` parameter. -/
def toUChar (n : Int) : Nat := (n % 2 ^ 8).toNat

/-! ## Wrappers: where the collaborators read and write -/

/-- The call `set_file_time(file, t)`. -/
def set_file_time (file : Path) (t : Int) (w : World) : World :=
  (w.emit (Event.set_file_time file t)).setFS (setTime w.fs file t)

/-- The call `unlink(file)`. -/
def unlink (file : Path) (w : World) : World :=
  (w.emit (Event.unlink file)).setFS (unlinkFS w.fs file)

/-- Translation of `RenameAndReplace` (main.cpp 78-84). -/
def RenameAndReplace (Infile Outfile : Path) (w : World) : World :=
  (w.emit (Event.rename Infile Outfile)).setFS (renameFS w.fs Infile Outfile)

/-- The call `IsGzip(Infile)`: a read-only classification. -/
def IsGzip (X : Ext) (fs : FS) (Infile : Path) : Int := X.IsGzip (readFile fs Infile)

/-- The call `IsZIP(Infile)`: a read-only content sniff. -/
def IsZIP (X : Ext) (fs : FS) (Infile : Path) : Bool := X.IsZIP (readFile fs Infile)

/-- Modelled from the spec: `DecompressGzip(path, outputPath) -> ok|fail`, the
function `ungz` of gztools.h. It inflates `Infile` into `Outfile` and returns 0;
when the input cannot be read or inflated it returns non-zero and writes
nothing. -/
def ungz (X : Ext) (Infile Outfile : Path) (w : World) : Int × World :=
  let w1 := w.emit (Event.ungz Infile Outfile)
  match (readFile w.fs Infile).bind X.inflate with
  | some u => (0, w1.setFS (w.fs.write Outfile (Node.file u X.now true)))
  | none => (1, w1)

/-- Modelled from the spec: `CompressToGzipOrZip(path, outputPathOrNone, effort,
threads, asZip) -> ok|fail`, the function `ZopfliGzip` declared in main.h, called
with `outname = 0`: the stream goes to the sibling `filename` + `.zip` or `.gz`
(the name `fileHandler` reads the result size from). -/
def ZopfliGzip (X : Ext) (filename : Path) (mode multithreading ZIP : Nat) (w : World) :
    Int × World :=
  let w1 := w.emit (Event.ZopfliGzip filename ZIP)
  match (readFile w.fs filename).bind (X.deflate mode multithreading ZIP) with
  | some z =>
      (0, w1.setFS (w.fs.write (filename ++ (if ZIP ≠ 0 then ".zip" else ".gz"))
        (Node.file z X.now true)))
  | none => (1, w1)

/-- Effect of an in-place rewrite by a codec: only a file that could be read is
replaced. -/
def rewriteInPlace (X : Ext) (fs : FS) (p : Path) (out : Option Bytes) : FS :=
  match readFile fs p, out with
  | some _, some b => fs.write p (Node.file b X.now true)
  | _, _ => fs

/-- Modelled from the spec: the PNG re-deflater `Zopflipng` declared in main.h,
part of `OptimizePng(path, config)`, which "mutates the file in place". -/
def Zopflipng (X : Ext) (strip : Bool) (Infile : Path) (strict : Bool) (Mode : Nat)
    (filter : Int) (multithreading quiet : Nat) (w : World) : Int × World :=
  let r := X.zopflipng strip strict Mode filter multithreading quiet (readFile w.fs Infile)
  (r.1, (w.emit (Event.Zopflipng Infile Mode filter)).setFS (rewriteInPlace X w.fs Infile r.2))

/-- Modelled from the spec: the PNG filter search `Optipng` declared in main.h,
part of `OptimizePng(path, config)`, which "mutates the file in place, may leave
a `.bak` sidecar consumed by the dispatcher". -/
def Optipng (X : Ext) (level : Nat) (Infile : Path) (force_no_palette : Bool)
    (clean_alpha : Nat) (w : World) : Int × World :=
  let r := X.optipng level force_no_palette clean_alpha (readFile w.fs Infile)
  let fs1 := match w.fs.lookup Infile, r.2.2 with
    | some n, true => w.fs.write (Infile ++ ".bak") n
    | _, _ => w.fs
  (r.1, (w.emit (Event.Optipng level Infile)).setFS (rewriteInPlace X fs1 Infile r.2.1))

/-- Modelled from the spec: the JPEG transcoder `mozjpegtran` declared in main.h
(`OptimizeJpeg(path, config) -> status{ok, unchanged, fatal}`): result code and
`*stripped_outsize`; the output, if any, is written to `Outfile`. -/
def mozjpegtran (X : Ext) (arithmetic progressive strip : Bool) (autorotate : Nat)
    (Infile Outfile : Path) (w : World) : (Int × Nat) × World :=
  let r := X.jpegtran arithmetic progressive strip autorotate (readFile w.fs Infile)
  let fs1 := match readFile w.fs Infile, r.2.1 with
    | some _, some b => w.fs.write Outfile (Node.file b X.now true)
    | _, _ => w.fs
  ((r.1, r.2.2), (w.emit (Event.mozjpegtran progressive Infile)).setFS fs1)

/-! ## Gzip container rewriter -/

/-- Translation of `ECTGzip` (main.cpp 136-175). Diagnostics on stdout are not
modelled. -/
def ECTGzip (X : Ext) (Infile : Path) (Mode multithreading : Nat) (fs : Int) (ZIP : Nat)
    (strict : Int) (w : World) : Int × World :=
  if fs = 0 then (2, w)
  else
    let isGZ := IsGzip X w.fs Infile
    if isGZ = 2 then (2, w)
    else if isGZ = 3 ∧ strict ≠ 0 then (2, w)
    else if ZIP ≠ 0 ∨ isGZ = 0 then
      if exists_ w.fs (Infile ++ (if ZIP ≠ 0 then ".zip" else ".gz")) then (2, w)
      else (1, (ZopfliGzip X Infile Mode multithreading ZIP w).2)
    else if exists_ w.fs (Infile ++ ".ungz") then (2, w)
    else if exists_ w.fs (Infile ++ ".ungz.gz") then (2, w)
    else
      let u := ungz X Infile (Infile ++ ".ungz") w
      if u.1 ≠ 0 then (2, u.2)
      else
        let w2 := (ZopfliGzip X (Infile ++ ".ungz") Mode multithreading ZIP u.2).2
        let w3 :=
          if filesize w2.fs (Infile ++ ".ungz.gz") < filesize w2.fs Infile then
            RenameAndReplace (Infile ++ ".ungz.gz") Infile w2
          else unlink (Infile ++ ".ungz.gz") w2
        (0, unlink (Infile ++ ".ungz") w3)

/-! ## PNG and JPEG drivers -/

/-- The table `indices` of `OptimizePNG`. -/
def pngIndices : List Int := [0, 5, 1, 2, 3, 4, 7, 8, 11, 12, 13]

/-- The lambda `zopfli` of `OptimizePNG`. -/
def zopfliTrial (X : Ext) (Infile : Path) (Options : ECTOptions) (quiet : Nat) (index : Int)
    (w : World) : Int × World :=
  Zopflipng X Options.strip Infile Options.Strict Options.Mode
    (toInt32 (index + Options.palette_sort)) (toUnsigned Options.DeflateMultithreading) quiet w

/-- The local `mode` of `OptimizePNG` (main.cpp 179-182). -/
def pngMode (Options : ECTOptions) : Nat :=
  let mode := if Options.Mode % 10000 > 9 then 9 else Options.Mode % 10000
  if mode = 1 ∧ Options.Reuse then mode + 1 else mode

/-- The first pass of `OptimizePNG` (main.cpp 185, 191-196): the value of `x`
after it and the world. -/
def pngFirst (X : Ext) (Infile : Path) (Options : ECTOptions) (quiet : Nat) (w : World) :
    Int × World :=
  if pngMode Options = 9 ∧ ¬ Options.Reuse ∧ ¬ Options.Allfilters then
    Zopflipng X Options.strip Infile Options.Strict 3 0
      (toUnsigned Options.DeflateMultithreading) quiet w
  else (1, w)

/-- The filter search of `OptimizePNG` (main.cpp 199-202): the value of `filter`
after it and the world. -/
def pngFilter (X : Ext) (Infile : Path) (Options : ECTOptions) (w : World) : Int × World :=
  if ¬ Options.Allfilters then
    if Options.Reuse then (6, w)
    else
      Optipng X (pngMode Options) Infile false
        (if Options.Strict ∨ pngMode Options > 1 then 1 else 0) w
  else (0, w)

/-- The statement `if (mode != 1) .. else ..` of `OptimizePNG` (main.cpp
210-249), entered with the values `x`, `filter` and `size`: the value of `x`
after it and the world. In the two branches that test `x < 0` a negative `x`
is followed by `return 1`. -/
def pngBody (X : Ext) (Infile : Path) (Options : ECTOptions) (quiet : Nat) (size x filter : Int)
    (w : World) : Int × World :=
  if pngMode Options ≠ 1 then
    if Options.Allfilters then
      let z := zopfliTrial X Infile Options quiet 6 w
      if z.1 < 0 then z
      else
        let w1 := pngIndices.foldl (fun acc i => (zopfliTrial X Infile Options quiet i acc).2) z.2
        let w2 :=
          if Options.Allfiltersbrute then
            (zopfliTrial X Infile Options quiet 14
              (zopfliTrial X Infile Options quiet 10
                (zopfliTrial X Infile Options quiet 9 w1).2).2).2
          else w1
        (z.1, w2)
    else if pngMode Options = 9 then (x, (zopfliTrial X Infile Options quiet filter w).2)
    else zopfliTrial X Infile Options quiet filter w
  else if filesize w.fs Infile ≤ size then (x, unlink (Infile ++ ".bak") w)
  else (x, RenameAndReplace (Infile ++ ".bak") Infile w)

/-- Translation of `OptimizePNG` (main.cpp 177-255). -/
def OptimizePNG (X : Ext) (Infile : Path) (Options : ECTOptions) (w0 : World) : Nat × World :=
  let w := w0.emit (Event.OptimizePNG Infile)
  let quiet : Nat := if Options.SavingsCounter then 0 else 1
  let size := filesize w.fs Infile
  if size < 0 then (1, w)
  else
    let first := pngFirst X Infile Options quiet w
    if first.1 < 0 then (1, first.2)
    else
      let opt := pngFilter X Infile Options first.2
      if opt.1 = -1 then (1, opt.2)
      else
        let filter : Int :=
          if opt.1 ≠ 0 ∧ ¬ Options.Allfilters ∧ Options.Allfilterscheap ∧ ¬ Options.Reuse then 15
          else opt.1
        let body := pngBody X Infile Options quiet size first.1 filter opt.2
        if body.1 < 0 then (1, body.2)
        else if Options.strip ∧ body.1 ≠ 0 then (0, (Optipng X 0 Infile false 0 body.2).2)
        else (0, body.2)

/-- Translation of `OptimizeJPEG` (main.cpp 257-267). -/
def OptimizeJPEG (X : Ext) (Infile : Path) (Options : ECTOptions) (w0 : World) : Nat × World :=
  let w := w0.emit (Event.OptimizeJPEG Infile)
  let r1 := mozjpegtran X Options.Arithmetic
    (Options.Progressive && (decide (Options.Mode > 1) || decide (filesize w.fs Infile > 5000)))
    Options.strip Options.Autorotate Infile Infile w
  let res := r1.1.1
  let stsize := r1.1.2
  let r2 : (Int × Nat) × World :=
    if Options.Progressive ∧ Options.Mode > 1 ∧ res ≠ 2 then
      if res = 1 ∨ (Options.Mode = 2 ∧ stsize < 6500) ∨ (Options.Mode = 3 ∧ stsize < 10000)
          ∨ (Options.Mode = 4 ∧ stsize < 15000) ∨ (Options.Mode > 4 ∧ stsize < 20000) then
        mozjpegtran X Options.Arithmetic false Options.strip Options.Autorotate Infile Infile r1.2
      else r1
    else r1
  (if r2.1.1 = 2 then 1 else 0, r2.2)

/-! ## Format dispatcher -/

/-- The test `x == "PNG" || x == "png"` of `fileHandler`. -/
def isPngExt (x : String) : Bool := x == "PNG" || x == "png"

/-- The test `x == "jpg" || x == "JPG" || x == "JPEG" || x == "jpeg"`. -/
def isJpegExt (x : String) : Bool := x == "jpg" || x == "JPG" || x == "JPEG" || x == "jpeg"

/-- The counter update of `fileHandler` (main.cpp 334-341): three atomic
`fetch_add`s on `size_t`, `size_t` and `long long`. -/
def addSavings (Infile : Path) (Options : ECTOptions) (size statcompressedfile : Int)
    (w : World) : World :=
  { w with
    processedfiles := (w.processedfiles + 1) % 2 ^ 64
    bytes := toSizeT (w.bytes + size)
    savings :=
      if statcompressedfile = 0 then toLongLong (w.savings + (size - filesize w.fs Infile))
      else toLongLong (w.savings +
        (size - filesize w.fs (Infile ++ (if Options.Zip then ".zip" else ".gz")))) }

/-- The three-way dispatch of `fileHandler` (main.cpp 319-332) on the
extension `x`: the values of `error` and `statcompressedfile` after it, and the
world. -/
def fileDispatch (X : Ext) (Infile : Path) (Options : ECTOptions) (internal : Int)
    (x : String) (size : Int) (w : World) : Nat × Int × World :=
  if isPngExt x then
    let r := OptimizePNG X Infile Options w
    (r.1, 0, r.2)
  else if isJpegExt x then
    let r := OptimizeJPEG X Infile Options w
    (r.1, 0, r.2)
  else if Options.Gzip ∧ internal = 0 then
    let r := ECTGzip X Infile Options.Mode (toUChar Options.DeflateMultithreading) size
      (if Options.Zip then 1 else 0) (if Options.Strict then 1 else 0) w
    (0, r.1, r.2)
  else (0, 0, w)

/-- The statements of `fileHandler` (main.cpp 304-355), built without
`MP3_SUPPORTED`. The result is the returned error code and the new world. -/
def fileHandlerBody (X : Ext) (Infile : Path) (Options : ECTOptions) (internal : Int)
    (w : World) : Nat × World :=
  let x := extensionOf Infile
  if (Options.PNG_ACTIVE ∧ isPngExt x) ∨ (Options.JPEG_ACTIVE ∧ isJpegExt x)
      ∨ (Options.Gzip ∧ internal = 0) then
    -- `t` is only read when `Options.keep` is set
    let t := get_file_time w.fs Infile
    let size := filesize w.fs Infile
    if size < 0 then (1, w)
    else if size < 1200000000 then
      let d := fileDispatch X Infile Options internal x size w
      -- `statcompressedfile` is 2 only on the Gzip branch, where it means `return 1`
      if d.2.1 = 2 then (1, d.2.2)
      else
        let w1 :=
          if Options.SavingsCounter ∧ internal = 0 then addSavings Infile Options size d.2.1 d.2.2
          else d.2.2
        (d.1, if Options.keep ∧ d.2.1 = 0 then set_file_time Infile t w1 else w1)
    else (0, if Options.keep then set_file_time Infile t w else w)
  else (0, w)

/-- Translation of `fileHandler`: its statements, followed by the ghost record
of the call and of the value it returned. -/
def fileHandler (X : Ext) (Infile : Path) (Options : ECTOptions) (internal : Int)
    (w : World) : Nat × World :=
  let r := fileHandlerBody X Infile Options internal w
  (r.1, r.2.emit (Event.fileHandler Infile internal r.1))

/-! ## Archive builder -/

/-- Modelled from the spec: `AddOrReplaceArchiveMember(archivePath, memberName,
bytesOrNone, sourceFileForTimestamp) -> ok|fail`, the miniz function
`mz_zip_add_mem_to_archive_file_in_place`. The archive file is created or
rewritten on success and left alone on failure. -/
def mz_zip_add (X : Ext) (archive : Path) (member : String) (data : Option Bytes)
    (src : Path) (w : World) : Bool × World :=
  let w1 := w.emit (Event.zipAdd archive member)
  if isDirNode w.fs archive then (false, w1)
  else
    match X.zipAdd (readFile w.fs archive) member data (get_file_time w.fs src) with
    | some a => (true, w1.setFS (w.fs.write archive (Node.file a X.now true)))
    | none => (false, w1)

/-- Modelled from the spec: `RecompressArchive(archivePath, config) ->
memberCountTouched`, the function `ReZipFile` declared in main.h: it rewrites the
archive in place and reports the number of files it handled (`*files` stays 0
when the archive cannot be read). -/
def ReZipFile (X : Ext) (file_path : Path) (Options : ECTOptions) (w : World) : Nat × World :=
  let w1 := w.emit (Event.ReZipFile file_path)
  match readFile w.fs file_path with
  | some a =>
      ((X.reZip Options a).2,
        w1.setFS (w.fs.write file_path (Node.file (X.reZip Options a).1 X.now true)))
  | none => (0, w1)

/-- The path without its trailing separators: the name under which the table
holds a directory that the command line names as `d/`. -/
def trimSep (X : Ext) (p : Path) : Path :=
  String.mk (p.data.reverse.dropWhile (fun c => X.EXTSEP.data.contains c)).reverse

/-- Modelled from the spec: `isDirectory` of support.h (directory test): the
path, with or without trailing separators, names a directory. -/
def isDirectory (X : Ext) (fs : FS) (p : Path) : Bool :=
  p != "" && isDirNode fs (trimSep X p)

/-- Model of `std::filesystem::is_directory`: the same test as `isDirectory`. -/
def is_directory (X : Ext) (fs : FS) (p : Path) : Bool := isDirectory X fs p

/-- Model of `operator/` of `std::filesystem::path`, by which the iterators
name an entry of `dir`: a separator is put in between unless `dir` ends with
one. -/
def joinPath (X : Ext) (dir rel : Path) : Path :=
  if trimSep X dir = dir then dir ++ X.EXTSEP ++ rel else dir ++ rel

/-- The entries of the table below the directory `dir`, each as its path
relative to `dir`, in table order. -/
def entriesBelow (X : Ext) (fs : FS) (dir : Path) : List String :=
  ((fs.entries.map Prod.fst).filter (fun k =>
      (trimSep X dir ++ X.EXTSEP).data.isPrefixOf k.data && k != trimSep X dir ++ X.EXTSEP)).map
    (fun k => String.mk (k.data.drop (trimSep X dir ++ X.EXTSEP).data.length))

/-- Model of `std::filesystem::recursive_directory_iterator`: every entry below
`dir`, files and directories alike, in table order, each named by `dir` joined
with its relative path. -/
def recursive_directory_iterator (X : Ext) (fs : FS) (dir : Path) : List Path :=
  (entriesBelow X fs dir).map (joinPath X dir)

/-- Model of `std::filesystem::directory_iterator`: the immediate entries of
`dir` (no separator in the relative path), files and directories alike, in
table order. -/
def directory_iterator (X : Ext) (fs : FS) (dir : Path) : List Path :=
  ((entriesBelow X fs dir).filter (fun rel =>
    !(rel.data.tails.any (fun t => X.EXTSEP.data.isPrefixOf t)))).map (joinPath X dir)

/-- Model of `s.erase(0, n)`. -/
def erase0 (s : String) (n : Nat) : String := String.mk (s.data.drop n)

/-- The target name of `zipHandler` when the first argument is not itself an
archive (main.cpp 378-388). -/
def zipTargetName (X : Ext) (fs : FS) (arg0 : Path) : Path :=
  let zipfilename :=
    if !isDirectory X fs arg0 && is_regular_file fs arg0 then
      if find_last_of arg0 "." > find_last_of arg0 "/\\" then
        substrTo arg0 (find_last_of arg0 ".")
      else arg0
    else if back arg0 = some '/' ∨ back arg0 = some '\\' then pop_back arg0
    else arg0
  zipfilename ++ ".zip"

/-- Loop state of `zipHandler`: the locals `error` and `local_bytes`, and the
world. -/
structure ZipAcc where
  error : Int
  local_bytes : Nat
  w : World
deriving DecidableEq, Repr

/-- Addition of one regular file as member `member` (main.cpp 415-443 for an
entry of a directory walk, 454-485 for a plain argument; the two copies differ
only in the member name). `continue` leaves the world as it is. Exhaustion of
the heap (`exit(1)`) is not modelled. -/
def zipAddFile (X : Ext) (zipfilename : Path) (member : String) (src : Path)
    (acc : ZipAcc) : ZipAcc :=
  let f := filesize acc.w.fs src
  if f > UINT_MAX then acc
  else if f < 0 then acc
  else
    match readFile acc.w.fs src with
    | none => { acc with error := 1 }
    | some data =>
        let r := mz_zip_add X zipfilename member (some data) src acc.w
        if r.1 then
          { acc with local_bytes := toSizeT (acc.local_bytes + filesize r.2.fs src), w := r.2 }
        else { acc with error := 1, w := r.2 }

/-- The walk over `paths` of `zipHandler` (main.cpp 403-445): the argument is
the part of the vector from index `j` on, so its head is `paths[j]` and the head
of its tail is `paths[j + 1]`. The result is `none` when `paths[j + 1]` is read
past the end of the vector. -/
def zipWalk (X : Ext) (zipfilename : Path) (substr : Nat) : List Path → ZipAcc → Option ZipAcc
  | [], acc => some acc
  | p :: rest, acc =>
      let name := erase0 p substr
      if isDirectory X acc.w.fs p then
        match rest.head? with
        | none => none
        | some next =>
            -- `next.compare(0, p.size() + 1, p + "/") != 0`, written twice in the source
            if !((p ++ "/").data.isPrefixOf next.data) || !((p ++ "/").data.isPrefixOf next.data) then
              zipWalk X zipfilename substr rest
                { acc with w := (mz_zip_add X zipfilename (name ++ X.EXTSEP) none p acc.w).2 }
            else zipWalk X zipfilename substr rest acc
      else zipWalk X zipfilename substr rest (zipAddFile X zipfilename name p acc)

/-- The argument loop of `zipHandler` (main.cpp 396-488) over the arguments
from index `i` on: `for(; error == 0 && i < files; i++)`. -/
def zipArgs (X : Ext) (zipfilename : Path) : List Path → ZipAcc → Option ZipAcc
  | [], acc => some acc
  | a :: rest, acc =>
      if acc.error ≠ 0 then some acc
      else if isDirectory X acc.w.fs a then
        let fold := X.canonical a
        let substr := match X.parent_path fold with
          | some parent => parent.length + 1
          | none => 0
        let paths := recursive_directory_iterator X acc.w.fs fold
        match zipWalk X zipfilename substr paths acc with
        | none => none
        | some acc1 =>
            if paths.isEmpty then
              zipArgs X zipfilename rest
                { acc1 with w := (mz_zip_add X zipfilename (erase0 fold substr ++ X.EXTSEP)
                    none a acc1.w).2 }
            else zipArgs X zipfilename rest acc1
      else
        zipArgs X zipfilename rest
          (zipAddFile X zipfilename (substrFrom a ((find_last_of a "/\\" + 1) % 2 ^ 64)) a acc)

/-- The tail of `zipHandler` (main.cpp 489-498). -/
def zipFinish (X : Ext) (zipfilename : Path) (Options : ECTOptions) (t : Int)
    (acc : ZipAcc) : Nat × World :=
  let rz := ReZipFile X zipfilename Options acc.w
  let w1 := { rz.2 with processedfiles := (rz.2.processedfiles + rz.1) % 2 ^ 64 }
  let w2 := if t ≥ 0 then set_file_time zipfilename t w1 else w1
  (acc.error.toNat,
    { w2 with
      bytes := (w2.bytes + acc.local_bytes) % 2 ^ 64
      savings := toLongLong (w2.savings +
        toLongLong (acc.local_bytes - filesize w2.fs zipfilename)) })

/-- Translation of `zipHandler` (main.cpp 357-499). `args` is the list
`argv[args[0]], .., argv[args[files - 1]]`. The result is `none` when the run
reads a vector out of bounds. -/
def zipHandler (X : Ext) (args : List Path) (Options : ECTOptions) (w : World) :
    Option (Nat × World) :=
  match args with
  | [] => none
  | arg0 :: rest =>
      let extension := extensionOf arg0
      if (extension == "zip" || extension == "ZIP" || IsZIP X w.fs arg0)
          && !isDirectory X w.fs arg0 then
        let local_bytes := if exists_ w.fs arg0 then toSizeT (filesize w.fs arg0) else 0
        let t := if exists_ w.fs arg0 ∧ Options.keep then get_file_time w.fs arg0 else -1
        (zipArgs X arg0 rest { error := 0, local_bytes := local_bytes, w := w }).map
          (zipFinish X arg0 Options t)
      else
        let zipfilename := zipTargetName X w.fs arg0
        if exists_ w.fs zipfilename then some (1, w)
        else
          (zipArgs X zipfilename (arg0 :: rest) { error := 0, local_bytes := 0, w := w }).map
            (zipFinish X zipfilename Options (-1))

/-! ## Work distributor and the tail of `main` -/

/-- The enumeration loop of `main` (main.cpp 611-633): the file list built so
far and the value of `error`. -/
def buildFileList (X : Ext) (Options : ECTOptions) (fs : FS) :
    List Path → List Path × Nat → List Path × Nat
  | [], acc => acc
  | a :: rest, acc =>
      if is_regular_file fs a then buildFileList X Options fs rest (acc.1 ++ [a], acc.2)
      else if is_directory X fs a then
        if Options.Recurse then
          buildFileList X Options fs rest (acc.1 ++ recursive_directory_iterator X fs a, acc.2)
        else buildFileList X Options fs rest (acc.1 ++ directory_iterator X fs a, acc.2)
      else buildFileList X Options fs rest (acc.1, 1)

/-- The sequential loop of `main` (main.cpp 646-648, and 651-653 under
`NOMULTI`): `for (file : fileList) error |= fileHandler(file, Options, 0);`. -/
def fileLoop (X : Ext) (Options : ECTOptions) : List Path → Nat × World → Nat × World
  | [], s => s
  | file :: rest, s =>
      let r := fileHandler X file Options 0 s.2
      fileLoop X Options rest (s.1 ||| r.1, r.2)

/-- The part of `main` after option parsing (main.cpp 605-662) for the file
arguments `args`; the result is the exit status and the final world. Usage text
and the savings report go to stdout and are not modelled. The result is `none`
for a run that is not a function of its inputs: worker threads (see `Pool`), or
an out-of-bounds read in `zipHandler`. -/
def mainRun (X : Ext) (Options : ECTOptions) (args : List Path) (w : World) :
    Option (Nat × World) :=
  if Options.Zip ∧ args.length ≠ 0 then
    (zipHandler X args Options w).map (fun r => (0 ||| r.1, r.2))
  else
    let l := buildFileList X Options w.fs args ([], 0)
    if Options.FileMultithreading ≠ 0 then none
    else some (fileLoop X Options l.1 (l.2, w))

/-- Control point of one thread running `multithreadFileLoop` (main.cpp
501-510). -/
inductive Worker where
  /-- About to execute `pos->fetch_add(1)`. -/
  | atFetch
  /-- Holding `nextPos`, about to test `nextPos >= fileList.size()`. -/
  | atTest (nextPos : Nat)
  /-- Past the test, about to call `fileHandler(fileList[nextPos], ..)`. -/
  | atDispatch (nextPos : Nat)
  /-- Left the loop through `break`. -/
  | finished
deriving DecidableEq, Repr

/-- The worker pool of `main` (main.cpp 636-643): the shared atomic cursor
`pos`, the control point of each thread, and the ghost list of dispatches
(worker, index) in the order they happen. -/
structure Pool where
  pos : Nat
  workers : List Worker
  claimed : List (Nat × Nat)
deriving DecidableEq, Repr

/-- The pool right after `std::atomic<size_t> pos(0)` and the creation of `N`
threads. -/
def Pool.init (N : Nat) : Pool :=
  { pos := 0, workers := List.replicate N Worker.atFetch, claimed := [] }

/-- One atomic step of worker `i` of `multithreadFileLoop` over a list of
`size` files: the fetch-and-increment on `size_t`, the bounds test, or the
dispatch. A finished (or absent) worker does nothing. -/
def Pool.step (size : Nat) (s : Pool) (i : Nat) : Pool :=
  match s.workers[i]? with
  | some Worker.atFetch =>
      { s with pos := (s.pos + 1) % 2 ^ 64, workers := s.workers.set i (Worker.atTest s.pos) }
  | some (Worker.atTest nextPos) =>
      let next := if nextPos ≥ size then Worker.finished else Worker.atDispatch nextPos
      { s with workers := s.workers.set i next }
  | some (Worker.atDispatch nextPos) =>
      { s with workers := s.workers.set i Worker.atFetch, claimed := s.claimed ++ [(i, nextPos)] }
  | _ => s

/-- The pool after the interleaving `sched` (the worker that moves at each
step). -/
def Pool.run (size : Nat) (sched : List Nat) (s : Pool) : Pool :=
  sched.foldl (Pool.step size) s

/-- Every thread has left its loop (the state in which `join` returns). -/
def Pool.allFinished (s : Pool) : Bool := s.workers.all (fun k => k == Worker.finished)

/-! ## A concrete instance of the collaborators

Used to evaluate the model on concrete inputs. -/

/-- A toy classifier: a stream starting `1f 8b` is Gzip, simple when the third
byte is 0 and carrying extra header fields otherwise; an unreadable file is 2. -/
def demoIsGzip : Option Bytes → Int
  | none => 2
  | some (31 :: 139 :: 0 :: _) => 1
  | some (31 :: 139 :: _ :: _) => 3
  | some _ => 0

/-- A toy deflater: a three-byte header and every third byte of the input. -/
def demoDeflate (d : Bytes) : Bytes :=
  31 :: 139 :: 0 :: (d.enum.filter (fun e => e.1 % 3 = 0)).map Prod.snd

/-- A toy set of collaborators. -/
def demoExt : Ext where
  IsGzip := demoIsGzip
  IsZIP := fun d => match d with
    | some (80 :: 75 :: _) => true
    | _ => false
  inflate := fun d => some (d.drop 3 ++ d.drop 3)
  deflate := fun _ _ _ d => some (demoDeflate d)
  zopflipng := fun _ _ _ _ _ _ d => (0, d.map (fun b => b.take (b.length - 1)))
  optipng := fun _ _ _ d => (if d.isSome then 5 else -1, none, false)
  jpegtran := fun _ _ _ _ d => (if d.isSome then 0 else 2, d, (d.getD []).length)
  zipAdd := fun a member d _ => some (a.getD [80, 75] ++ [member.length] ++ d.getD [])
  reZip := fun _ a => (a, 1)
  canonical := fun p => String.mk (p.data.reverse.dropWhile (fun c => c == '/')).reverse
  parent_path := fun p =>
    if find_last_of p "/" = npos then none else some (substrTo p (find_last_of p "/"))
  now := 0
  EXTSEP := "/"

/-- The configuration `main` starts from (main.cpp 514-534). -/
def defaultOptions : ECTOptions where
  Mode := 3
  palette_sort := 0
  strip := false
  Progressive := false
  Autorotate := 0
  JPEG_ACTIVE := true
  PNG_ACTIVE := true
  SavingsCounter := true
  Strict := false
  Arithmetic := false
  Gzip := false
  Zip := false
  Reuse := false
  Allfilters := false
  Allfiltersbrute := false
  Allfilterscheap := false
  Recurse := false
  DeflateMultithreading := 0
  FileMultithreading := 0
  keep := false

/-- A world with the given files, zeroed counters and an empty log. -/
def World.ofFiles (entries : List (Path × Node)) : World :=
  { fs := ⟨entries⟩, processedfiles := 0, bytes := 0, savings := 0, log := [] }

/-- Gzip mode at effort 1: `ECT -1 -gzip`. -/
def gzipLevel1 : ECTOptions := { defaultOptions with Mode := 1, Gzip := true }

/-- Gzip mode: `ECT -gzip`. -/
def gzipOptions : ECTOptions := { defaultOptions with Gzip := true }

/-- A PNG and a JPEG file. -/
def worldTwoImages : World :=
  World.ofFiles [("a.png", Node.file [1, 2, 3, 4] 7 true), ("b.jpg", Node.file [5, 6] 7 true)]

/-- A PNG file and a file that has the name of its `.bak` sidecar. -/
def worldPngAndBak : World :=
  World.ofFiles [("p.png", Node.file [1, 2, 3, 4] 7 true),
    ("p.png.bak", Node.file [5, 6, 7] 7 true)]

/-- A simple Gzip stream of twelve bytes. -/
def worldLogGz : World :=
  World.ofFiles [("log.gz", Node.file [31, 139, 0, 1, 2, 3, 4, 5, 6, 7, 8, 9] 7 true)]

/-- Gzip mode with strict losslessness and kept timestamps:
`ECT -gzip -keep --strict`. -/
def strictOptions : ECTOptions := { defaultOptions with Gzip := true, Strict := true, keep := true }

/-- Zip mode: `ECT -zip`. -/
def zipOptions : ECTOptions := { defaultOptions with Gzip := true, Zip := true }

/-- A text file next to a file that has the name of its Gzip output. -/
def worldNotes : World :=
  World.ofFiles [("notes.txt", Node.file [1, 2, 3, 4, 5, 6] 7 true),
    ("notes.txt.gz", Node.file [9, 9] 3 true)]

/-- A text file next to a file that has the name of its archive. -/
def worldData : World :=
  World.ofFiles [("./data.txt", Node.file [1, 2, 3, 4, 5, 6] 7 true),
    ("./data.zip", Node.file [9, 9] 3 true)]

/-- A Gzip stream whose header announces extra fields. -/
def worldComplexGz : World :=
  World.ofFiles [("log.gz", Node.file [31, 139, 8, 1, 2, 3, 4, 5, 6, 7, 8, 9] 7 true)]

/-- The file `data.txt`, given without a directory part. -/
def worldDataTxt : World := World.ofFiles [("data.txt", Node.file [1, 2, 3, 4, 5, 6] 7 true)]

/-- The file `./data.txt`, given with a directory part. -/
def worldDotData : World := World.ofFiles [("./data.txt", Node.file [1, 2, 3, 4, 5, 6] 7 true)]

/-- An unreadable file and a readable one. -/
def worldUnreadable : World :=
  World.ofFiles [("a.txt", Node.file [1, 2] 7 false), ("b.txt", Node.file [1, 2, 3] 7 true)]

/-- A PNG file. -/
def worldPng : World := World.ofFiles [("a.png", Node.file [1, 2, 3, 4, 5, 6, 7, 8] 7 true)]

/-- A JPEG file. -/
def worldJpg : World := World.ofFiles [("a.jpg", Node.file [1, 2, 3, 4, 5, 6, 7, 8] 7 true)]

/-- Image files whose extensions are spelled in mixed case. -/
def worldMixed : World :=
  World.ofFiles [("a.Png", Node.file [1, 2, 3, 4, 5, 6, 7, 8] 7 true),
    ("c.JpEg", Node.file [1, 2, 3, 4, 5, 6, 7, 8] 7 true)]

/-- Gzip mode with PNG handling disabled: `ECT -gzip --disable-png`. -/
def noPngGzip : ECTOptions := { defaultOptions with PNG_ACTIVE := false, Gzip := true }

/-- Gzip mode with JPEG handling disabled: `ECT -gzip --disable-jpg`. -/
def noJpegGzip : ECTOptions := { defaultOptions with JPEG_ACTIVE := false, Gzip := true }

/-! ## Notions used to state the claims -/

/-- The calls of `fileHandler` recorded in a log, in order: path, `internal`
and returned value. -/
def callEvents (log : List Event) : List (Path × Int × Nat) :=
  log.filterMap (fun e => match e with
    | Event.fileHandler f i r => some (f, i, r)
    | _ => none)

/-- The calls of `fileHandler` recorded while the world went from `w` to `v`. -/
def newCalls (w v : World) : List (Path × Int × Nat) :=
  (callEvents v.log).drop (callEvents w.log).length

/-- The step from `w` to `v` only appends records to the log, none of them a
call of `fileHandler`. -/
def LogQuiet (w v : World) : Prop :=
  w.log <+: v.log ∧ callEvents v.log = callEvents w.log

/-- The step from `w` to `v` only appends records to the log, none of them a
call of `fileHandler`, and leaves the three global counters alone. -/
def Quiet (w v : World) : Prop :=
  LogQuiet w v ∧
    v.processedfiles = w.processedfiles ∧ v.bytes = w.bytes ∧ v.savings = w.savings

/-- The index a worker holds and may still dispatch: the ticket of a worker
past the bounds test, or before it when the ticket is in bounds. -/
def Worker.held (size : Nat) : Worker → List Nat
  | Worker.atTest nextPos => if nextPos < size then [nextPos] else []
  | Worker.atDispatch nextPos => [nextPos]
  | _ => []

/-- The indices held by the workers of a pool. -/
def heldTickets (size : Nat) : List Worker → List Nat
  | [] => []
  | k :: l => k.held size ++ heldTickets size l

/-- A worker that has drawn an index past the end of the list (it will leave
its loop, or has left it). -/
def Worker.over (size : Nat) : Worker → Bool
  | Worker.atTest nextPos => decide (size ≤ nextPos)
  | Worker.finished => true
  | _ => false

/-- Number of workers that have drawn an index past the end of the list. -/
def overCount (size : Nat) : List Worker → Nat
  | [] => 0
  | k :: l => (if k.over size then 1 else 0) + overCount size l

/-- Steps a worker still has to take before its next fetch. -/
def Worker.weight : Worker → Nat
  | Worker.atTest _ => 2
  | Worker.atDispatch _ => 1
  | _ => 0

/-- Total weight of the workers. -/
def weightSum : List Worker → Nat
  | [] => 0
  | k :: l => k.weight + weightSum l

/-- A bound on the number of steps the pool can still take: three per fetch
that remains possible, plus the steps in progress. -/
def Pool.potential (size : Nat) (s : Pool) : Nat :=
  3 * (size + s.workers.length - s.pos) + weightSum s.workers

/-- The invariant of the cursor protocol for a list of `size` files and `N`
workers. -/
structure PoolInv (size N : Nat) (s : Pool) : Prop where
  len : s.workers.length = N
  tickets : (s.claimed.map Prod.snd ++ heldTickets size s.workers).Perm
    (List.range (min s.pos size))
  bound : s.pos ≤ size + overCount size s.workers
  past : ∀ k ∈ s.workers, k.over size = true → size ≤ s.pos
  owner : ∀ c ∈ s.claimed, c.1 < N

/-- A top-level call of `fileHandler` on `Infile` in world `w` reaches the
counter update: the type is recognised and enabled or Gzip mode is on, the size
is readable and below the ceiling, and the Gzip rewriter, if the file goes to
it, does not return the refusal status 2. -/
def counted (X : Ext) (Options : ECTOptions) (Infile : Path) (w : World) : Prop :=
  ((Options.PNG_ACTIVE = true ∧ isPngExt (extensionOf Infile) = true)
      ∨ (Options.JPEG_ACTIVE = true ∧ isJpegExt (extensionOf Infile) = true)
      ∨ Options.Gzip = true)
    ∧ 0 ≤ filesize w.fs Infile ∧ filesize w.fs Infile < 1200000000
    ∧ (isPngExt (extensionOf Infile) = false → isJpegExt (extensionOf Infile) = false →
        (ECTGzip X Infile Options.Mode (toUChar Options.DeflateMultithreading)
          (filesize w.fs Infile) (if Options.Zip then 1 else 0)
          (if Options.Strict then 1 else 0) w).1 ≠ 2)

instance (X : Ext) (Options : ECTOptions) (Infile : Path) (w : World) :
    Decidable (counted X Options Infile w) := by
  unfold counted; infer_instance

/-- The file that holds the result of a top-level call: the input itself, or
the sibling `.gz` / `.zip` when `ECTGzip` compressed the input directly
(`statcompressedfile` is 1). -/
def resultPath (X : Ext) (Options : ECTOptions) (Infile : Path) (w : World) : Path :=
  if (fileDispatch X Infile Options 0 (extensionOf Infile) (filesize w.fs Infile) w).2.1 = 0
  then Infile
  else Infile ++ (if Options.Zip then ".zip" else ".gz")

/-- Size of the result of a top-level call, read when the call has returned. -/
def finalSize (X : Ext) (Options : ECTOptions) (Infile : Path) (w : World) : Int :=
  filesize (fileHandler X Infile Options 0 w).2.fs (resultPath X Options Infile w)

/-- Every call of a sequential top-level run over the list reaches the counter
update. -/
def allCounted (X : Ext) (Options : ECTOptions) : List Path → World → Prop
  | [], _ => True
  | f :: rest, w => counted X Options f w ∧ allCounted X Options rest (fileHandler X f Options 0 w).2

/-- The sizes a sequential top-level run over the list meets: for each file,
in processing order, its size when its call starts and the size of its result
when its call has returned. -/
def measured (X : Ext) (Options : ECTOptions) : List Path → World → List (Int × Int)
  | [], _ => []
  | f :: rest, w =>
      (filesize w.fs f, finalSize X Options f w)
        :: measured X Options rest (fileHandler X f Options 0 w).2

/-- The recompressed stream of the Gzip rewrite cycle: the output of the
deflater (at `Mode`, `multithreading`, not as ZIP) on the inflated content of
the file, when both steps succeed. -/
def recompressed (X : Ext) (Mode multithreading : Nat) (fs : FS) (Infile : Path) :
    Option Bytes :=
  ((readFile fs Infile).bind X.inflate).bind (X.deflate Mode multithreading 0)

/-- The paths a call of `fileHandler` on `f` may read or write: the file and
its sidecars. -/
def footprint (f : Path) : List Path :=
  [f, f ++ ".bak", f ++ ".gz", f ++ ".zip", f ++ ".ungz", f ++ ".ungz.gz"]

/-- The two file systems hold the same objects at the paths of `S`. -/
def AgreeOn (S : List Path) (a b : FS) : Prop := ∀ p ∈ S, a.lookup p = b.lookup p

/-- Two results of a step agree: same value, and file systems that agree on `S`. -/
def ResAgree {α : Type} (S : List Path) (a b : α × World) : Prop :=
  a.1 = b.1 ∧ AgreeOn S a.2.fs b.2.fs

/-- The step from `w` to `v` leaves every path outside `S` as it was. -/
def Frame (S : List Path) (w v : World) : Prop := ∀ p, p ∉ S → v.fs.lookup p = w.fs.lookup p

/-- The three global counters of a world. -/
def World.counters (w : World) : Nat × Nat × Int := (w.processedfiles, w.bytes, w.savings)

/-- What a top-level call on `f` in world `w` adds to the counters: the size
at the start of the call and the size of the result, or nothing when the
savings counter is off or the call does not reach the counter update. -/
def tally (X : Ext) (O : ECTOptions) (f : Path) (w : World) : Option (Int × Int) :=
  if O.SavingsCounter = true ∧ counted X O f w then some (filesize w.fs f, finalSize X O f w)
  else none

/-- The three `fetch_add`s of the counter update, on the triple of counters. -/
def bump (t : Option (Int × Int)) (c : Nat × Nat × Int) : Nat × Nat × Int :=
  match t with
  | none => c
  | some m => ((c.1 + 1) % 2 ^ 64, toSizeT (c.2.1 + m.1), toLongLong (c.2.2 + (m.1 - m.2)))

/-- No path of the footprint of `a` is in the footprint of `b`. -/
def Apart (a b : Path) : Prop := ∀ p ∈ footprint a, p ∉ footprint b

instance (a b : Path) : Decidable (Apart a b) := by
  unfold Apart; infer_instance

/-! ## Summary report -/

/-- The four `int` locals `hours`, `minutes`, `seconds` and `milliseconds` that
`ECT_ReportSavings` prints as `HH:MM:SS.mmm`. -/
structure Duration where
  hours : Int
  minutes : Int
  seconds : Int
  milliseconds : Int
deriving DecidableEq, Repr

/-- The duration fields of `ECT_ReportSavings` (main.cpp 120-124) for the
`long long` value `totalMilliseconds`: `/` and `%` truncate towards zero, and
each result is converted to `int`. -/
def reportDuration (totalMilliseconds : Int) : Duration where
  milliseconds := toInt32 (Int.tmod totalMilliseconds 1000)
  seconds := toInt32 (Int.tmod (Int.tdiv totalMilliseconds 1000) 60)
  minutes := toInt32 (Int.tmod (Int.tdiv totalMilliseconds (1000 * 60)) 60)
  hours := toInt32 (Int.tdiv totalMilliseconds (1000 * 60 * 60))

/-! ## Further concrete inputs -/

/-- A directory `d` that holds a PNG file and a subdirectory with a JPEG file. -/
def worldTree : World :=
  World.ofFiles [("d", Node.dir 4096 7), ("d/a.png", Node.file [1, 2, 3, 4] 7 true),
    ("d/sub", Node.dir 4096 7), ("d/sub/b.jpg", Node.file [5, 6] 7 true)]

/-- The option `-recurse`. -/
def recurseOptions : ECTOptions := { defaultOptions with Recurse := true }

/-- Collaborators whose PNG and JPEG optimizers report failure on every input
and leave the file alone. -/
def failingCodecs : Ext :=
  { demoExt with
    optipng := fun _ _ _ _ => (-1, none, false)
    jpegtran := fun _ _ _ _ _ => (2, none, 0) }

/-- Progressive JPEG output at the default effort: `ECT -progressive`. -/
def progressiveOptions : ECTOptions := { defaultOptions with Progressive := true }

/-- Zip mode with kept timestamps: `ECT -zip -keep`. -/
def zipKeepOptions : ECTOptions := { zipOptions with keep := true }

/-- An archive `a.zip` with modification time 3 and a text file. -/
def worldArchive : World :=
  World.ofFiles [("a.zip", Node.file [80, 75, 1] 3 true), ("b.txt", Node.file [1, 2, 3] 7 true)]

/-- A directory `d` whose only entry is the empty directory `d/e`. -/
def worldEmptyDir : World :=
  World.ofFiles [("d", Node.dir 4096 7), ("d/e", Node.dir 4096 7)]

/-- Collaborators whose archive mutator rejects every directory entry. -/
def rejectDirEntries : Ext :=
  { demoExt with
    zipAdd := fun a member d t => if d.isNone then none else demoExt.zipAdd a member d t }

/-- Two readable text files, given with a directory part. -/
def worldThree : World :=
  World.ofFiles [("./a.txt", Node.file [1, 2] 7 true), ("./b.txt", Node.file [1, 2, 3] 7 true)]

/-- A directory `d` that holds the empty directory `d/e` and the file
`d/f.txt`. -/
def worldDirFirst : World :=
  World.ofFiles [("d", Node.dir 4096 7), ("d/e", Node.dir 4096 7),
    ("d/f.txt", Node.file [1, 2, 3] 7 true)]

/-! ## Notions used to state the claims on enumeration, retries and archives -/

/-- The addition of the file `src` as a member fails in a way that sets the
error flag (main.cpp 428-441, 467-483): the size of the file is readable and at
most `UINT_MAX`, and the file cannot be opened and fully read, or the archive
mutator rejects the member. -/
def memberFails (X : Ext) (zipfilename : Path) (member : String) (src : Path) (w : World) :
    Prop :=
  0 ≤ filesize w.fs src ∧ filesize w.fs src ≤ UINT_MAX
    ∧ (readFile w.fs src = none
      ∨ ∃ d, readFile w.fs src = some d
          ∧ (mz_zip_add X zipfilename member (some d) src w).1 = false)


/-- The first call of the transcoder in `OptimizeJPEG` (main.cpp 260). -/
def jpegFirst (X : Ext) (Infile : Path) (Options : ECTOptions) (w : World) :
    (Int × Nat) × World :=
  mozjpegtran X Options.Arithmetic
    (Options.Progressive
      && (decide (Options.Mode > 1)
        || decide (filesize (w.emit (Event.OptimizeJPEG Infile)).fs Infile > 5000)))
    Options.strip Options.Autorotate Infile Infile (w.emit (Event.OptimizeJPEG Infile))

/-- The second, non-progressive call of the transcoder in `OptimizeJPEG`
(main.cpp 263), made in the world the first call left. -/
def jpegSecond (X : Ext) (Infile : Path) (Options : ECTOptions) (w : World) :
    (Int × Nat) × World :=
  mozjpegtran X Options.Arithmetic false Options.strip Options.Autorotate Infile Infile
    (jpegFirst X Infile Options w).2

/-- The retry condition in the words of the claim: progressive encoding was
requested, the effort level is greater than 1, and the first attempt reported no
size reduction (`res` is 1) or its reported size is below the threshold of the
effort level. -/
def jpegRetry (Options : ECTOptions) (res : Int) (stsize : Nat) : Prop :=
  Options.Progressive = true ∧ Options.Mode > 1
    ∧ (res = 1 ∨ (Options.Mode = 2 ∧ stsize < 6500) ∨ (Options.Mode = 3 ∧ stsize < 10000)
      ∨ (Options.Mode = 4 ∧ stsize < 15000) ∨ (Options.Mode > 4 ∧ stsize < 20000))

instance (Options : ECTOptions) (res : Int) (stsize : Nat) :
    Decidable (jpegRetry Options res stsize) := by
  unfold jpegRetry; infer_instance

/-- The calls of the transcoder recorded in a log: the `progressive` argument
of each, in order. -/
def jpegCalls (log : List Event) : List Bool :=
  log.filterMap (fun e => match e with
    | Event.mozjpegtran p _ => some p
    | _ => none)

/-- The timestamps applied in a log: file and time of each `set_file_time`, in
order. -/
def timeEvents (log : List Event) : List (Path × Int) :=
  log.filterMap (fun e => match e with
    | Event.set_file_time p t => some (p, t)
    | _ => none)

/-- The first argument of `zipHandler` is taken as the archive itself
(main.cpp 368): it has the extension `zip` or `ZIP` or the content of an
archive, and is not a directory. -/
def archiveGiven (X : Ext) (fs : FS) (arg0 : Path) : Bool :=
  (extensionOf arg0 == "zip" || extensionOf arg0 == "ZIP" || IsZIP X fs arg0)
    && !isDirectory X fs arg0

/-- The condition under which `zipHandler` captures a time (main.cpp 368-375)
and applies it at the end (main.cpp 492): the option `keep` is set, the first
argument is taken as the archive itself and exists before the run, and its
time is not negative. -/
def zipStamped (X : Ext) (O : ECTOptions) (w : World) (arg0 : Path) : Prop :=
  O.keep = true ∧ archiveGiven X w.fs arg0 = true ∧ exists_ w.fs arg0 = true
    ∧ 0 ≤ get_file_time w.fs arg0

instance (X : Ext) (O : ECTOptions) (w : World) (arg0 : Path) :
    Decidable (zipStamped X O w arg0) := by
  unfold zipStamped; infer_instance

/-! ## File-system lemmas -/

theorem lookupList_writeList (l : List (Path × Node)) (p q : Path) (n : Node) :
    lookupList q (writeList p n l) = if q = p then some n else lookupList q l := by
  induction l with
  | nil =>
    by_cases h : q = p
    · simp [lookupList, writeList, h]
    · have h' : ¬ p = q := fun e => h e.symm
      simp [lookupList, writeList, h, h']
  | cons e l ih =>
    by_cases hq : q = p
    · subst hq
      by_cases hk : e.1 = q <;> simp [lookupList, writeList, hk, ih]
    · have h' : ¬ p = q := fun e => hq e.symm
      by_cases hk : e.1 = p
      · have h2 : ¬ e.1 = q := fun h => hq (h.symm.trans hk)
        simp [lookupList, writeList, hk, hq, h', h2]
      · simp [lookupList, writeList, hk, hq, ih]

theorem lookupList_eraseList (l : List (Path × Node)) (p q : Path) :
    lookupList q (eraseList p l) = if q = p then none else lookupList q l := by
  induction l with
  | nil => simp [lookupList, eraseList]
  | cons e l ih =>
    by_cases hq : q = p
    · subst hq
      by_cases hk : e.1 = q <;> simp [lookupList, eraseList, hk, ih]
    · have h' : ¬ p = q := fun e => hq e.symm
      by_cases hk : e.1 = p
      · have h2 : ¬ e.1 = q := fun h => hq (h.symm.trans hk)
        simp [lookupList, eraseList, hk, hq, ih, h2, h']
      · simp [lookupList, eraseList, hk, hq, ih]

@[simp] theorem FS.lookup_write (fs : FS) (p q : Path) (n : Node) :
    (fs.write p n).lookup q = if q = p then some n else fs.lookup q :=
  lookupList_writeList fs.entries p q n

@[simp] theorem FS.lookup_erase (fs : FS) (p q : Path) :
    (fs.erase p).lookup q = if q = p then none else fs.lookup q :=
  lookupList_eraseList fs.entries p q

/-! ## Projections of the wrappers -/

@[simp] theorem World.emit_fs (w : World) (e : Event) : (w.emit e).fs = w.fs := rfl
@[simp] theorem World.emit_log (w : World) (e : Event) : (w.emit e).log = w.log ++ [e] := rfl
@[simp] theorem World.emit_processedfiles (w : World) (e : Event) :
    (w.emit e).processedfiles = w.processedfiles := rfl
@[simp] theorem World.emit_bytes (w : World) (e : Event) : (w.emit e).bytes = w.bytes := rfl
@[simp] theorem World.emit_savings (w : World) (e : Event) : (w.emit e).savings = w.savings := rfl
@[simp] theorem World.setFS_fs (w : World) (fs : FS) : (w.setFS fs).fs = fs := rfl
@[simp] theorem World.setFS_log (w : World) (fs : FS) : (w.setFS fs).log = w.log := rfl
@[simp] theorem World.setFS_processedfiles (w : World) (fs : FS) :
    (w.setFS fs).processedfiles = w.processedfiles := rfl
@[simp] theorem World.setFS_bytes (w : World) (fs : FS) : (w.setFS fs).bytes = w.bytes := rfl
@[simp] theorem World.setFS_savings (w : World) (fs : FS) : (w.setFS fs).savings = w.savings := rfl

/-! ## Logs and counters of the wrappers -/

@[simp] theorem callEvents_nil : callEvents [] = [] := rfl

@[simp] theorem callEvents_append (a b : List Event) :
    callEvents (a ++ b) = callEvents a ++ callEvents b := by
  simp [callEvents, List.filterMap_append]

theorem logQuiet_refl (w : World) : LogQuiet w w := ⟨List.prefix_refl _, rfl⟩

theorem logQuiet_trans {a b c : World} (h1 : LogQuiet a b) (h2 : LogQuiet b c) : LogQuiet a c :=
  ⟨h1.1.trans h2.1, h2.2.trans h1.2⟩

theorem quiet_refl (w : World) : Quiet w w := ⟨logQuiet_refl w, rfl, rfl, rfl⟩

theorem quiet_trans {a b c : World} (h1 : Quiet a b) (h2 : Quiet b c) : Quiet a c :=
  ⟨logQuiet_trans h1.1 h2.1, h2.2.1.trans h1.2.1, h2.2.2.1.trans h1.2.2.1,
    h2.2.2.2.trans h1.2.2.2⟩

section wrappers
variable (X : Ext) (p q : Path) (w : World)

@[simp] theorem unlink_log : (unlink p w).log = w.log ++ [Event.unlink p] := rfl
@[simp] theorem unlink_processedfiles : (unlink p w).processedfiles = w.processedfiles := rfl
@[simp] theorem unlink_bytes : (unlink p w).bytes = w.bytes := rfl
@[simp] theorem unlink_savings : (unlink p w).savings = w.savings := rfl
@[simp] theorem unlink_fs : (unlink p w).fs = unlinkFS w.fs p := rfl

@[simp] theorem rename_log : (RenameAndReplace p q w).log = w.log ++ [Event.rename p q] := rfl
@[simp] theorem rename_processedfiles :
    (RenameAndReplace p q w).processedfiles = w.processedfiles := rfl
@[simp] theorem rename_bytes : (RenameAndReplace p q w).bytes = w.bytes := rfl
@[simp] theorem rename_savings : (RenameAndReplace p q w).savings = w.savings := rfl
@[simp] theorem rename_fs : (RenameAndReplace p q w).fs = renameFS w.fs p q := rfl

@[simp] theorem set_file_time_log (t : Int) :
    (set_file_time p t w).log = w.log ++ [Event.set_file_time p t] := rfl
@[simp] theorem set_file_time_processedfiles (t : Int) :
    (set_file_time p t w).processedfiles = w.processedfiles := rfl
@[simp] theorem set_file_time_bytes (t : Int) : (set_file_time p t w).bytes = w.bytes := rfl
@[simp] theorem set_file_time_savings (t : Int) : (set_file_time p t w).savings = w.savings := rfl
@[simp] theorem set_file_time_fs (t : Int) : (set_file_time p t w).fs = setTime w.fs p t := rfl

@[simp] theorem ungz_log : (ungz X p q w).2.log = w.log ++ [Event.ungz p q] := by
  unfold ungz; split <;> rfl
@[simp] theorem ungz_processedfiles : (ungz X p q w).2.processedfiles = w.processedfiles := by
  unfold ungz; split <;> rfl
@[simp] theorem ungz_bytes : (ungz X p q w).2.bytes = w.bytes := by
  unfold ungz; split <;> rfl
@[simp] theorem ungz_savings : (ungz X p q w).2.savings = w.savings := by
  unfold ungz; split <;> rfl

@[simp] theorem ZopfliGzip_log (m t z : Nat) :
    (ZopfliGzip X p m t z w).2.log = w.log ++ [Event.ZopfliGzip p z] := by
  unfold ZopfliGzip; split <;> rfl
@[simp] theorem ZopfliGzip_processedfiles (m t z : Nat) :
    (ZopfliGzip X p m t z w).2.processedfiles = w.processedfiles := by
  unfold ZopfliGzip; split <;> rfl
@[simp] theorem ZopfliGzip_bytes (m t z : Nat) : (ZopfliGzip X p m t z w).2.bytes = w.bytes := by
  unfold ZopfliGzip; split <;> rfl
@[simp] theorem ZopfliGzip_savings (m t z : Nat) :
    (ZopfliGzip X p m t z w).2.savings = w.savings := by
  unfold ZopfliGzip; split <;> rfl

end wrappers

section wrappers2
variable (X : Ext) (p q : Path) (w : World)

@[simp] theorem Zopflipng_log (a b : Bool) (m : Nat) (f : Int) (t u : Nat) :
    (Zopflipng X a p b m f t u w).2.log = w.log ++ [Event.Zopflipng p m f] := rfl
@[simp] theorem Zopflipng_processedfiles (a b : Bool) (m : Nat) (f : Int) (t u : Nat) :
    (Zopflipng X a p b m f t u w).2.processedfiles = w.processedfiles := rfl
@[simp] theorem Zopflipng_bytes (a b : Bool) (m : Nat) (f : Int) (t u : Nat) :
    (Zopflipng X a p b m f t u w).2.bytes = w.bytes := rfl
@[simp] theorem Zopflipng_savings (a b : Bool) (m : Nat) (f : Int) (t u : Nat) :
    (Zopflipng X a p b m f t u w).2.savings = w.savings := rfl

@[simp] theorem zopfliTrial_log (O : ECTOptions) (u : Nat) (i : Int) :
    (zopfliTrial X p O u i w).2.log
      = w.log ++ [Event.Zopflipng p O.Mode (toInt32 (i + O.palette_sort))] := rfl
@[simp] theorem zopfliTrial_processedfiles (O : ECTOptions) (u : Nat) (i : Int) :
    (zopfliTrial X p O u i w).2.processedfiles = w.processedfiles := rfl
@[simp] theorem zopfliTrial_bytes (O : ECTOptions) (u : Nat) (i : Int) :
    (zopfliTrial X p O u i w).2.bytes = w.bytes := rfl
@[simp] theorem zopfliTrial_savings (O : ECTOptions) (u : Nat) (i : Int) :
    (zopfliTrial X p O u i w).2.savings = w.savings := rfl

@[simp] theorem Optipng_log (l : Nat) (a : Bool) (c : Nat) :
    (Optipng X l p a c w).2.log = w.log ++ [Event.Optipng l p] := rfl
@[simp] theorem Optipng_processedfiles (l : Nat) (a : Bool) (c : Nat) :
    (Optipng X l p a c w).2.processedfiles = w.processedfiles := rfl
@[simp] theorem Optipng_bytes (l : Nat) (a : Bool) (c : Nat) :
    (Optipng X l p a c w).2.bytes = w.bytes := rfl
@[simp] theorem Optipng_savings (l : Nat) (a : Bool) (c : Nat) :
    (Optipng X l p a c w).2.savings = w.savings := rfl

@[simp] theorem mozjpegtran_log (a b c : Bool) (r : Nat) :
    (mozjpegtran X a b c r p q w).2.log = w.log ++ [Event.mozjpegtran b p] := rfl
@[simp] theorem mozjpegtran_processedfiles (a b c : Bool) (r : Nat) :
    (mozjpegtran X a b c r p q w).2.processedfiles = w.processedfiles := rfl
@[simp] theorem mozjpegtran_bytes (a b c : Bool) (r : Nat) :
    (mozjpegtran X a b c r p q w).2.bytes = w.bytes := rfl
@[simp] theorem mozjpegtran_savings (a b c : Bool) (r : Nat) :
    (mozjpegtran X a b c r p q w).2.savings = w.savings := rfl

end wrappers2

/-- A step that appends one record, not a call of `fileHandler`, and keeps the
counters is quiet. -/
theorem quiet_of_log {w v u : World} (e : Event) (h : Quiet w v)
    (hl : u.log = v.log ++ [e]) (he : callEvents [e] = [])
    (hp : u.processedfiles = v.processedfiles) (hb : u.bytes = v.bytes)
    (hs : u.savings = v.savings) : Quiet w u :=
  quiet_trans h ⟨⟨by simp [hl], by simp [hl, he]⟩, hp, hb, hs⟩

theorem quiet_ite_snd {α : Type} {w : World} (c : Prop) [Decidable c] (a b : α × World)
    (ha : Quiet w a.2) (hb : Quiet w b.2) : Quiet w (if c then a else b).2 := by
  split_ifs <;> assumption

theorem quiet_ite {w : World} (c : Prop) [Decidable c] (a b : World)
    (ha : Quiet w a) (hb : Quiet w b) : Quiet w (if c then a else b) := by
  split_ifs <;> assumption

theorem quiet_emit {w v : World} (e : Event) (he : callEvents [e] = []) (h : Quiet w v) :
    Quiet w (v.emit e) := quiet_of_log e h rfl he rfl rfl rfl

theorem quiet_unlink {w v : World} (p : Path) (h : Quiet w v) : Quiet w (unlink p v) :=
  quiet_of_log _ h rfl rfl rfl rfl rfl

theorem quiet_rename {w v : World} (p q : Path) (h : Quiet w v) :
    Quiet w (RenameAndReplace p q v) := quiet_of_log _ h rfl rfl rfl rfl rfl

theorem quiet_set_file_time {w v : World} (p : Path) (t : Int) (h : Quiet w v) :
    Quiet w (set_file_time p t v) := quiet_of_log _ h rfl rfl rfl rfl rfl

theorem quiet_Zopflipng {w v : World} (X : Ext) (p : Path) (a b : Bool) (m : Nat) (f : Int)
    (t u : Nat) (h : Quiet w v) : Quiet w (Zopflipng X a p b m f t u v).2 :=
  quiet_of_log _ h rfl rfl rfl rfl rfl

theorem quiet_zopfliTrial {w v : World} (X : Ext) (p : Path) (O : ECTOptions) (u : Nat) (i : Int)
    (h : Quiet w v) : Quiet w (zopfliTrial X p O u i v).2 :=
  quiet_of_log _ h rfl rfl rfl rfl rfl

theorem quiet_Optipng {w v : World} (X : Ext) (p : Path) (l : Nat) (a : Bool) (c : Nat)
    (h : Quiet w v) : Quiet w (Optipng X l p a c v).2 :=
  quiet_of_log _ h rfl rfl rfl rfl rfl

theorem quiet_mozjpegtran {w v : World} (X : Ext) (p q : Path) (a b c : Bool) (r : Nat)
    (h : Quiet w v) : Quiet w (mozjpegtran X a b c r p q v).2 :=
  quiet_of_log _ h rfl rfl rfl rfl rfl

theorem quiet_ungz {w v : World} (X : Ext) (p q : Path) (h : Quiet w v) :
    Quiet w (ungz X p q v).2 :=
  quiet_of_log (Event.ungz p q) h (by simp) rfl (by simp) (by simp) (by simp)

theorem quiet_ZopfliGzip {w v : World} (X : Ext) (p : Path) (m t z : Nat) (h : Quiet w v) :
    Quiet w (ZopfliGzip X p m t z v).2 :=
  quiet_of_log (Event.ZopfliGzip p z) h (by simp) rfl (by simp) (by simp) (by simp)

theorem quiet_pngFirst {w v : World} (X : Ext) (p : Path) (O : ECTOptions) (u : Nat)
    (h : Quiet w v) : Quiet w (pngFirst X p O u v).2 := by
  unfold pngFirst
  split_ifs
  · exact quiet_Zopflipng _ _ _ _ _ _ _ _ h
  · exact h

theorem quiet_pngFilter {w v : World} (X : Ext) (p : Path) (O : ECTOptions)
    (h : Quiet w v) : Quiet w (pngFilter X p O v).2 := by
  unfold pngFilter
  split_ifs <;> first | exact h | exact quiet_Optipng _ _ _ _ _ h

theorem quiet_pngBody {w v : World} (X : Ext) (p : Path) (O : ECTOptions) (u : Nat)
    (size x filter : Int) (h : Quiet w v) : Quiet w (pngBody X p O u size x filter v).2 := by
  unfold pngBody
  simp only [pngIndices, List.foldl]
  split_ifs
  all_goals
    repeat' first
      | with_reducible exact h
      | dsimp only
      | with_reducible apply quiet_zopfliTrial
      | with_reducible apply quiet_unlink
      | with_reducible apply quiet_rename

theorem quiet_OptimizePNG {w v : World} (X : Ext) (Infile : Path) (O : ECTOptions)
    (h : Quiet w v) : Quiet w (OptimizePNG X Infile O v).2 := by
  have h0 : Quiet w (v.emit (Event.OptimizePNG Infile)) := quiet_emit _ rfl h
  unfold OptimizePNG
  simp only []
  split_ifs
  all_goals
    repeat' first
      | with_reducible exact h0
      | dsimp only
      | with_reducible apply quiet_Optipng
      | with_reducible apply quiet_pngBody
      | with_reducible apply quiet_pngFilter
      | with_reducible apply quiet_pngFirst

theorem quiet_OptimizeJPEG {w v : World} (X : Ext) (Infile : Path) (O : ECTOptions)
    (h : Quiet w v) : Quiet w (OptimizeJPEG X Infile O v).2 := by
  have h0 : Quiet w (v.emit (Event.OptimizeJPEG Infile)) := quiet_emit _ rfl h
  unfold OptimizeJPEG
  simp only []
  split_ifs
  all_goals
    repeat' first
      | with_reducible exact h0
      | dsimp only
      | with_reducible apply quiet_mozjpegtran

theorem quiet_ECTGzip {w v : World} (X : Ext) (Infile : Path) (Mode mt : Nat) (fs : Int)
    (ZIP : Nat) (strict : Int) (h : Quiet w v) :
    Quiet w (ECTGzip X Infile Mode mt fs ZIP strict v).2 := by
  unfold ECTGzip
  simp only []
  split_ifs
  all_goals
    repeat' first
      | with_reducible exact h
      | dsimp only
      | with_reducible apply quiet_unlink
      | with_reducible apply quiet_rename
      | with_reducible apply quiet_ZopfliGzip
      | with_reducible apply quiet_ungz


theorem quiet_fileDispatch {w v : World} (X : Ext) (f : Path) (O : ECTOptions) (i : Int)
    (x : String) (size : Int) (h : Quiet w v) :
    Quiet w (fileDispatch X f O i x size v).2.2 := by
  unfold fileDispatch
  split_ifs <;> dsimp only <;>
    first
      | exact h
      | exact quiet_OptimizePNG X f O h
      | exact quiet_OptimizeJPEG X f O h
      | exact quiet_ECTGzip X f _ _ _ _ _ h

@[simp] theorem addSavings_log (f : Path) (O : ECTOptions) (a b : Int) (w : World) :
    (addSavings f O a b w).log = w.log := rfl

@[simp] theorem addSavings_fs (f : Path) (O : ECTOptions) (a b : Int) (w : World) :
    (addSavings f O a b w).fs = w.fs := rfl

theorem logQuiet_of_log {w v u : World} (e : Event) (h : LogQuiet w v)
    (hl : u.log = v.log ++ [e]) (he : callEvents [e] = []) : LogQuiet w u :=
  logQuiet_trans h ⟨by simp [hl], by simp [hl, he]⟩

theorem logQuiet_set_file_time {w v : World} (p : Path) (t : Int) (h : LogQuiet w v) :
    LogQuiet w (set_file_time p t v) := logQuiet_of_log _ h rfl rfl

theorem logQuiet_addSavings {w v : World} (f : Path) (O : ECTOptions) (a b : Int)
    (h : LogQuiet w v) : LogQuiet w (addSavings f O a b v) := h

theorem logQuiet_fileHandlerBody (X : Ext) (f : Path) (O : ECTOptions) (i : Int) (w : World) :
    LogQuiet w (fileHandlerBody X f O i w).2 := by
  have hD := fun x size => (quiet_fileDispatch X f O i x size (quiet_refl w)).1
  have h0 := logQuiet_refl w
  unfold fileHandlerBody
  simp only []
  split_ifs
  all_goals
    repeat' first
      | with_reducible exact h0
      | with_reducible exact hD _ _
      | dsimp only
      | with_reducible apply logQuiet_set_file_time
      | with_reducible apply logQuiet_addSavings

theorem callEvents_fileHandler (X : Ext) (f : Path) (O : ECTOptions) (i : Int) (w : World) :
    callEvents (fileHandler X f O i w).2.log
      = callEvents w.log ++ [(f, i, (fileHandler X f O i w).1)] := by
  unfold fileHandler
  simp [(logQuiet_fileHandlerBody X f O i w).2]
  rfl

/-! ## Sequential work distribution (C1) -/

theorem fileLoop_calls (X : Ext) (Options : ECTOptions) (fileList : List Path) :
    ∀ (error : Nat) (w : World), ∃ L : List (Path × Int × Nat),
      callEvents (fileLoop X Options fileList (error, w)).2.log = callEvents w.log ++ L
      ∧ L.map (fun c => (c.1, c.2.1)) = fileList.map (fun f => (f, (0 : Int)))
      ∧ (fileLoop X Options fileList (error, w)).1 = L.foldl (fun a c => a ||| c.2.2) error := by
  induction fileList with
  | nil => intro error w; exact ⟨[], by simp [fileLoop], rfl, rfl⟩
  | cons f rest ih =>
    intro error w
    obtain ⟨L, h1, h2, h3⟩ := ih (error ||| (fileHandler X f Options 0 w).1)
      (fileHandler X f Options 0 w).2
    refine ⟨(f, 0, (fileHandler X f Options 0 w).1) :: L, ?_, ?_, ?_⟩
    · rw [fileLoop, h1, callEvents_fileHandler]; simp
    · simp [h2]
    · rw [fileLoop, h3]; rfl

/-- C1. Work Distributor, sequential case. With no worker threads
(`FileMultithreading = 0`) and outside Zip mode, `main` returns the result of
the sequential loop over the enumerated list, started with the enumeration error
flag; and for every file list, every incoming value of the flag and every world,
the calls of `fileHandler` made by the loop are exactly one per element of the
list, in list order and with `internal = 0`, and the value returned is the
bitwise OR of the flag with all the values those calls returned (so a non-zero
result never ends the loop early). -/
theorem C1_sequential_run (X : Ext) (Options : ECTOptions) (args : List Path) (w : World)
    (hplain : ¬ (Options.Zip = true ∧ args.length ≠ 0))
    (hworkers : Options.FileMultithreading = 0) :
    mainRun X Options args w
        = some (fileLoop X Options (buildFileList X Options w.fs args ([], 0)).1
            ((buildFileList X Options w.fs args ([], 0)).2, w))
    ∧ ∀ (fileList : List Path) (error : Nat) (v : World),
        (newCalls v (fileLoop X Options fileList (error, v)).2).map (fun c => (c.1, c.2.1))
            = fileList.map (fun f => (f, (0 : Int)))
        ∧ (fileLoop X Options fileList (error, v)).1
            = (newCalls v (fileLoop X Options fileList (error, v)).2).foldl
                (fun a c => a ||| c.2.2) error := by
  constructor
  · unfold mainRun
    rw [if_neg hplain]
    simp only [hworkers, ne_eq, not_true_eq_false, if_false]
  · intro fileList error v
    obtain ⟨L, h1, h2, h3⟩ := fileLoop_calls X Options fileList error v
    constructor
    · simp only [newCalls, h1, List.drop_left]; exact h2
    · simp only [newCalls, h1, List.drop_left]; exact h3

/-- The run of C1 on two files with the default configuration. -/
theorem C1_sequential_run_witness :
    (¬ (defaultOptions.Zip = true ∧ ["a.png", "notes.txt"].length ≠ 0))
    ∧ defaultOptions.FileMultithreading = 0
    ∧ (mainRun demoExt defaultOptions ["a.png", "notes.txt"]
          (World.ofFiles [("a.png", Node.file [1, 2, 3, 4] 7 true),
            ("notes.txt", Node.file [5, 6] 7 true)])
        = some (fileLoop demoExt defaultOptions
            (buildFileList demoExt defaultOptions
              (World.ofFiles [("a.png", Node.file [1, 2, 3, 4] 7 true),
                ("notes.txt", Node.file [5, 6] 7 true)]).fs ["a.png", "notes.txt"] ([], 0)).1
            ((buildFileList demoExt defaultOptions
              (World.ofFiles [("a.png", Node.file [1, 2, 3, 4] 7 true),
                ("notes.txt", Node.file [5, 6] 7 true)]).fs ["a.png", "notes.txt"] ([], 0)).2,
              World.ofFiles [("a.png", Node.file [1, 2, 3, 4] 7 true),
                ("notes.txt", Node.file [5, 6] 7 true)]))) :=
  ⟨by decide, by decide,
    (C1_sequential_run demoExt defaultOptions ["a.png", "notes.txt"]
      (World.ofFiles [("a.png", Node.file [1, 2, 3, 4] 7 true),
        ("notes.txt", Node.file [5, 6] 7 true)]) (by decide) (by decide)).1⟩

/-! ## The cursor protocol of the worker pool (C2) -/

theorem set_decomp {α : Type} (l : List α) (i : Nat) (k k' : α) (h : l[i]? = some k) :
    ∃ l1 l2, l = l1 ++ k :: l2 ∧ l.set i k' = l1 ++ k' :: l2 ∧ l1.length = i := by
  induction l generalizing i with
  | nil => simp at h
  | cons a l ih =>
    cases i with
    | zero =>
      simp at h
      exact ⟨[], l, by simp [h], by simp, rfl⟩
    | succ i =>
      simp at h
      obtain ⟨l1, l2, e1, e2, e3⟩ := ih i h
      exact ⟨a :: l1, l2, by simp [e1], by simp [e2], by simp [e3]⟩

@[simp] theorem heldTickets_append (size : Nat) (a b : List Worker) :
    heldTickets size (a ++ b) = heldTickets size a ++ heldTickets size b := by
  induction a with
  | nil => rfl
  | cons k a ih => simp [heldTickets, ih]

@[simp] theorem overCount_append (size : Nat) (a b : List Worker) :
    overCount size (a ++ b) = overCount size a + overCount size b := by
  induction a with
  | nil => simp [overCount]
  | cons k a ih => simp [overCount, ih]; omega

@[simp] theorem weightSum_append (a b : List Worker) :
    weightSum (a ++ b) = weightSum a + weightSum b := by
  induction a with
  | nil => simp [weightSum]
  | cons k a ih => simp [weightSum, ih]; omega

theorem overCount_le (size : Nat) (a : List Worker) : overCount size a ≤ a.length := by
  induction a with
  | nil => simp [overCount]
  | cons k a ih => simp only [overCount, List.length_cons]; split_ifs <;> omega

theorem poolInv_init (size N : Nat) : PoolInv size N (Pool.init N) where
  len := by simp [Pool.init]
  tickets := by
    have : ∀ n, heldTickets size (List.replicate n Worker.atFetch) = [] := by
      intro n; induction n with
      | zero => rfl
      | succ n ih => simp [List.replicate_succ, heldTickets, Worker.held, ih]
    simp [Pool.init, this]
  bound := by simp [Pool.init]
  past := by
    intro k hk
    simp [Pool.init] at hk
    simp [hk.2, Worker.over]
  owner := by simp [Pool.init]


theorem perm_of_count {a b : List Nat} (h : ∀ x, a.count x = b.count x) : a.Perm b :=
  List.perm_iff_count.mpr h

theorem poolInv_step {size N : Nat} {s : Pool} (hsz : size + N < 2 ^ 64)
    (h : PoolInv size N s) (i : Nat) :
    PoolInv size N (Pool.step size s i) ∧ s.pos ≤ (Pool.step size s i).pos
      ∧ (Pool.step size s i ≠ s →
          Pool.potential size (Pool.step size s i) < Pool.potential size s) := by
  obtain ⟨pos, workers, claimed⟩ := s
  obtain ⟨hlen, htick, hbound, hpast, hown⟩ := h
  simp only at hlen htick hbound hpast hown
  rcases hk : workers[i]? with _ | k
  · have : Pool.step size ⟨pos, workers, claimed⟩ i = ⟨pos, workers, claimed⟩ := by
      simp [Pool.step, hk]
    rw [this]
    exact ⟨⟨hlen, htick, hbound, hpast, hown⟩, le_refl _, fun h => absurd rfl h⟩
  · have hi : i < N := by
      rw [← hlen]
      exact (List.getElem?_eq_some_iff.mp hk).1
    have hcount := fun x => htick.count_eq x
    cases k with
    | atFetch =>
      obtain ⟨l1, l2, e1, e2, e3⟩ := set_decomp workers i Worker.atFetch (Worker.atTest pos) hk
      have hst : Pool.step size ⟨pos, workers, claimed⟩ i
          = ⟨(pos + 1) % 2 ^ 64, l1 ++ Worker.atTest pos :: l2, claimed⟩ := by
        simp [Pool.step, hk, e2]
      subst e1
      simp only [List.length_append, List.length_cons] at hlen
      have hoc : overCount size (l1 ++ Worker.atFetch :: l2) ≤ l1.length + l2.length := by
        have := overCount_le size l1
        have := overCount_le size l2
        simp [overCount, Worker.over]; omega
      have hpos : (pos + 1) % 2 ^ 64 = pos + 1 := Nat.mod_eq_of_lt (by omega)
      rw [hst, hpos]
      refine ⟨⟨?_, ?_, ?_, ?_, hown⟩, by simp, ?_⟩
      · simp; omega
      · apply perm_of_count
        intro x
        have hx := hcount x
        by_cases hlt : pos < size
        · have h1 : min (pos + 1) size = pos + 1 := by omega
          have h2 : min pos size = pos := by omega
          simp only [h1, h2, List.range_succ, heldTickets_append, heldTickets, Worker.held,
            List.count_append, hlt, if_true, List.count_cons, List.count_nil] at hx ⊢
          omega
        · have h1 : min (pos + 1) size = size := by omega
          have h2 : min pos size = size := by omega
          simp only [h1, h2, heldTickets_append, heldTickets, Worker.held,
            List.count_append, hlt, if_false, List.count_nil] at hx ⊢
          omega
      · simp only [overCount_append, overCount, Worker.over] at hbound ⊢
        by_cases hlt : size ≤ pos
        · simp [hlt]; simp at hbound; omega
        · simp [hlt]; omega
      · intro k hk hover
        simp only [List.mem_append, List.mem_cons] at hk
        rcases hk with hk | rfl | hk
        · exact (hpast k (by simp [hk]) hover).trans (Nat.le_succ _)
        · simp [Worker.over] at hover; simp; omega
        · exact (hpast k (by simp [hk]) hover).trans (Nat.le_succ _)
      · intro _
        simp only [Pool.potential, weightSum_append, weightSum, Worker.weight, List.length_append,
          List.length_cons]
        omega
    | atTest n =>
      obtain ⟨l1, l2, e1, e2, e3⟩ := set_decomp workers i (Worker.atTest n)
        (if n ≥ size then Worker.finished else Worker.atDispatch n) hk
      have hst : Pool.step size ⟨pos, workers, claimed⟩ i = ⟨pos, l1 ++
          (if n ≥ size then Worker.finished else Worker.atDispatch n) :: l2, claimed⟩ := by
        simp [Pool.step, hk, e2]
      rw [hst]
      subst e1
      simp only [List.length_append, List.length_cons] at hlen
      by_cases hge : n ≥ size
      · simp only [hge, if_true]
        refine ⟨⟨?_, ?_, ?_, ?_, hown⟩, le_refl _, ?_⟩
        · simpa using hlen
        · apply perm_of_count
          intro x
          have hx := hcount x
          have hlt : ¬ n < size := by omega
          simp only [heldTickets_append, heldTickets, Worker.held,
            List.count_append, hlt, if_false, List.count_nil] at hx ⊢
          omega
        · simp only [overCount_append, overCount, Worker.over] at hbound ⊢
          simp [hge] at hbound; simp; omega
        · intro k hk hover
          simp only [List.mem_append, List.mem_cons] at hk
          rcases hk with hk | rfl | hk
          · exact hpast k (by simp [hk]) hover
          · exact hpast (Worker.atTest n) (by simp) (by simp [Worker.over, hge])
          · exact hpast k (by simp [hk]) hover
        · intro _
          simp only [Pool.potential, weightSum_append, weightSum, Worker.weight,
            List.length_append, List.length_cons]
          omega
      · simp only [hge, if_false]
        refine ⟨⟨?_, ?_, ?_, ?_, hown⟩, le_refl _, ?_⟩
        · simpa using hlen
        · apply perm_of_count
          intro x
          have hx := hcount x
          have hlt : n < size := by omega
          simp only [heldTickets_append, heldTickets, Worker.held,
            List.count_append, hlt, if_true] at hx ⊢
          omega
        · simp only [overCount_append, overCount, Worker.over] at hbound ⊢
          simp [hge] at hbound; simp; omega
        · intro k hk hover
          simp only [List.mem_append, List.mem_cons] at hk
          rcases hk with hk | rfl | hk
          · exact hpast k (by simp [hk]) hover
          · simp [Worker.over] at hover
          · exact hpast k (by simp [hk]) hover
        · intro _
          simp only [Pool.potential, weightSum_append, weightSum, Worker.weight,
            List.length_append, List.length_cons]
          omega
    | atDispatch n =>
      obtain ⟨l1, l2, e1, e2, e3⟩ := set_decomp workers i (Worker.atDispatch n)
        Worker.atFetch hk
      have hst : Pool.step size ⟨pos, workers, claimed⟩ i
          = ⟨pos, l1 ++ Worker.atFetch :: l2, claimed ++ [(i, n)]⟩ := by
        simp [Pool.step, hk, e2]
      rw [hst]
      subst e1
      simp only [List.length_append, List.length_cons] at hlen
      refine ⟨⟨?_, ?_, ?_, ?_, ?_⟩, le_refl _, ?_⟩
      · simpa using hlen
      · apply perm_of_count
        intro x
        have hx := hcount x
        simp only [heldTickets_append, heldTickets, Worker.held, List.map_append, List.map_cons,
          List.map_nil, List.count_append, List.count_cons, List.count_nil] at hx ⊢
        omega
      · simp only [overCount_append, overCount, Worker.over] at hbound ⊢
        simpa using hbound
      · intro k hk hover
        simp only [List.mem_append, List.mem_cons] at hk
        rcases hk with hk | rfl | hk
        · exact hpast k (by simp [hk]) hover
        · simp [Worker.over] at hover
        · exact hpast k (by simp [hk]) hover
      · intro c hc
        simp only [List.mem_append, List.mem_singleton] at hc
        rcases hc with hc | rfl
        · exact hown c hc
        · exact hi
      · intro _
        simp only [Pool.potential, weightSum_append, weightSum, Worker.weight,
          List.length_append, List.length_cons]
        omega
    | finished =>
      have : Pool.step size ⟨pos, workers, claimed⟩ i = ⟨pos, workers, claimed⟩ := by
        simp [Pool.step, hk]
      rw [this]
      exact ⟨⟨hlen, htick, hbound, hpast, hown⟩, le_refl _, fun h => absurd rfl h⟩


theorem heldTickets_finished (size : Nat) (l : List Worker)
    (h : ∀ k ∈ l, k = Worker.finished) : heldTickets size l = [] := by
  induction l with
  | nil => rfl
  | cons k l ih =>
    have hk := h k (by simp)
    subst hk
    simp only [heldTickets, Worker.held, List.nil_append]
    exact ih (fun k hk => h k (by simp [hk]))

theorem poolInv_run {size N : Nat} (hsz : size + N < 2 ^ 64) (sched : List Nat) :
    ∀ s : Pool, PoolInv size N s → PoolInv size N (Pool.run size sched s) := by
  induction sched with
  | nil => intro s h; exact h
  | cons i rest ih =>
    intro s h
    exact ih _ (poolInv_step hsz h i).1

theorem pool_progress {size : Nat} {s : Pool} (h : s.allFinished = false) :
    ∃ i, i < s.workers.length ∧ Pool.step size s i ≠ s := by
  obtain ⟨pos, workers, claimed⟩ := s
  simp only [Pool.allFinished, List.all_eq_false] at h
  obtain ⟨k, hk, hne⟩ := h
  obtain ⟨i, hi⟩ := List.mem_iff_getElem?.mp hk
  have hlt : i < workers.length := (List.getElem?_eq_some_iff.mp hi).1
  refine ⟨i, hlt, ?_⟩
  cases k with
  | atFetch =>
    obtain ⟨l1, l2, e1, e2, _⟩ := set_decomp workers i Worker.atFetch (Worker.atTest pos) hi
    intro hst
    simp [Pool.step, hi, e2] at hst
    rw [e1] at hst
    simp at hst
  | atTest n =>
    obtain ⟨l1, l2, e1, e2, _⟩ := set_decomp workers i (Worker.atTest n)
      (if n ≥ size then Worker.finished else Worker.atDispatch n) hi
    intro hst
    simp [Pool.step, hi, e2] at hst
    rw [e1] at hst
    by_cases hge : size ≤ n <;> simp [hge] at hst
  | atDispatch n =>
    intro hst
    simp [Pool.step, hi] at hst
  | finished => exact absurd hne (by decide)

/-- C2. Work Distributor, concurrent case. For every file list, every number
`N >= 1` of workers (an `int`) and every interleaving `sched` of their atomic
steps (fetch-and-increment, bounds test, dispatch), in the state reached:
every dispatch was made by one of the `N` workers on an index inside the list;
no index was dispatched twice; once all workers have left their loop the
dispatched indices are exactly `0 .. length - 1`, each once; a further step of
any worker never decreases the cursor; every step that changes the state
decreases the potential (so every run ends); and as long as some worker has not
left its loop, some worker can move. -/
theorem C2_cursor_protocol (fileList : List Path) (N : Nat) (sched : List Nat)
    (hN : 1 ≤ N) (hint : N < 2 ^ 31) (hsize : fileList.length < 2 ^ 63) :
    (∀ c ∈ (Pool.run fileList.length sched (Pool.init N)).claimed,
        c.1 < N ∧ c.2 < fileList.length)
    ∧ ((Pool.run fileList.length sched (Pool.init N)).claimed.map Prod.snd).Nodup
    ∧ ((Pool.run fileList.length sched (Pool.init N)).allFinished = true →
        ((Pool.run fileList.length sched (Pool.init N)).claimed.map Prod.snd).Perm
          (List.range fileList.length))
    ∧ (∀ i, (Pool.run fileList.length sched (Pool.init N)).pos
        ≤ (Pool.step fileList.length (Pool.run fileList.length sched (Pool.init N)) i).pos)
    ∧ (∀ i, Pool.step fileList.length (Pool.run fileList.length sched (Pool.init N)) i
          ≠ Pool.run fileList.length sched (Pool.init N) →
        Pool.potential fileList.length
            (Pool.step fileList.length (Pool.run fileList.length sched (Pool.init N)) i)
          < Pool.potential fileList.length (Pool.run fileList.length sched (Pool.init N)))
    ∧ ((Pool.run fileList.length sched (Pool.init N)).allFinished = false →
        ∃ i, i < N ∧ Pool.step fileList.length (Pool.run fileList.length sched (Pool.init N)) i
          ≠ Pool.run fileList.length sched (Pool.init N)) := by
  have hsz : fileList.length + N < 2 ^ 64 := by omega
  have hinv := poolInv_run hsz sched _ (poolInv_init fileList.length N)
  generalize Pool.run fileList.length sched (Pool.init N) = s at hinv
  have hnodup : (s.claimed.map Prod.snd ++ heldTickets fileList.length s.workers).Nodup :=
    hinv.tickets.nodup_iff.mpr (List.nodup_range _)
  refine ⟨?_, ?_, ?_, ?_, ?_, ?_⟩
  · intro c hc
    refine ⟨hinv.owner c hc, ?_⟩
    have hm : c.2 ∈ s.claimed.map Prod.snd ++ heldTickets fileList.length s.workers :=
      List.mem_append_left _ (List.mem_map_of_mem _ hc)
    have := List.mem_range.mp (hinv.tickets.mem_iff.mp hm)
    omega
  · exact (List.nodup_append.mp hnodup).1
  · intro hfin
    have hall : ∀ k ∈ s.workers, k = Worker.finished := by
      intro k hk
      have := List.all_eq_true.mp hfin k hk
      simpa using this
    have hheld : heldTickets fileList.length s.workers = [] :=
      heldTickets_finished _ _ hall
    have hne : s.workers ≠ [] := by
      intro h0
      have := hinv.len
      rw [h0] at this
      simp at this
      omega
    obtain ⟨k, hk⟩ := List.exists_mem_of_ne_nil _ hne
    have hpast := hinv.past k hk (by rw [hall k hk]; rfl)
    have hperm := hinv.tickets
    rw [hheld, List.append_nil, Nat.min_eq_right hpast] at hperm
    exact hperm
  · intro i; exact (poolInv_step hsz hinv i).2.1
  · intro i; exact (poolInv_step hsz hinv i).2.2
  · intro hnf
    obtain ⟨i, hi, hst⟩ := @pool_progress fileList.length _ hnf
    exact ⟨i, hinv.len ▸ hi, hst⟩


/-- Two workers over three files, under one interleaving that runs to the end. -/
theorem C2_cursor_protocol_witness :
    (1 ≤ 2 ∧ 2 < 2 ^ 31 ∧ ["a", "b", "c"].length < 2 ^ 63)
    ∧ (Pool.run 3 [0, 1, 0, 1, 0, 1, 0, 0, 0, 1, 1, 0, 0] (Pool.init 2)).allFinished = true
    ∧ ((Pool.run ["a", "b", "c"].length [0, 1, 0, 1, 0, 1, 0, 0, 0, 1, 1, 0, 0]
          (Pool.init 2)).claimed.map Prod.snd).Perm (List.range ["a", "b", "c"].length) :=
  ⟨by decide, by decide,
    (C2_cursor_protocol ["a", "b", "c"] 2 [0, 1, 0, 1, 0, 1, 0, 0, 0, 1, 1, 0, 0]
      (by decide) (by decide) (by decide)).2.2.1 (by decide)⟩

/-! ## Counter totals (C3) -/

theorem filesize_setTime (fs : FS) (p q : Path) (t : Int) :
    filesize (setTime fs p t) q = filesize fs q := by
  unfold setTime
  split
  · rename_i d t0 r h
    unfold filesize
    rw [FS.lookup_write]
    by_cases hq : q = p
    · subst hq; simp [h]
    · simp [hq]
  · rename_i sz t0 h
    unfold filesize
    rw [FS.lookup_write]
    by_cases hq : q = p
    · subst hq; simp [h]
    · simp [hq]
  · rfl

theorem fileDispatch_stat_ne_two (X : Ext) (O : ECTOptions) (f : Path) (w : World)
    (hc : counted X O f w) :
    (fileDispatch X f O 0 (extensionOf f) (filesize w.fs f) w).2.1 ≠ 2 := by
  obtain ⟨_, _, _, hg⟩ := hc
  unfold fileDispatch
  by_cases hp : isPngExt (extensionOf f) = true
  · simp [hp]
  · by_cases hj : isJpegExt (extensionOf f) = true
    · simp [hp, hj]
    · by_cases hz : O.Gzip = true ∧ (0 : Int) = 0
      · rw [if_neg hp, if_neg hj, if_pos hz]
        exact hg (by simpa using hp) (by simpa using hj)
      · rw [if_neg hp, if_neg hj, if_neg hz]
        simp

theorem fileHandlerBody_counted (X : Ext) (O : ECTOptions) (f : Path) (w : World)
    (hS : O.SavingsCounter = true) (hc : counted X O f w) :
    fileHandlerBody X f O 0 w
      = ((fileDispatch X f O 0 (extensionOf f) (filesize w.fs f) w).1,
          if O.keep = true ∧ (fileDispatch X f O 0 (extensionOf f) (filesize w.fs f) w).2.1 = 0
          then set_file_time f (get_file_time w.fs f)
            (addSavings f O (filesize w.fs f)
              (fileDispatch X f O 0 (extensionOf f) (filesize w.fs f) w).2.1
              (fileDispatch X f O 0 (extensionOf f) (filesize w.fs f) w).2.2)
          else addSavings f O (filesize w.fs f)
              (fileDispatch X f O 0 (extensionOf f) (filesize w.fs f) w).2.1
              (fileDispatch X f O 0 (extensionOf f) (filesize w.fs f) w).2.2) := by
  have h2 := fileDispatch_stat_ne_two X O f w hc
  obtain ⟨hrec, h0, h1, _⟩ := hc
  have hcond : (O.PNG_ACTIVE = true ∧ isPngExt (extensionOf f) = true)
      ∨ (O.JPEG_ACTIVE = true ∧ isJpegExt (extensionOf f) = true)
      ∨ (O.Gzip = true ∧ (0 : Int) = 0) := by
    rcases hrec with h | h | h
    · exact Or.inl h
    · exact Or.inr (Or.inl h)
    · exact Or.inr (Or.inr ⟨h, rfl⟩)
  have hS' : (O.SavingsCounter = true ∧ (0 : Int) = 0) := ⟨hS, rfl⟩
  unfold fileHandlerBody
  dsimp only
  rw [if_pos hcond, if_neg (not_lt.mpr h0), if_pos h1, if_neg h2, if_pos hS']

/-- Effect of a counted top-level call on the three counters. -/
theorem fileHandler_counted (X : Ext) (O : ECTOptions) (f : Path) (w : World)
    (hS : O.SavingsCounter = true) (hc : counted X O f w) :
    (fileHandler X f O 0 w).2.processedfiles = (w.processedfiles + 1) % 2 ^ 64
    ∧ (fileHandler X f O 0 w).2.bytes = toSizeT (w.bytes + filesize w.fs f)
    ∧ (fileHandler X f O 0 w).2.savings
        = toLongLong (w.savings + (filesize w.fs f - finalSize X O f w)) := by
  have hq := quiet_fileDispatch X f O 0 (extensionOf f) (filesize w.fs f) (quiet_refl w)
  obtain ⟨_, hp, hb, hs⟩ := hq
  unfold finalSize resultPath fileHandler
  rw [fileHandlerBody_counted X O f w hS hc]
  generalize fileDispatch X f O 0 (extensionOf f) (filesize w.fs f) w = d at hp hb hs ⊢
  by_cases hst : d.2.1 = 0
  · by_cases hk : O.keep = true
    · simp [hk, hst, addSavings, hp, hb, hs, filesize_setTime]
    · simp [hk, hst, addSavings, hp, hb, hs]
  · simp [hst, addSavings, hp, hb, hs]


/-- The three counters after a sequential top-level run in which every call is
counted: the sums of the measured sizes, reduced to the counter types, on top
of the values the run started from. -/
theorem fileLoop_counters (X : Ext) (O : ECTOptions) (hS : O.SavingsCounter = true)
    (fl : List Path) :
    ∀ (e : Nat) (w : World), allCounted X O fl w →
      (fileLoop X O fl (e, w)).2.processedfiles % 2 ^ 64 = (w.processedfiles + fl.length) % 2 ^ 64
      ∧ (w.processedfiles < 2 ^ 64 → (fileLoop X O fl (e, w)).2.processedfiles < 2 ^ 64)
      ∧ toSizeT (fileLoop X O fl (e, w)).2.bytes
          = toSizeT (w.bytes + ((measured X O fl w).map Prod.fst).sum)
      ∧ (w.bytes < 2 ^ 64 → (fileLoop X O fl (e, w)).2.bytes < 2 ^ 64)
      ∧ toLongLong (fileLoop X O fl (e, w)).2.savings
          = toLongLong (w.savings + ((measured X O fl w).map (fun m => m.1 - m.2)).sum)
      ∧ (toLongLong w.savings = w.savings →
          toLongLong (fileLoop X O fl (e, w)).2.savings = (fileLoop X O fl (e, w)).2.savings) := by
  induction fl with
  | nil =>
    intro e w _
    simp [fileLoop, measured]
  | cons f rest ih =>
    intro e w hc
    obtain ⟨hcf, hcr⟩ := hc
    obtain ⟨hp, hb, hs⟩ := fileHandler_counted X O f w hS hcf
    obtain ⟨i1, i2, i3, i4, i5, i6⟩ := ih (e ||| (fileHandler X f O 0 w).1)
      (fileHandler X f O 0 w).2 hcr
    have hpl : (fileHandler X f O 0 w).2.processedfiles < 2 ^ 64 := by
      rw [hp]; exact Nat.mod_lt _ (by norm_num)
    have hbl : (fileHandler X f O 0 w).2.bytes < 2 ^ 64 := by
      rw [hb]; unfold toSizeT; omega
    have hsl : toLongLong (fileHandler X f O 0 w).2.savings = (fileHandler X f O 0 w).2.savings := by
      rw [hs]; unfold toLongLong; omega
    rw [fileLoop]
    refine ⟨?_, fun _ => i2 hpl, ?_, fun _ => i4 hbl, ?_, fun _ => i6 hsl⟩
    · rw [i1, hp, List.length_cons]; omega
    · rw [i3, hb]
      simp only [measured, List.map_cons, List.sum_cons]
      unfold toSizeT; omega
    · rw [i5, hs]
      simp only [measured, List.map_cons, List.sum_cons]
      unfold toLongLong; omega


theorem ungz_gz (p : String) : (p ++ ".ungz") ++ ".gz" = p ++ ".ungz.gz" := by
  rw [String.append_assoc]; rfl

/-! ### Locality: what a call reads and writes -/

theorem agreeOn_refl (S : List Path) (a : FS) : AgreeOn S a a := fun _ _ => rfl

theorem agreeOn_write {S : List Path} {a b : FS} (h : AgreeOn S a b) (p : Path) (n : Node) :
    AgreeOn S (a.write p n) (b.write p n) := by
  intro q hq
  rw [FS.lookup_write, FS.lookup_write, h q hq]

theorem agreeOn_erase {S : List Path} {a b : FS} (h : AgreeOn S a b) (p : Path) :
    AgreeOn S (a.erase p) (b.erase p) := by
  intro q hq
  rw [FS.lookup_erase, FS.lookup_erase, h q hq]


theorem agreeOn_readFile {S : List Path} {a b : FS} (h : AgreeOn S a b) {p : Path} (hp : p ∈ S) :
    readFile a p = readFile b p := by
  unfold readFile; rw [h p hp]

theorem agreeOn_filesize {S : List Path} {a b : FS} (h : AgreeOn S a b) {p : Path} (hp : p ∈ S) :
    filesize a p = filesize b p := by
  unfold filesize; rw [h p hp]

theorem agreeOn_exists {S : List Path} {a b : FS} (h : AgreeOn S a b) {p : Path} (hp : p ∈ S) :
    exists_ a p = exists_ b p := by
  unfold exists_; rw [h p hp]

theorem agreeOn_isDirNode {S : List Path} {a b : FS} (h : AgreeOn S a b) {p : Path} (hp : p ∈ S) :
    isDirNode a p = isDirNode b p := by
  unfold isDirNode; rw [h p hp]

theorem agreeOn_is_regular_file {S : List Path} {a b : FS} (h : AgreeOn S a b) {p : Path} (hp : p ∈ S) :
    is_regular_file a p = is_regular_file b p := by
  unfold is_regular_file; rw [h p hp]

theorem agreeOn_get_file_time {S : List Path} {a b : FS} (h : AgreeOn S a b) {p : Path} (hp : p ∈ S) :
    get_file_time a p = get_file_time b p := by
  unfold get_file_time; rw [h p hp]

theorem agreeOn_setTime {S : List Path} {a b : FS} (h : AgreeOn S a b) {p : Path} (hp : p ∈ S)
    (t : Int) : AgreeOn S (setTime a p t) (setTime b p t) := by
  unfold setTime
  rw [h p hp]
  split
  · exact agreeOn_write h _ _
  · exact agreeOn_write h _ _
  · exact h

theorem agreeOn_unlinkFS {S : List Path} {a b : FS} (h : AgreeOn S a b) {p : Path} (hp : p ∈ S) :
    AgreeOn S (unlinkFS a p) (unlinkFS b p) := by
  unfold unlinkFS
  rw [agreeOn_is_regular_file h hp]
  split_ifs
  · exact agreeOn_erase h _
  · exact h


theorem agreeOn_renameFS {S : List Path} {a b : FS} (h : AgreeOn S a b) {p q : Path}
    (hp : p ∈ S) (hq : q ∈ S) : AgreeOn S (renameFS a p q) (renameFS b p q) := by
  unfold renameFS
  rw [h p hp, agreeOn_isDirNode h hq]
  split
  · split_ifs
    · exact h
    · exact agreeOn_write (agreeOn_erase h _) _ _
  · exact h


theorem agreeOn_rewriteInPlace (X : Ext) {S : List Path} {a b : FS} (hab : AgreeOn S a b)
    {p : Path} (hp : p ∈ S) (out : Option Bytes) : AgreeOn S (rewriteInPlace X a p out) (rewriteInPlace X b p out) := by
  unfold rewriteInPlace
  rw [agreeOn_readFile hab hp]
  split
  · exact agreeOn_write hab _ _
  · exact hab


theorem cong_unlink {S : List Path} {w v : World} (h : AgreeOn S w.fs v.fs)
    {p : Path} (hp : p ∈ S) : AgreeOn S (unlink p w).fs (unlink p v).fs :=
  agreeOn_unlinkFS h hp

theorem cong_rename {S : List Path} {w v : World} (h : AgreeOn S w.fs v.fs)
    {p q : Path} (hp : p ∈ S) (hq : q ∈ S) :
    AgreeOn S (RenameAndReplace p q w).fs (RenameAndReplace p q v).fs :=
  agreeOn_renameFS h hp hq

theorem cong_set_file_time {S : List Path} {w v : World} (h : AgreeOn S w.fs v.fs)
    {p : Path} (hp : p ∈ S) (t : Int) :
    AgreeOn S (set_file_time p t w).fs (set_file_time p t v).fs :=
  agreeOn_setTime h hp t

theorem cong_ungz {S : List Path} {w v : World} (h : AgreeOn S w.fs v.fs) (X : Ext)
    {p : Path} (hp : p ∈ S) (q : Path) :
    (ungz X p q w).1 = (ungz X p q v).1 ∧ AgreeOn S (ungz X p q w).2.fs (ungz X p q v).2.fs := by
  unfold ungz
  rw [agreeOn_readFile h hp]
  cases (readFile v.fs p).bind X.inflate with
  | none => exact ⟨rfl, h⟩
  | some u => exact ⟨rfl, agreeOn_write h _ _⟩

theorem cong_ZopfliGzip {S : List Path} {w v : World} (h : AgreeOn S w.fs v.fs) (X : Ext)
    {p : Path} (hp : p ∈ S) (m t z : Nat) :
    (ZopfliGzip X p m t z w).1 = (ZopfliGzip X p m t z v).1
    ∧ AgreeOn S (ZopfliGzip X p m t z w).2.fs (ZopfliGzip X p m t z v).2.fs := by
  unfold ZopfliGzip
  rw [agreeOn_readFile h hp]
  cases (readFile v.fs p).bind (X.deflate m t z) with
  | none => exact ⟨rfl, h⟩
  | some u => exact ⟨rfl, agreeOn_write h _ _⟩

theorem cong_Zopflipng {S : List Path} {w v : World} (h : AgreeOn S w.fs v.fs) (X : Ext)
    {p : Path} (hp : p ∈ S) (a b : Bool) (m : Nat) (f : Int) (t u : Nat) :
    (Zopflipng X a p b m f t u w).1 = (Zopflipng X a p b m f t u v).1
    ∧ AgreeOn S (Zopflipng X a p b m f t u w).2.fs (Zopflipng X a p b m f t u v).2.fs := by
  unfold Zopflipng
  simp only [World.setFS_fs]
  rw [agreeOn_readFile h hp]
  exact ⟨rfl, agreeOn_rewriteInPlace X h hp _⟩

theorem cong_zopfliTrial {S : List Path} {w v : World} (h : AgreeOn S w.fs v.fs) (X : Ext)
    {p : Path} (hp : p ∈ S) (O : ECTOptions) (u : Nat) (i : Int) :
    (zopfliTrial X p O u i w).1 = (zopfliTrial X p O u i v).1
    ∧ AgreeOn S (zopfliTrial X p O u i w).2.fs (zopfliTrial X p O u i v).2.fs :=
  cong_Zopflipng h X hp _ _ _ _ _ _

theorem cong_Optipng {S : List Path} {w v : World} (h : AgreeOn S w.fs v.fs) (X : Ext)
    {p : Path} (hp : p ∈ S) (l : Nat) (a : Bool) (c : Nat) :
    (Optipng X l p a c w).1 = (Optipng X l p a c v).1
    ∧ AgreeOn S (Optipng X l p a c w).2.fs (Optipng X l p a c v).2.fs := by
  unfold Optipng
  simp only [World.setFS_fs]
  rw [agreeOn_readFile h hp, h p hp]
  refine ⟨rfl, agreeOn_rewriteInPlace X ?_ hp _⟩
  cases v.fs.lookup p with
  | none => exact h
  | some n =>
    cases (X.optipng l a c (readFile v.fs p)).2.2 with
    | false => exact h
    | true => exact agreeOn_write h _ _

theorem cong_mozjpegtran {S : List Path} {w v : World} (h : AgreeOn S w.fs v.fs) (X : Ext)
    {p : Path} (hp : p ∈ S) (q : Path) (a b c : Bool) (r : Nat) :
    (mozjpegtran X a b c r p q w).1 = (mozjpegtran X a b c r p q v).1
    ∧ AgreeOn S (mozjpegtran X a b c r p q w).2.fs (mozjpegtran X a b c r p q v).2.fs := by
  unfold mozjpegtran
  simp only [World.setFS_fs]
  rw [agreeOn_readFile h hp]
  refine ⟨rfl, ?_⟩
  split
  · exact agreeOn_write h _ _
  · exact h



theorem mem_fp_self (f : Path) : f ∈ footprint f := by simp [footprint]
theorem mem_fp_bak (f : Path) : f ++ ".bak" ∈ footprint f := by simp [footprint]
theorem mem_fp_gz (f : Path) : f ++ ".gz" ∈ footprint f := by simp [footprint]
theorem mem_fp_zip (f : Path) : f ++ ".zip" ∈ footprint f := by simp [footprint]
theorem mem_fp_ungz (f : Path) : f ++ ".ungz" ∈ footprint f := by simp [footprint]
theorem mem_fp_ungzgz (f : Path) : f ++ ".ungz.gz" ∈ footprint f := by simp [footprint]

theorem mem_fp_suffix (f : Path) (c : Prop) [Decidable c] :
    f ++ (if c then ".zip" else ".gz") ∈ footprint f := by
  split_ifs
  · exact mem_fp_zip f
  · exact mem_fp_gz f

theorem resAgree_ite {α : Type} {S : List Path} (c : Prop) [Decidable c] {a a' b b' : α × World}
    (h1 : ResAgree S a b) (h2 : ResAgree S a' b') :
    ResAgree S (if c then a else a') (if c then b else b') := by
  split_ifs
  · exact h1
  · exact h2

theorem resAgree_mk {α : Type} {S : List Path} (r : α) {w v : World}
    (h : AgreeOn S w.fs v.fs) : ResAgree S (r, w) (r, v) := ⟨rfl, h⟩

theorem cong_ECTGzip (X : Ext) (f : Path) (Mode mt : Nat) (fs : Int) (ZIP : Nat) (strict : Int)
    {w v : World} (h : AgreeOn (footprint f) w.fs v.fs) :
    ResAgree (footprint f) (ECTGzip X f Mode mt fs ZIP strict w)
      (ECTGzip X f Mode mt fs ZIP strict v) := by
  have r1 : IsGzip X w.fs f = IsGzip X v.fs f := by
    unfold IsGzip; rw [agreeOn_readFile h (mem_fp_self f)]
  have r2 := agreeOn_exists h (mem_fp_suffix f (ZIP ≠ 0))
  have r3 := agreeOn_exists h (mem_fp_ungz f)
  have r4 := agreeOn_exists h (mem_fp_ungzgz f)
  have cz1 := cong_ZopfliGzip h X (mem_fp_self f) Mode mt ZIP
  have cu := cong_ungz h X (mem_fp_self f) (f ++ ".ungz")
  have cz2 := cong_ZopfliGzip cu.2 X (mem_fp_ungz f) Mode mt ZIP
  have f1 := agreeOn_filesize cz2.2 (mem_fp_ungzgz f)
  have f2 := agreeOn_filesize cz2.2 (mem_fp_self f)
  have cr := cong_rename cz2.2 (mem_fp_ungzgz f) (mem_fp_self f)
  have cl := cong_unlink cz2.2 (mem_fp_ungzgz f)
  have cfr := cong_unlink cr (mem_fp_ungz f)
  have cfl := cong_unlink cl (mem_fp_ungz f)
  have ctail : AgreeOn (footprint f)
      (unlink (f ++ ".ungz")
        (if filesize (ZopfliGzip X (f ++ ".ungz") Mode mt ZIP (ungz X f (f ++ ".ungz") v).2).2.fs
              (f ++ ".ungz.gz")
            < filesize (ZopfliGzip X (f ++ ".ungz") Mode mt ZIP (ungz X f (f ++ ".ungz") v).2).2.fs f
          then RenameAndReplace (f ++ ".ungz.gz") f
            (ZopfliGzip X (f ++ ".ungz") Mode mt ZIP (ungz X f (f ++ ".ungz") w).2).2
          else unlink (f ++ ".ungz.gz")
            (ZopfliGzip X (f ++ ".ungz") Mode mt ZIP (ungz X f (f ++ ".ungz") w).2).2)).fs
      (unlink (f ++ ".ungz")
        (if filesize (ZopfliGzip X (f ++ ".ungz") Mode mt ZIP (ungz X f (f ++ ".ungz") v).2).2.fs
              (f ++ ".ungz.gz")
            < filesize (ZopfliGzip X (f ++ ".ungz") Mode mt ZIP (ungz X f (f ++ ".ungz") v).2).2.fs f
          then RenameAndReplace (f ++ ".ungz.gz") f
            (ZopfliGzip X (f ++ ".ungz") Mode mt ZIP (ungz X f (f ++ ".ungz") v).2).2
          else unlink (f ++ ".ungz.gz")
            (ZopfliGzip X (f ++ ".ungz") Mode mt ZIP (ungz X f (f ++ ".ungz") v).2).2)).fs := by
    split_ifs
    · exact cfr
    · exact cfl
  unfold ECTGzip
  simp only [r1, r2, r3, r4, cu.1, f1, f2]
  repeat' with_reducible apply resAgree_ite
  all_goals with_reducible first
    | exact resAgree_mk _ h
    | exact resAgree_mk _ cz1.2
    | exact resAgree_mk _ cu.2
    | exact resAgree_mk _ ctail


theorem cong_pngFirst (X : Ext) (f : Path) (O : ECTOptions) (u : Nat) {S : List Path}
    {w v : World} (h : AgreeOn S w.fs v.fs) (hf : f ∈ S) :
    ResAgree S (pngFirst X f O u w) (pngFirst X f O u v) := by
  unfold pngFirst
  apply resAgree_ite
  · exact cong_Zopflipng h X hf _ _ _ _ _ _
  · exact resAgree_mk _ h

theorem cong_pngFilter (X : Ext) (f : Path) (O : ECTOptions) {S : List Path}
    {w v : World} (h : AgreeOn S w.fs v.fs) (hf : f ∈ S) :
    ResAgree S (pngFilter X f O w) (pngFilter X f O v) := by
  unfold pngFilter
  apply resAgree_ite
  · apply resAgree_ite
    · exact resAgree_mk _ h
    · exact cong_Optipng h X hf _ _ _
  · exact resAgree_mk _ h

theorem cong_trials (X : Ext) (f : Path) (O : ECTOptions) (u : Nat) {S : List Path}
    (hf : f ∈ S) (l : List Int) :
    ∀ {w v : World}, AgreeOn S w.fs v.fs →
      AgreeOn S (l.foldl (fun acc i => (zopfliTrial X f O u i acc).2) w).fs
        (l.foldl (fun acc i => (zopfliTrial X f O u i acc).2) v).fs := by
  induction l with
  | nil => intro w v h; exact h
  | cons i l ih =>
    intro w v h
    simp only [List.foldl]
    exact ih (cong_zopfliTrial h X hf O u i).2

theorem cong_pngBody (X : Ext) (f : Path) (O : ECTOptions) (u : Nat) (size x filter : Int)
    {S : List Path} {w v : World} (h : AgreeOn S w.fs v.fs) (hf : f ∈ S)
    (hb : f ++ ".bak" ∈ S) :
    ResAgree S (pngBody X f O u size x filter w) (pngBody X f O u size x filter v) := by
  have cz := cong_zopfliTrial h X hf O u 6
  have cf := cong_trials X f O u hf pngIndices cz.2
  have c9 := cong_zopfliTrial cf X hf O u 9
  have c10 := cong_zopfliTrial c9.2 X hf O u 10
  have c14 := cong_zopfliTrial c10.2 X hf O u 14
  have cw2 : AgreeOn S
      (if O.Allfiltersbrute = true then
        (zopfliTrial X f O u 14 (zopfliTrial X f O u 10 (zopfliTrial X f O u 9
          (pngIndices.foldl (fun acc i => (zopfliTrial X f O u i acc).2)
            (zopfliTrial X f O u 6 w).2)).2).2).2
       else pngIndices.foldl (fun acc i => (zopfliTrial X f O u i acc).2)
            (zopfliTrial X f O u 6 w).2).fs
      (if O.Allfiltersbrute = true then
        (zopfliTrial X f O u 14 (zopfliTrial X f O u 10 (zopfliTrial X f O u 9
          (pngIndices.foldl (fun acc i => (zopfliTrial X f O u i acc).2)
            (zopfliTrial X f O u 6 v).2)).2).2).2
       else pngIndices.foldl (fun acc i => (zopfliTrial X f O u i acc).2)
            (zopfliTrial X f O u 6 v).2).fs := by
    split_ifs
    · exact c14.2
    · exact cf
  have ct := cong_zopfliTrial h X hf O u filter
  have cz' : ResAgree S (zopfliTrial X f O u 6 w) (zopfliTrial X f O u 6 v) := cz
  have ct' : ResAgree S (zopfliTrial X f O u filter w) (zopfliTrial X f O u filter v) := ct
  have cu := cong_unlink h hb
  have cr := cong_rename h hb hf
  unfold pngBody
  simp only [cz.1, agreeOn_filesize h hf]
  repeat' with_reducible apply resAgree_ite
  all_goals with_reducible first
    | exact cz'
    | exact ct'
    | exact resAgree_mk _ cw2
    | exact resAgree_mk _ ct.2
    | exact resAgree_mk _ cu
    | exact resAgree_mk _ cr


theorem cong_OptimizePNG (X : Ext) (f : Path) (O : ECTOptions) {S : List Path}
    {w v : World} (h : AgreeOn S w.fs v.fs) (hf : f ∈ S) (hb : f ++ ".bak" ∈ S) :
    ResAgree S (OptimizePNG X f O w) (OptimizePNG X f O v) := by
  have h0 : AgreeOn S (w.emit (Event.OptimizePNG f)).fs (v.emit (Event.OptimizePNG f)).fs := h
  obtain ⟨c1, d1⟩ := cong_pngFirst X f O (if O.SavingsCounter = true then 0 else 1) h0 hf
  obtain ⟨c2, d2⟩ := cong_pngFilter X f O d1 hf
  have hs : filesize (w.emit (Event.OptimizePNG f)).fs f
      = filesize (v.emit (Event.OptimizePNG f)).fs f := agreeOn_filesize h0 hf
  unfold OptimizePNG
  simp only [hs, c1, c2]
  obtain ⟨c3, d3⟩ := cong_pngBody X f O (if O.SavingsCounter = true then 0 else 1)
    (filesize (v.emit (Event.OptimizePNG f)).fs f)
    (pngFirst X f O (if O.SavingsCounter = true then 0 else 1) (v.emit (Event.OptimizePNG f))).1
    (if (pngFilter X f O (pngFirst X f O (if O.SavingsCounter = true then 0 else 1)
          (v.emit (Event.OptimizePNG f))).2).1 ≠ 0
        ∧ ¬ O.Allfilters = true ∧ O.Allfilterscheap = true ∧ ¬ O.Reuse = true then 15
      else (pngFilter X f O (pngFirst X f O (if O.SavingsCounter = true then 0 else 1)
          (v.emit (Event.OptimizePNG f))).2).1)
    d2 hf hb
  obtain ⟨_, d4⟩ := cong_Optipng d3 X hf 0 false 0
  simp only [c3]
  repeat' with_reducible apply resAgree_ite
  all_goals with_reducible first
    | exact resAgree_mk _ h0
    | exact resAgree_mk _ d1
    | exact resAgree_mk _ d2
    | exact resAgree_mk _ d3
    | exact resAgree_mk _ d4

theorem cong_OptimizeJPEG (X : Ext) (f : Path) (O : ECTOptions) {S : List Path}
    {w v : World} (h : AgreeOn S w.fs v.fs) (hf : f ∈ S) :
    ResAgree S (OptimizeJPEG X f O w) (OptimizeJPEG X f O v) := by
  have h0 : AgreeOn S (w.emit (Event.OptimizeJPEG f)).fs (v.emit (Event.OptimizeJPEG f)).fs := h
  have hs : filesize (w.emit (Event.OptimizeJPEG f)).fs f
      = filesize (v.emit (Event.OptimizeJPEG f)).fs f := agreeOn_filesize h0 hf
  obtain ⟨c1, d1⟩ := cong_mozjpegtran h0 X hf f O.Arithmetic
    (O.Progressive && (decide (O.Mode > 1)
      || decide (filesize (v.emit (Event.OptimizeJPEG f)).fs f > 5000))) O.strip O.Autorotate
  obtain ⟨c2, d2⟩ := cong_mozjpegtran d1 X hf f O.Arithmetic false O.strip O.Autorotate
  unfold OptimizeJPEG
  simp only [hs, c1]
  have key : ∀ (c e : Prop) [Decidable c] [Decidable e] (a a' b b' : (Int × Nat) × World),
      a.1 = a'.1 → AgreeOn S a.2.fs a'.2.fs → b.1 = b'.1 → AgreeOn S b.2.fs b'.2.fs →
      ResAgree S
        ((if (if c then if e then a else b else b).1.1 = 2 then 1 else 0 : Nat),
          (if c then if e then a else b else b).2)
        ((if (if c then if e then a' else b' else b').1.1 = 2 then 1 else 0 : Nat),
          (if c then if e then a' else b' else b').2) := by
    intro c e _ _ a a' b b' h1 h2 h3 h4
    by_cases hc : c <;> by_cases he : e <;> simp only [hc, he, if_true, if_false, h1, h3]
    all_goals first | exact ⟨rfl, h2⟩ | exact ⟨rfl, h4⟩
  exact key _ _ _ _ _ _ c2 d2 c1 d1


theorem cong_fileDispatch (X : Ext) (f : Path) (O : ECTOptions) (i : Int) (x : String)
    (size : Int) {w v : World} (h : AgreeOn (footprint f) w.fs v.fs) :
    (fileDispatch X f O i x size w).1 = (fileDispatch X f O i x size v).1
    ∧ (fileDispatch X f O i x size w).2.1 = (fileDispatch X f O i x size v).2.1
    ∧ AgreeOn (footprint f) (fileDispatch X f O i x size w).2.2.fs
        (fileDispatch X f O i x size v).2.2.fs := by
  obtain ⟨p1, p2⟩ := cong_OptimizePNG X f O h (mem_fp_self f) (mem_fp_bak f)
  obtain ⟨j1, j2⟩ := cong_OptimizeJPEG X f O h (mem_fp_self f)
  obtain ⟨g1, g2⟩ := cong_ECTGzip X f O.Mode (toUChar O.DeflateMultithreading) size
    (if O.Zip then 1 else 0) (if O.Strict then 1 else 0) h
  unfold fileDispatch
  generalize (if O.Zip = true then 1 else 0 : Nat) = z at g1 g2 ⊢
  generalize (if O.Strict = true then 1 else 0 : Int) = st at g1 g2 ⊢
  split_ifs
  · exact ⟨p1, rfl, p2⟩
  · exact ⟨j1, rfl, j2⟩
  · exact ⟨rfl, g1, g2⟩
  · exact ⟨rfl, rfl, h⟩

theorem cong_fileHandlerBody (X : Ext) (f : Path) (O : ECTOptions) (i : Int)
    {w v : World} (h : AgreeOn (footprint f) w.fs v.fs) :
    ResAgree (footprint f) (fileHandlerBody X f O i w) (fileHandlerBody X f O i v) := by
  have hs := agreeOn_filesize h (mem_fp_self f)
  have ht := agreeOn_get_file_time h (mem_fp_self f)
  obtain ⟨d1, d2, d3⟩ := cong_fileDispatch X f O i (extensionOf f) (filesize v.fs f) h
  have k0 := cong_set_file_time h (mem_fp_self f) (get_file_time v.fs f)
  have k1 := cong_set_file_time d3 (mem_fp_self f) (get_file_time v.fs f)
  unfold fileHandlerBody
  simp only [hs, ht, d1, d2]
  split_ifs
  all_goals
    refine ⟨rfl, ?_⟩
    first
      | exact h
      | exact d3
      | exact k0
      | exact k1

theorem cong_fileHandler (X : Ext) (f : Path) (O : ECTOptions) (i : Int)
    {w v : World} (h : AgreeOn (footprint f) w.fs v.fs) :
    ResAgree (footprint f) (fileHandler X f O i w) (fileHandler X f O i v) := by
  obtain ⟨a, b⟩ := cong_fileHandlerBody X f O i h
  exact ⟨a, b⟩

theorem frame_refl (S : List Path) (w : World) : Frame S w w := fun _ _ => rfl

theorem frame_of_fs {S : List Path} {w v u : World} (h : Frame S w v)
    (hu : ∀ p, p ∉ S → u.fs.lookup p = v.fs.lookup p) : Frame S w u :=
  fun p hp => (hu p hp).trans (h p hp)

theorem lookup_write_of_not_mem {S : List Path} (fs : FS) {q : Path} (hq : q ∈ S) (n : Node)
    (p : Path) (hp : p ∉ S) : (fs.write q n).lookup p = fs.lookup p := by
  have hne : ¬ p = q := fun e => hp (e ▸ hq)
  rw [FS.lookup_write, if_neg hne]

theorem lookup_erase_of_not_mem {S : List Path} (fs : FS) {q : Path} (hq : q ∈ S)
    (p : Path) (hp : p ∉ S) : (fs.erase q).lookup p = fs.lookup p := by
  have hne : ¬ p = q := fun e => hp (e ▸ hq)
  rw [FS.lookup_erase, if_neg hne]

theorem lookup_rewriteInPlace (X : Ext) {S : List Path} (fs : FS) {q : Path} (hq : q ∈ S)
    (out : Option Bytes) (p : Path) (hp : p ∉ S) :
    (rewriteInPlace X fs q out).lookup p = fs.lookup p := by
  unfold rewriteInPlace
  split
  · exact lookup_write_of_not_mem fs hq _ p hp
  · rfl


theorem frame_emit {S : List Path} {w v : World} (e : Event) (h : Frame S w v) : Frame S w (v.emit e) := h

theorem frame_unlink {S : List Path} {w v : World} {q : Path} (hq : q ∈ S) (h : Frame S w v) : Frame S w (unlink q v) := by
  refine frame_of_fs h (fun p hp => ?_)
  show (unlinkFS v.fs q).lookup p = _
  unfold unlinkFS
  split_ifs
  · exact lookup_erase_of_not_mem _ hq p hp
  · rfl

theorem frame_rename {S : List Path} {w v : World} {q r : Path} (hq : q ∈ S) (hr : r ∈ S) (h : Frame S w v) :
    Frame S w (RenameAndReplace q r v) := by
  refine frame_of_fs h (fun p hp => ?_)
  show (renameFS v.fs q r).lookup p = _
  unfold renameFS
  split
  · split_ifs
    · rfl
    · rw [lookup_write_of_not_mem _ hr _ p hp, lookup_erase_of_not_mem _ hq p hp]
  · rfl

theorem frame_set_file_time {S : List Path} {w v : World} {q : Path} (hq : q ∈ S) (t : Int) (h : Frame S w v) :
    Frame S w (set_file_time q t v) := by
  refine frame_of_fs h (fun p hp => ?_)
  show (setTime v.fs q t).lookup p = _
  unfold setTime
  split
  · exact lookup_write_of_not_mem _ hq _ p hp
  · exact lookup_write_of_not_mem _ hq _ p hp
  · rfl

theorem frame_ungz {S : List Path} {w v : World} (X : Ext) (q : Path) {r : Path} (hr : r ∈ S) (h : Frame S w v) :
    Frame S w (ungz X q r v).2 := by
  refine frame_of_fs h (fun p hp => ?_)
  unfold ungz
  cases (readFile v.fs q).bind X.inflate with
  | none => rfl
  | some u => exact lookup_write_of_not_mem _ hr _ p hp

theorem frame_ZopfliGzip {S : List Path} {w v : World} (X : Ext) (q : Path) (m t z : Nat)
    (hr : q ++ (if z ≠ 0 then ".zip" else ".gz") ∈ S) (h : Frame S w v) :
    Frame S w (ZopfliGzip X q m t z v).2 := by
  refine frame_of_fs h (fun p hp => ?_)
  unfold ZopfliGzip
  cases (readFile v.fs q).bind (X.deflate m t z) with
  | none => rfl
  | some u => exact lookup_write_of_not_mem _ hr _ p hp

theorem frame_Zopflipng {S : List Path} {w v : World} (X : Ext) {q : Path} (hq : q ∈ S) (a b : Bool) (m : Nat) (f : Int) (t u : Nat)
    (h : Frame S w v) : Frame S w (Zopflipng X a q b m f t u v).2 :=
  frame_of_fs h (fun p hp => lookup_rewriteInPlace X _ hq _ p hp)

theorem frame_zopfliTrial {S : List Path} {w v : World} (X : Ext) {q : Path} (hq : q ∈ S) (O : ECTOptions) (u : Nat) (i : Int)
    (h : Frame S w v) : Frame S w (zopfliTrial X q O u i v).2 :=
  frame_Zopflipng X hq _ _ _ _ _ _ h

theorem frame_Optipng {S : List Path} {w v : World} (X : Ext) {q : Path} (hq : q ∈ S) (hb : q ++ ".bak" ∈ S) (l : Nat) (a : Bool)
    (c : Nat) (h : Frame S w v) : Frame S w (Optipng X l q a c v).2 := by
  refine frame_of_fs h (fun p hp => ?_)
  unfold Optipng
  simp only [World.setFS_fs]
  rw [lookup_rewriteInPlace X _ hq _ p hp]
  split
  · exact lookup_write_of_not_mem _ hb _ p hp
  · rfl

theorem frame_mozjpegtran {S : List Path} {w v : World} (X : Ext) (q : Path) {r : Path} (hr : r ∈ S) (a b c : Bool) (k : Nat)
    (h : Frame S w v) : Frame S w (mozjpegtran X a b c k q r v).2 := by
  refine frame_of_fs h (fun p hp => ?_)
  unfold mozjpegtran
  simp only [World.setFS_fs]
  split
  · exact lookup_write_of_not_mem _ hr _ p hp
  · rfl



theorem frame_pngFirst {S : List Path} {w v : World} (X : Ext) {f : Path} (hf : f ∈ S)
    (O : ECTOptions) (u : Nat) (h : Frame S w v) : Frame S w (pngFirst X f O u v).2 := by
  unfold pngFirst
  split_ifs
  · exact frame_Zopflipng X hf _ _ _ _ _ _ h
  · exact h

theorem frame_pngFilter {S : List Path} {w v : World} (X : Ext) {f : Path} (hf : f ∈ S)
    (hb : f ++ ".bak" ∈ S) (O : ECTOptions) (h : Frame S w v) :
    Frame S w (pngFilter X f O v).2 := by
  unfold pngFilter
  split_ifs <;> first | exact h | exact frame_Optipng X hf hb _ _ _ h

theorem frame_pngBody {S : List Path} {w v : World} (X : Ext) {f : Path} (hf : f ∈ S)
    (hb : f ++ ".bak" ∈ S) (O : ECTOptions) (u : Nat) (size x filter : Int)
    (h : Frame S w v) : Frame S w (pngBody X f O u size x filter v).2 := by
  unfold pngBody
  simp only [pngIndices, List.foldl]
  split_ifs
  all_goals
    repeat' first
      | with_reducible exact h
      | with_reducible exact hf
      | with_reducible exact hb
      | dsimp only
      | with_reducible apply frame_zopfliTrial
      | with_reducible apply frame_unlink
      | with_reducible apply frame_rename

theorem frame_OptimizePNG {S : List Path} {w v : World} (X : Ext) {f : Path} (hf : f ∈ S)
    (hb : f ++ ".bak" ∈ S) (O : ECTOptions) (h : Frame S w v) :
    Frame S w (OptimizePNG X f O v).2 := by
  have h0 : Frame S w (v.emit (Event.OptimizePNG f)) := h
  unfold OptimizePNG
  simp only []
  split_ifs
  all_goals
    repeat' first
      | with_reducible exact h0
      | with_reducible exact hf
      | with_reducible exact hb
      | dsimp only
      | with_reducible apply frame_Optipng
      | with_reducible apply frame_pngBody
      | with_reducible apply frame_pngFilter
      | with_reducible apply frame_pngFirst

theorem frame_OptimizeJPEG {S : List Path} {w v : World} (X : Ext) {f : Path} (hf : f ∈ S)
    (O : ECTOptions) (h : Frame S w v) : Frame S w (OptimizeJPEG X f O v).2 := by
  have h0 : Frame S w (v.emit (Event.OptimizeJPEG f)) := h
  unfold OptimizeJPEG
  simp only []
  split_ifs
  all_goals
    repeat' first
      | with_reducible exact h0
      | with_reducible exact hf
      | dsimp only
      | with_reducible apply frame_mozjpegtran


theorem frame_ECTGzip {w v : World} (X : Ext) (f : Path) (Mode mt : Nat) (fs : Int)
    (ZIP : Nat) (strict : Int) (h : Frame (footprint f) w v) :
    Frame (footprint f) w (ECTGzip X f Mode mt fs ZIP strict v).2 := by
  have m1 : f ++ (if ZIP ≠ 0 then ".zip" else ".gz") ∈ footprint f := mem_fp_suffix f _
  have m2 : ¬ (ZIP ≠ 0 ∨ IsGzip X v.fs f = 0) →
      (f ++ ".ungz") ++ (if ZIP ≠ 0 then ".zip" else ".gz") ∈ footprint f := by
    intro hz
    rw [if_neg (fun hn => hz (Or.inl hn)), ungz_gz]
    exact mem_fp_ungzgz f
  have m3 := mem_fp_ungz f
  have m4 := mem_fp_ungzgz f
  have m5 := mem_fp_self f
  unfold ECTGzip
  simp only []
  split_ifs
  all_goals
    repeat' first
      | with_reducible exact h
      | with_reducible exact m1
      | with_reducible exact m3
      | with_reducible exact m4
      | with_reducible exact m5
      | with_reducible exact m2 (by assumption)
      | dsimp only
      | with_reducible apply frame_unlink
      | with_reducible apply frame_rename
      | with_reducible apply frame_ZopfliGzip
      | with_reducible apply frame_ungz

theorem frame_fileDispatch {w v : World} (X : Ext) (f : Path) (O : ECTOptions) (i : Int)
    (x : String) (size : Int) (h : Frame (footprint f) w v) :
    Frame (footprint f) w (fileDispatch X f O i x size v).2.2 := by
  unfold fileDispatch
  split_ifs <;> dsimp only <;>
    first
      | exact h
      | exact frame_OptimizePNG X (mem_fp_self f) (mem_fp_bak f) O h
      | exact frame_OptimizeJPEG X (mem_fp_self f) O h
      | exact frame_ECTGzip X f _ _ _ _ _ h

theorem frame_addSavings {S : List Path} {w v : World} (f : Path) (O : ECTOptions) (a b : Int)
    (h : Frame S w v) : Frame S w (addSavings f O a b v) := h

theorem frame_fileHandler (X : Ext) (f : Path) (O : ECTOptions) (i : Int) (w : World) :
    Frame (footprint f) w (fileHandler X f O i w).2 := by
  have h := frame_refl (footprint f) w
  have m := mem_fp_self f
  have hd := frame_fileDispatch X f O i (extensionOf f) (filesize w.fs f) h
  unfold fileHandler
  apply frame_emit
  unfold fileHandlerBody
  simp only []
  split_ifs
  all_goals
    repeat' first
      | with_reducible exact h
      | with_reducible exact hd
      | with_reducible exact m
      | dsimp only
      | with_reducible apply frame_set_file_time
      | with_reducible apply frame_addSavings

/-! ### Counters of a run over files with disjoint footprints -/

theorem fileDispatch_stat_gzip (X : Ext) (O : ECTOptions) (f : Path) (x : String) (size : Int)
    (w : World) (hp : isPngExt x = false) (hj : isJpegExt x = false) (hg : O.Gzip = true) :
    (fileDispatch X f O 0 x size w).2.1
      = (ECTGzip X f O.Mode (toUChar O.DeflateMultithreading) size (if O.Zip then 1 else 0)
          (if O.Strict then 1 else 0) w).1 := by
  unfold fileDispatch
  have hz : O.Gzip = true ∧ (0 : Int) = 0 := ⟨hg, rfl⟩
  rw [if_neg (by simp [hp]), if_neg (by simp [hj]), if_pos hz]

theorem counted_iff (X : Ext) (O : ECTOptions) (f : Path) (w : World) :
    counted X O f w ↔
      (((O.PNG_ACTIVE = true ∧ isPngExt (extensionOf f) = true)
          ∨ (O.JPEG_ACTIVE = true ∧ isJpegExt (extensionOf f) = true)
          ∨ (O.Gzip = true ∧ (0 : Int) = 0))
        ∧ ¬ filesize w.fs f < 0 ∧ filesize w.fs f < 1200000000
        ∧ ¬ (fileDispatch X f O 0 (extensionOf f) (filesize w.fs f) w).2.1 = 2) := by
  constructor
  · intro hc
    have h2 := fileDispatch_stat_ne_two X O f w hc
    obtain ⟨hrec, h0, h1, _⟩ := hc
    refine ⟨?_, not_lt.mpr h0, h1, h2⟩
    rcases hrec with h | h | h
    · exact Or.inl h
    · exact Or.inr (Or.inl h)
    · exact Or.inr (Or.inr ⟨h, rfl⟩)
  · rintro ⟨hrec, h0, h1, h2⟩
    refine ⟨?_, not_lt.mp h0, h1, ?_⟩
    · rcases hrec with h | h | h
      · exact Or.inl h
      · exact Or.inr (Or.inl h)
      · exact Or.inr (Or.inr h.1)
    · intro hp hj he
      have hg : O.Gzip = true := by
        rcases hrec with h | h | h
        · rw [hp] at h; exact absurd h.2 (by decide)
        · rw [hj] at h; exact absurd h.2 (by decide)
        · exact h.1
      exact h2 ((fileDispatch_stat_gzip X O f _ _ w hp hj hg).trans he)

theorem counters_set_file_time (p : Path) (t : Int) (w : World) :
    (set_file_time p t w).counters = w.counters := rfl

theorem counters_emit (e : Event) (w : World) : (w.emit e).counters = w.counters := rfl

theorem counters_of_quiet {w v : World} (h : Quiet w v) : v.counters = w.counters := by
  obtain ⟨_, hp, hb, hs⟩ := h
  unfold World.counters
  rw [hp, hb, hs]

theorem fileHandler_uncounted (X : Ext) (O : ECTOptions) (f : Path) (w : World)
    (h : ¬ (O.SavingsCounter = true ∧ counted X O f w)) :
    (fileHandler X f O 0 w).2.counters = w.counters := by
  have hd := counters_of_quiet
    (quiet_fileDispatch X f O 0 (extensionOf f) (filesize w.fs f) (quiet_refl w))
  rw [counted_iff] at h
  unfold fileHandler
  rw [counters_emit]
  unfold fileHandlerBody
  dsimp only
  split_ifs with c1 c2 c3 c4
  all_goals first
    | rfl
    | exact hd
    | exact absurd ⟨(‹O.SavingsCounter = true ∧ (0 : Int) = 0›).1, c1, c2, c3, c4⟩ h


theorem fileHandler_counters (X : Ext) (O : ECTOptions) (f : Path) (w : World) :
    (fileHandler X f O 0 w).2.counters = bump (tally X O f w) w.counters := by
  by_cases h : O.SavingsCounter = true ∧ counted X O f w
  · obtain ⟨a, b, c⟩ := fileHandler_counted X O f w h.1 h.2
    unfold tally
    rw [if_pos h]
    unfold World.counters bump
    rw [a, b, c]
  · unfold tally
    rw [if_neg h]
    exact fileHandler_uncounted X O f w h

theorem counted_local (X : Ext) (O : ECTOptions) (f : Path) {w v : World}
    (h : AgreeOn (footprint f) w.fs v.fs) : counted X O f w ↔ counted X O f v := by
  have hs := agreeOn_filesize h (mem_fp_self f)
  obtain ⟨g, _⟩ := cong_ECTGzip X f O.Mode (toUChar O.DeflateMultithreading) (filesize v.fs f)
    (if O.Zip then 1 else 0) (if O.Strict then 1 else 0) h
  unfold counted
  rw [hs, g]

theorem finalSize_local (X : Ext) (O : ECTOptions) (f : Path) {w v : World}
    (h : AgreeOn (footprint f) w.fs v.fs) : finalSize X O f w = finalSize X O f v := by
  have hs := agreeOn_filesize h (mem_fp_self f)
  obtain ⟨_, d, _⟩ := cong_fileDispatch X f O 0 (extensionOf f) (filesize v.fs f) h
  obtain ⟨_, k⟩ := cong_fileHandler X f O 0 h
  have hr : resultPath X O f w = resultPath X O f v := by
    unfold resultPath
    rw [hs, d]
  have hm : resultPath X O f v ∈ footprint f := by
    unfold resultPath
    split_ifs
    · exact mem_fp_self f
    · exact mem_fp_zip f
    · exact mem_fp_gz f
  unfold finalSize
  rw [hr]
  exact agreeOn_filesize k hm

theorem tally_local (X : Ext) (O : ECTOptions) (f : Path) {w v : World}
    (h : AgreeOn (footprint f) w.fs v.fs) : tally X O f w = tally X O f v := by
  unfold tally
  rw [agreeOn_filesize h (mem_fp_self f), finalSize_local X O f h]
  simp only [counted_local X O f h]


theorem apart_symm {a b : Path} (h : Apart a b) : Apart b a :=
  fun p hb ha => h p ha hb

theorem agreeOn_after (X : Ext) (O : ECTOptions) (f : Path) (rest : List Path) (s w : World)
    (ha : ∀ g ∈ rest, Apart f g)
    (hw : ∀ g ∈ f :: rest, AgreeOn (footprint g) s.fs w.fs) :
    ∀ g ∈ rest, AgreeOn (footprint g) (fileHandler X f O 0 s).2.fs w.fs := by
  intro g hg p hp
  have hnot : p ∉ footprint f := fun hf => ha g hg p hf hp
  rw [frame_fileHandler X f O 0 s p hnot]
  exact hw g (List.mem_cons_of_mem _ hg) p hp

theorem fileLoop_apart (X : Ext) (O : ECTOptions) (w : World) (fl : List Path) :
    ∀ s : Nat × World, fl.Pairwise Apart → (∀ g ∈ fl, AgreeOn (footprint g) s.2.fs w.fs) →
      (fileLoop X O fl s).2.counters
        = (fl.map (fun f => tally X O f w)).foldl (fun c t => bump t c) s.2.counters := by
  induction fl with
  | nil => intro s _ _; rfl
  | cons f rest ih =>
    intro s hp hw
    rw [List.pairwise_cons] at hp
    have hnext := agreeOn_after X O f rest s.2 w hp.1 hw
    simp only [fileLoop, List.map_cons, List.foldl_cons]
    rw [ih (s.1 ||| (fileHandler X f O 0 s.2).1, (fileHandler X f O 0 s.2).2) hp.2 hnext]
    dsimp only
    rw [fileHandler_counters, tally_local X O f (hw f (List.mem_cons_self _ _))]

theorem bump_comm (a b : Option (Int × Int)) (c : Nat × Nat × Int) :
    bump b (bump a c) = bump a (bump b c) := by
  cases a with
  | none => rfl
  | some m =>
    cases b with
    | none => rfl
    | some n =>
      unfold bump
      simp only [Prod.mk.injEq]
      refine ⟨trivial, ?_, ?_⟩
      · unfold toSizeT; omega
      · unfold toLongLong; omega

theorem apart_measured (X : Ext) (O : ECTOptions) (w : World) (fl : List Path) :
    ∀ s : World, fl.Pairwise Apart → (∀ g ∈ fl, AgreeOn (footprint g) s.fs w.fs) →
      measured X O fl s = fl.map (fun f => (filesize w.fs f, finalSize X O f w)) := by
  induction fl with
  | nil => intro s _ _; rfl
  | cons f rest ih =>
    intro s hp hw
    rw [List.pairwise_cons] at hp
    have hf := hw f (List.mem_cons_self _ _)
    simp only [measured, List.map_cons]
    rw [ih _ hp.2 (agreeOn_after X O f rest s w hp.1 hw), agreeOn_filesize hf (mem_fp_self f),
      finalSize_local X O f hf]

theorem fileLoop_perm (X : Ext) (O : ECTOptions) (w : World) (fl fl' : List Path)
    (ha : fl.Pairwise Apart) (hperm : fl'.Perm fl) :
    (fileLoop X O fl' (0, w)).2.counters = (fileLoop X O fl (0, w)).2.counters := by
  have ha' : fl'.Pairwise Apart := (hperm.pairwise_iff (fun h => apart_symm h)).mpr ha
  rw [fileLoop_apart X O w fl (0, w) ha (fun g _ => agreeOn_refl _ _),
    fileLoop_apart X O w fl' (0, w) ha' (fun g _ => agreeOn_refl _ _)]
  exact List.Perm.foldl_eq' (hperm.map _) (fun x _ y _ z => bump_comm x y z) _

/-- C3 (amended). Starting from zeroed counters, with the savings counter
enabled, for every list of files whose top-level calls all reach the counter
update (`allCounted`): `processedfiles` is the length of the list, `bytes` the
sum of the sizes met when each call starts and `savings` the sum of (that size
minus the size of the result when the call has returned), each reduced to its
64-bit counter type. When in addition the footprints of the files (a file and
its siblings `.bak`, `.gz`, `.zip`, `.ungz`, `.ungz.gz`) are pairwise disjoint,
these sizes are the ones of the state the run starts from, and every other
order of the same files gives the same three totals. -/
theorem C3_counter_totals (X : Ext) (O : ECTOptions) (fl fl' : List Path) (w : World)
    (hS : O.SavingsCounter = true)
    (hz : w.processedfiles = 0 ∧ w.bytes = 0 ∧ w.savings = 0)
    (hc : allCounted X O fl w) :
    ((fileLoop X O fl (0, w)).2.processedfiles = fl.length % 2 ^ 64
      ∧ (fileLoop X O fl (0, w)).2.bytes = toSizeT ((measured X O fl w).map Prod.fst).sum
      ∧ (fileLoop X O fl (0, w)).2.savings
          = toLongLong ((measured X O fl w).map (fun m => m.1 - m.2)).sum)
    ∧ (fl.Pairwise Apart →
        measured X O fl w = fl.map (fun f => (filesize w.fs f, finalSize X O f w))
        ∧ (fl'.Perm fl →
          (fileLoop X O fl' (0, w)).2.processedfiles = (fileLoop X O fl (0, w)).2.processedfiles
          ∧ (fileLoop X O fl' (0, w)).2.bytes = (fileLoop X O fl (0, w)).2.bytes
          ∧ (fileLoop X O fl' (0, w)).2.savings = (fileLoop X O fl (0, w)).2.savings)) := by
  obtain ⟨hz1, hz2, hz3⟩ := hz
  refine ⟨?_, fun ha => ⟨apart_measured X O w fl w ha (fun g _ => agreeOn_refl _ _), ?_⟩⟩
  · obtain ⟨i1, i2, i3, i4, i5, i6⟩ := fileLoop_counters X O hS fl 0 w hc
    rw [hz1] at i1 i2
    rw [hz2] at i3 i4
    rw [hz3] at i5 i6
    have h2 := i2 (by norm_num)
    have h4 := i4 (by norm_num)
    have h6 := i6 (by decide)
    refine ⟨?_, ?_, ?_⟩
    · rw [← Nat.mod_eq_of_lt h2, i1, Nat.zero_add]
    · have : toSizeT (fileLoop X O fl (0, w)).2.bytes = (fileLoop X O fl (0, w)).2.bytes := by
        unfold toSizeT; omega
      rw [← this, i3]; simp
    · rw [← h6, i5]; simp
  · intro hperm
    have hk := fileLoop_perm X O w fl fl' ha hperm
    exact ⟨congrArg (fun c => c.1) hk, congrArg (fun c => c.2.1) hk,
      congrArg (fun c => c.2.2) hk⟩

/-- The totals of C3 on a PNG and a JPEG file with disjoint footprints, in
both orders. -/
theorem C3_counter_totals_witness :
    defaultOptions.SavingsCounter = true
    ∧ allCounted demoExt defaultOptions ["a.png", "b.jpg"] worldTwoImages
    ∧ ["a.png", "b.jpg"].Pairwise Apart
    ∧ (fileLoop demoExt defaultOptions ["a.png", "b.jpg"] (0, worldTwoImages)).2.processedfiles
        = ["a.png", "b.jpg"].length % 2 ^ 64
    ∧ (fileLoop demoExt defaultOptions ["b.jpg", "a.png"] (0, worldTwoImages)).2.bytes
        = (fileLoop demoExt defaultOptions ["a.png", "b.jpg"] (0, worldTwoImages)).2.bytes :=
  have hc : allCounted demoExt defaultOptions ["a.png", "b.jpg"] worldTwoImages :=
    ⟨by decide, by decide, trivial⟩
  have ha : ["a.png", "b.jpg"].Pairwise Apart := by decide
  ⟨rfl, hc, ha,
    (C3_counter_totals demoExt defaultOptions ["a.png", "b.jpg"] ["b.jpg", "a.png"]
      worldTwoImages rfl ⟨rfl, rfl, rfl⟩ hc).1.1,
    (((C3_counter_totals demoExt defaultOptions ["a.png", "b.jpg"] ["b.jpg", "a.png"]
      worldTwoImages rfl ⟨rfl, rfl, rfl⟩ hc).2 ha).2 (by decide)).2.1⟩

/-- C3 as stated fails. A file of an unrecognised type is handled by a
top-level call that leaves `processedfiles` at 0, not 1; and the two orders of
the list `p.png`, `p.png.bak` under `-1 -gzip` give different totals, because
the PNG driver removes the `.bak` sidecar of the file it handles. -/
theorem C3_counterexample :
    (fileLoop demoExt defaultOptions ["notes.txt"]
        (0, World.ofFiles [("notes.txt", Node.file [5, 6] 7 true)])).2.processedfiles
      ≠ ["notes.txt"].length
    ∧ (fileLoop demoExt gzipLevel1 ["p.png.bak", "p.png"] (0, worldPngAndBak)).2.processedfiles = 2
    ∧ (fileLoop demoExt gzipLevel1 ["p.png", "p.png.bak"] (0, worldPngAndBak)).2.processedfiles = 1 := by
  decide

/-! ## Gzip rewrite cycle (C4) -/

theorem append_ne_self (p s : String) (hs : s ≠ "") : p ++ s ≠ p := by
  intro h
  have h1 : (p ++ s).data = p.data := by rw [h]
  rw [String.data_append] at h1
  have h2 : s.data = [] := by simpa using h1
  apply hs
  exact String.ext h2

theorem append_left_inj' (p a b : String) (h : a ≠ b) : p ++ a ≠ p ++ b := by
  intro e
  have h1 : (p ++ a).data = (p ++ b).data := by rw [e]
  rw [String.data_append, String.data_append] at h1
  have h2 : a.data = b.data := by simpa using h1
  exact h (String.ext h2)


theorem readFile_eq_some {fs : FS} {p : Path} {d : Bytes} (h : readFile fs p = some d) :
    ∃ t, fs.lookup p = some (Node.file d t true) := by
  unfold readFile at h
  split at h
  · rename_i d' t h'
    simp at h; subst h
    exact ⟨t, h'⟩
  · simp at h

theorem exists_false_iff {fs : FS} {p : Path} (h : exists_ fs p = false) : fs.lookup p = none := by
  unfold exists_ at h
  simpa using h

theorem ZopfliGzip_fs_some (X : Ext) (p : Path) (m t z : Nat) (w : World) (u out : Bytes)
    (h : readFile w.fs p = some u) (hz : X.deflate m t z u = some out) :
    (ZopfliGzip X p m t z w).2.fs
      = w.fs.write (p ++ (if z ≠ 0 then ".zip" else ".gz")) (Node.file out X.now true) := by
  unfold ZopfliGzip
  simp only [h, Option.some_bind, hz, World.setFS_fs]

theorem ZopfliGzip_fs_none (X : Ext) (p : Path) (m t z : Nat) (w : World)
    (h : (readFile w.fs p).bind (X.deflate m t z) = none) :
    (ZopfliGzip X p m t z w).2.fs = w.fs := by
  unfold ZopfliGzip
  simp only [h, World.emit_fs]

/-- The compare-then-replace tail of the rewrite cycle of `ECTGzip` (main.cpp
167-173), from a world in which the original, the inflated copy and (when the
deflater succeeded) the recompressed stream are in place. -/
theorem rewrite_tail (W2 : World) (Infile : Path) (d u : Bytes) (t n : Int) (g : Option Bytes)
    (LI : W2.fs.lookup Infile = some (Node.file d t true))
    (LU : W2.fs.lookup (Infile ++ ".ungz") = some (Node.file u n true))
    (LG : W2.fs.lookup (Infile ++ ".ungz.gz") = g.map (fun z => Node.file z n true)) :
    (unlink (Infile ++ ".ungz")
        (if filesize W2.fs (Infile ++ ".ungz.gz") < filesize W2.fs Infile then
          RenameAndReplace (Infile ++ ".ungz.gz") Infile W2
        else unlink (Infile ++ ".ungz.gz") W2)).fs.lookup (Infile ++ ".ungz") = none
    ∧ (unlink (Infile ++ ".ungz")
        (if filesize W2.fs (Infile ++ ".ungz.gz") < filesize W2.fs Infile then
          RenameAndReplace (Infile ++ ".ungz.gz") Infile W2
        else unlink (Infile ++ ".ungz.gz") W2)).fs.lookup (Infile ++ ".ungz.gz") = none
    ∧ (unlink (Infile ++ ".ungz")
        (if filesize W2.fs (Infile ++ ".ungz.gz") < filesize W2.fs Infile then
          RenameAndReplace (Infile ++ ".ungz.gz") Infile W2
        else unlink (Infile ++ ".ungz.gz") W2)).fs.lookup Infile
        = match g with
          | some z =>
              if z.length < d.length then some (Node.file z n true)
              else some (Node.file d t true)
          | none => some (Node.file d t true) := by
  have hUI : Infile ++ ".ungz" ≠ Infile := append_ne_self _ _ (by decide)
  have hGI : Infile ++ ".ungz.gz" ≠ Infile := append_ne_self _ _ (by decide)
  have hGU : Infile ++ ".ungz.gz" ≠ Infile ++ ".ungz" := append_left_inj' _ _ _ (by decide)
  have fI : filesize W2.fs Infile = d.length := by simp [filesize, LI]
  cases g with
  | none =>
    simp only [Option.map_none'] at LG
    have fG : filesize W2.fs (Infile ++ ".ungz.gz") = -1 := by simp [filesize, LG]
    have hc : filesize W2.fs (Infile ++ ".ungz.gz") < filesize W2.fs Infile := by
      rw [fG, fI]; omega
    rw [if_pos hc]
    simp [renameFS, unlinkFS, is_regular_file, LG, LU, LI, hUI, hGI, hGU, hUI.symm, hGI.symm,
      hGU.symm]
  | some z =>
    simp only [Option.map_some'] at LG
    have fG : filesize W2.fs (Infile ++ ".ungz.gz") = z.length := by simp [filesize, LG]
    by_cases hlt : z.length < d.length
    · have hc : filesize W2.fs (Infile ++ ".ungz.gz") < filesize W2.fs Infile := by
        rw [fG, fI]; omega
      rw [if_pos hc]
      simp [renameFS, unlinkFS, is_regular_file, isDirNode, LG, LU, LI, hUI, hGI, hGU,
        hUI.symm, hGI.symm, hGU.symm, hlt]
    · have hc : ¬ filesize W2.fs (Infile ++ ".ungz.gz") < filesize W2.fs Infile := by
        rw [fG, fI]; omega
      rw [if_neg hc]
      simp [unlinkFS, is_regular_file, LG, LU, LI, hUI, hGI, hGU, hUI.symm, hGI.symm,
        hGU.symm, hlt]

/-- The outcome of the rewrite cycle of `ECTGzip` at the three paths it touches. -/
theorem ECTGzip_rewrite (X : Ext) (Infile : Path) (Mode mt : Nat) (fs : Int) (strict : Int) (w : World)
    (hfs : fs ≠ 0)
    (hgz : IsGzip X w.fs Infile ≠ 0 ∧ IsGzip X w.fs Infile ≠ 2)
    (hallowed : ¬ (IsGzip X w.fs Infile = 3 ∧ strict ≠ 0))
    (hs1 : exists_ w.fs (Infile ++ ".ungz") = false)
    (hs2 : exists_ w.fs (Infile ++ ".ungz.gz") = false)
    (hdec : (ungz X Infile (Infile ++ ".ungz") w).1 = 0) :
    ∃ d t u, w.fs.lookup Infile = some (Node.file d t true) ∧ X.inflate d = some u
      ∧ (ECTGzip X Infile Mode mt fs 0 strict w).1 = 0
      ∧ (ECTGzip X Infile Mode mt fs 0 strict w).2.fs.lookup (Infile ++ ".ungz") = none
      ∧ (ECTGzip X Infile Mode mt fs 0 strict w).2.fs.lookup (Infile ++ ".ungz.gz") = none
      ∧ (ECTGzip X Infile Mode mt fs 0 strict w).2.fs.lookup Infile
          = match X.deflate Mode mt 0 u with
            | some z =>
                if z.length < d.length then some (Node.file z X.now true)
                else some (Node.file d t true)
            | none => some (Node.file d t true) := by
  have hUI : Infile ++ ".ungz" ≠ Infile := append_ne_self _ _ (by decide)
  have hGI : Infile ++ ".ungz.gz" ≠ Infile := append_ne_self _ _ (by decide)
  have hGU : Infile ++ ".ungz.gz" ≠ Infile ++ ".ungz" := append_left_inj' _ _ _ (by decide)
  have hl1 := exists_false_iff hs1
  have hl2 := exists_false_iff hs2
  -- decompression succeeded
  have hinf : ∃ u, (readFile w.fs Infile).bind X.inflate = some u := by
    unfold ungz at hdec
    cases h : (readFile w.fs Infile).bind X.inflate with
    | none => simp [h] at hdec
    | some u => exact ⟨u, rfl⟩
  obtain ⟨u, hu⟩ := hinf
  obtain ⟨d, hd, hdu⟩ := Option.bind_eq_some.mp hu
  obtain ⟨t, ht⟩ := readFile_eq_some hd
  refine ⟨d, t, u, ht, hdu, ?_⟩
  have h1 : ¬ (fs = 0) := hfs
  have h2 : ¬ (IsGzip X w.fs Infile = 2) := hgz.2
  have h4 : ¬ ((0 : Nat) ≠ 0 ∨ IsGzip X w.fs Infile = 0) := by
    intro h; rcases h with h | h
    · exact h rfl
    · exact hgz.1 h
  have h5 : ¬ (exists_ w.fs (Infile ++ ".ungz") = true) := by simp [hs1]
  have h6 : ¬ (exists_ w.fs (Infile ++ ".ungz.gz") = true) := by simp [hs2]
  have h7 : ¬ ((ungz X Infile (Infile ++ ".ungz") w).1 ≠ 0) := by simp [hdec]
  have hE : ECTGzip X Infile Mode mt fs 0 strict w
      = (0, unlink (Infile ++ ".ungz")
          (if filesize (ZopfliGzip X (Infile ++ ".ungz") Mode mt 0
                (ungz X Infile (Infile ++ ".ungz") w).2).2.fs (Infile ++ ".ungz.gz")
              < filesize (ZopfliGzip X (Infile ++ ".ungz") Mode mt 0
                (ungz X Infile (Infile ++ ".ungz") w).2).2.fs Infile
            then RenameAndReplace (Infile ++ ".ungz.gz") Infile
              (ZopfliGzip X (Infile ++ ".ungz") Mode mt 0 (ungz X Infile (Infile ++ ".ungz") w).2).2
            else unlink (Infile ++ ".ungz.gz")
              (ZopfliGzip X (Infile ++ ".ungz") Mode mt 0
                (ungz X Infile (Infile ++ ".ungz") w).2).2)) := by
    unfold ECTGzip
    dsimp only
    rw [if_neg h1, if_neg h2, if_neg hallowed, if_neg h4, if_neg h5, if_neg h6, if_neg h7]
  have hw1 : (ungz X Infile (Infile ++ ".ungz") w).2.fs
      = w.fs.write (Infile ++ ".ungz") (Node.file u X.now true) := by
    unfold ungz; simp [hu]
  have hr1 : readFile (ungz X Infile (Infile ++ ".ungz") w).2.fs (Infile ++ ".ungz") = some u := by
    rw [hw1]; simp [readFile]
  rw [hE]
  dsimp only
  have hI1 : (ungz X Infile (Infile ++ ".ungz") w).2.fs.lookup Infile
      = some (Node.file d t true) := by
    rw [hw1]; simp [hUI.symm, ht]
  cases hz : X.deflate Mode mt 0 u with
  | none =>
    have hw2 := ZopfliGzip_fs_none X (Infile ++ ".ungz") Mode mt 0
      (ungz X Infile (Infile ++ ".ungz") w).2 (by rw [hr1]; exact hz)
    refine ⟨rfl, ?_⟩
    refine rewrite_tail _ Infile d u t X.now none ?_ ?_ ?_
    · rw [hw2]; exact hI1
    · rw [hw2, hw1]; simp
    · rw [hw2, hw1]; simp [hGU, hl2]
  | some z =>
    have hw2 := ZopfliGzip_fs_some X (Infile ++ ".ungz") Mode mt 0
      (ungz X Infile (Infile ++ ".ungz") w).2 u z hr1 hz
    simp only [ne_eq, not_true_eq_false, if_false, ungz_gz] at hw2
    refine ⟨rfl, ?_⟩
    refine rewrite_tail _ Infile d u t X.now (some z) ?_ ?_ ?_
    · rw [hw2]; simp [hGI.symm]; exact hI1
    · rw [hw2, hw1]; simp [hGU.symm]
    · rw [hw2]; simp

/-- C4. Gzip rewrite cycle. For a non-empty input that `ECTGzip` classifies as a
Gzip stream and may rewrite, with Zip mode off, no sidecar `.ungz` or `.ungz.gz`
beforehand and a successful decompression, `ECTGzip` returns 0 and then: the
file at the original path holds the recompressed stream if that stream is
strictly smaller than the original, and is the untouched original otherwise
(also when no recompressed stream was produced); its size is at most the
original size; and neither sidecar exists. -/
theorem C4_gzip_rewrite_cycle (X : Ext) (Infile : Path) (Mode mt : Nat) (fs : Int)
    (strict : Int) (w : World)
    (hfs : fs ≠ 0)
    (hgz : IsGzip X w.fs Infile ≠ 0 ∧ IsGzip X w.fs Infile ≠ 2)
    (hallowed : ¬ (IsGzip X w.fs Infile = 3 ∧ strict ≠ 0))
    (hs1 : exists_ w.fs (Infile ++ ".ungz") = false)
    (hs2 : exists_ w.fs (Infile ++ ".ungz.gz") = false)
    (hdec : (ungz X Infile (Infile ++ ".ungz") w).1 = 0) :
    (ECTGzip X Infile Mode mt fs 0 strict w).1 = 0
    ∧ (∀ z, recompressed X Mode mt w.fs Infile = some z → (z.length : Int) < filesize w.fs Infile →
        readFile (ECTGzip X Infile Mode mt fs 0 strict w).2.fs Infile = some z)
    ∧ ((∀ z, recompressed X Mode mt w.fs Infile = some z → filesize w.fs Infile ≤ z.length) →
        (ECTGzip X Infile Mode mt fs 0 strict w).2.fs.lookup Infile = w.fs.lookup Infile)
    ∧ filesize (ECTGzip X Infile Mode mt fs 0 strict w).2.fs Infile ≤ filesize w.fs Infile
    ∧ exists_ (ECTGzip X Infile Mode mt fs 0 strict w).2.fs (Infile ++ ".ungz") = false
    ∧ exists_ (ECTGzip X Infile Mode mt fs 0 strict w).2.fs (Infile ++ ".ungz.gz") = false := by
  obtain ⟨d, t, u, ht, hdu, hr, hU, hG, hI⟩ :=
    ECTGzip_rewrite X Infile Mode mt fs strict w hfs hgz hallowed hs1 hs2 hdec
  have hrd : readFile w.fs Infile = some d := by simp [readFile, ht]
  have hrec : recompressed X Mode mt w.fs Infile = X.deflate Mode mt 0 u := by
    simp [recompressed, hrd, hdu]
  have hsz : filesize w.fs Infile = d.length := by simp [filesize, ht]
  refine ⟨hr, ?_, ?_, ?_, by simp [exists_, hU], by simp [exists_, hG]⟩
  · intro z hz hlt
    rw [hrec] at hz
    rw [hsz] at hlt
    have hlt' : z.length < d.length := by exact_mod_cast hlt
    simp [readFile, hI, hz, hlt']
  · intro hall
    rw [hI, ht]
    cases hz : X.deflate Mode mt 0 u with
    | none => rfl
    | some z =>
      have := hall z (by rw [hrec, hz])
      rw [hsz] at this
      have hn : ¬ z.length < d.length := by omega
      simp [hn]
  · rw [hsz]
    unfold filesize
    rw [hI]
    cases hz : X.deflate Mode mt 0 u with
    | none => simp
    | some z =>
      by_cases hlt : z.length < d.length
      · simp [hlt]; omega
      · simp [hlt]

/-- The rewrite cycle of C4 on a twelve-byte stream that recompresses to nine
bytes. -/
theorem C4_gzip_rewrite_cycle_witness :
    (12 : Int) ≠ 0
    ∧ (IsGzip demoExt worldLogGz.fs "log.gz" ≠ 0 ∧ IsGzip demoExt worldLogGz.fs "log.gz" ≠ 2)
    ∧ exists_ worldLogGz.fs ("log.gz" ++ ".ungz") = false
    ∧ exists_ worldLogGz.fs ("log.gz" ++ ".ungz.gz") = false
    ∧ (ungz demoExt "log.gz" ("log.gz" ++ ".ungz") worldLogGz).1 = 0
    ∧ readFile (ECTGzip demoExt "log.gz" 3 0 12 0 0 worldLogGz).2.fs "log.gz"
        = some [31, 139, 0, 1, 4, 7, 1, 4, 7] :=
  ⟨by decide, by decide, by decide, by decide, by decide,
    (C4_gzip_rewrite_cycle demoExt "log.gz" 3 0 12 0 worldLogGz (by decide) (by decide)
      (by decide) (by decide) (by decide) (by decide)).2.1 [31, 139, 0, 1, 4, 7, 1, 4, 7]
      (by decide) (by decide)⟩

/-! ## Refusals without mutation (C5, C6) -/

/-- A top-level call in Gzip mode on a file that is neither PNG nor JPEG by
name and whose size is below the ceiling returns 1 and changes nothing but the
call log whenever `ECTGzip` returns 2 without changing the world. -/
theorem fileHandler_gzip_refused (X : Ext) (Infile : Path) (O : ECTOptions) (w : World)
    (hG : O.Gzip = true)
    (hp : isPngExt (extensionOf Infile) = false) (hj : isJpegExt (extensionOf Infile) = false)
    (h0 : 0 ≤ filesize w.fs Infile) (h1 : filesize w.fs Infile < 1200000000)
    (hE : ECTGzip X Infile O.Mode (toUChar O.DeflateMultithreading) (filesize w.fs Infile)
        (if O.Zip then 1 else 0) (if O.Strict then 1 else 0) w = (2, w)) :
    fileHandler X Infile O 0 w = (1, w.emit (Event.fileHandler Infile 0 1)) := by
  have hcond : (O.PNG_ACTIVE = true ∧ isPngExt (extensionOf Infile) = true)
      ∨ (O.JPEG_ACTIVE = true ∧ isJpegExt (extensionOf Infile) = true)
      ∨ (O.Gzip = true ∧ (0 : Int) = 0) := Or.inr (Or.inr ⟨hG, rfl⟩)
  have hd : fileDispatch X Infile O 0 (extensionOf Infile) (filesize w.fs Infile) w = (0, 2, w) := by
    unfold fileDispatch
    have hp' : ¬ (isPngExt (extensionOf Infile) = true) := by simp [hp]
    have hj' : ¬ (isJpegExt (extensionOf Infile) = true) := by simp [hj]
    have hz : O.Gzip = true ∧ (0 : Int) = 0 := ⟨hG, rfl⟩
    rw [if_neg hp', if_neg hj', if_pos hz]
    dsimp only
    rw [hE]
  have hb : fileHandlerBody X Infile O 0 w = (1, w) := by
    unfold fileHandlerBody
    dsimp only
    rw [if_pos hcond, if_neg (not_lt.mpr h0), if_pos h1, hd]
    simp
  unfold fileHandler
  rw [hb]

/-- C6. Strict-mode refusal. For a non-empty input that the classifier reports
as a Gzip stream with extra field, file name or comment (`IsGzip` = 3), with
strict losslessness on, `ECTGzip` returns the refusal status 2 and the world is
unchanged (no compress, decompress, rename or delete); and the top-level
`fileHandler` call that routes the file there returns 1, leaves the file system
and the three counters as they were and adds only its own call record. -/
theorem C6_strict_refusal (X : Ext) :
    (∀ (Infile : Path) (Mode mt : Nat) (fs : Int) (ZIP : Nat) (strict : Int) (w : World),
      fs ≠ 0 → IsGzip X w.fs Infile = 3 → strict ≠ 0 →
      ECTGzip X Infile Mode mt fs ZIP strict w = (2, w))
    ∧ (∀ (Infile : Path) (O : ECTOptions) (w : World),
      O.Gzip = true → O.Strict = true → isPngExt (extensionOf Infile) = false →
      isJpegExt (extensionOf Infile) = false →
      0 < filesize w.fs Infile → filesize w.fs Infile < 1200000000 →
      IsGzip X w.fs Infile = 3 →
      fileHandler X Infile O 0 w = (1, w.emit (Event.fileHandler Infile 0 1))) := by
  have part1 : ∀ (Infile : Path) (Mode mt : Nat) (fs : Int) (ZIP : Nat) (strict : Int)
      (w : World), fs ≠ 0 → IsGzip X w.fs Infile = 3 → strict ≠ 0 →
      ECTGzip X Infile Mode mt fs ZIP strict w = (2, w) := by
    intro Infile Mode mt fs ZIP strict w h1 h2 h3
    have h2' : ¬ (IsGzip X w.fs Infile = 2) := by rw [h2]; decide
    unfold ECTGzip
    dsimp only
    rw [if_neg h1, if_neg h2', if_pos ⟨h2, h3⟩]
  refine ⟨part1, ?_⟩
  intro Infile O w hG hS hp hj h0 h1 h3
  apply fileHandler_gzip_refused X Infile O w hG hp hj (le_of_lt h0) h1
  apply part1 _ _ _ _ _ _ _ (ne_of_gt h0) h3
  simp [hS]

/-- The two parts of C6 on a stream whose header announces extra fields. -/
theorem C6_strict_refusal_witness :
    ECTGzip demoExt "log.gz" 3 0 12 0 1 worldComplexGz = (2, worldComplexGz)
    ∧ fileHandler demoExt "log.gz" strictOptions 0 worldComplexGz
        = (1, worldComplexGz.emit (Event.fileHandler "log.gz" 0 1)) :=
  ⟨(C6_strict_refusal demoExt).1 "log.gz" 3 0 12 0 1 worldComplexGz (by decide) (by decide)
      (by decide),
    (C6_strict_refusal demoExt).2 "log.gz" strictOptions worldComplexGz (by decide) (by decide)
      (by decide) (by decide) (by decide) (by decide) (by decide)⟩

/-! ## Archive target name (C7) -/

/-- C7, evaluated on the code. For the regular, non-archive argument `data.txt`
the code derives the target `data.txt.zip`, not `data.zip`, and that is the
archive `zipHandler` creates: the guard `find_last_of(".") >
find_last_of("/\\")` compares the position 4 of the dot with `npos` when the
name has no separator, so the extension is not removed. With a separator in
front (`./data.txt`) the stem is taken as the claim says. -/
theorem C7_data_txt_target :
    is_regular_file worldDataTxt.fs "data.txt" = true
    ∧ IsZIP demoExt worldDataTxt.fs "data.txt" = false
    ∧ find_last_of "data.txt" "." = 4 ∧ find_last_of "data.txt" "/\\" = 2 ^ 64 - 1
    ∧ zipTargetName demoExt worldDataTxt.fs "data.txt" = "data.txt.zip"
    ∧ (zipHandler demoExt ["data.txt"] zipOptions worldDataTxt).map
        (fun r => (r.1, exists_ r.2.fs "data.txt.zip", exists_ r.2.fs "data.zip"))
        = some (0, true, false)
    ∧ zipTargetName demoExt worldDotData.fs "./data.txt" = "./data.zip" := by
  decide

/-! ## Failures while building the archive (C8) -/

theorem zipAddFile_oblivious (X : Ext) (z : Path) (m : String) (src : Path) (a b : ZipAcc)
    (hl : a.local_bytes = b.local_bytes) (hw : a.w = b.w) :
    (zipAddFile X z m src a).local_bytes = (zipAddFile X z m src b).local_bytes
    ∧ (zipAddFile X z m src a).w = (zipAddFile X z m src b).w := by
  obtain ⟨ea, la, wa⟩ := a
  obtain ⟨eb, lb, wb⟩ := b
  simp only at hl hw
  subst hl hw
  unfold zipAddFile
  dsimp only
  split_ifs
  · exact ⟨rfl, rfl⟩
  · exact ⟨rfl, rfl⟩
  · cases readFile wa.fs src with
    | none => exact ⟨rfl, rfl⟩
    | some d =>
      dsimp only
      split_ifs
      · exact ⟨rfl, rfl⟩
      · exact ⟨rfl, rfl⟩

theorem zipAddFile_error_mono (X : Ext) (z : Path) (m : String) (src : Path) (a : ZipAcc)
    (h : a.error ≠ 0) : (zipAddFile X z m src a).error ≠ 0 := by
  unfold zipAddFile
  dsimp only
  split_ifs
  · exact h
  · exact h
  · cases readFile a.w.fs src with
    | none => simp
    | some d =>
      dsimp only
      split_ifs
      · exact h
      · simp

theorem zipWalk_oblivious (X : Ext) (z : Path) (substr : Nat) (paths : List Path) :
    ∀ a b : ZipAcc, a.local_bytes = b.local_bytes → a.w = b.w →
      (zipWalk X z substr paths a).map (fun r => (r.local_bytes, r.w))
        = (zipWalk X z substr paths b).map (fun r => (r.local_bytes, r.w)) := by
  induction paths with
  | nil => intro a b hl hw; simp [zipWalk, hl, hw]
  | cons p rest ih =>
    intro a b hl hw
    unfold zipWalk
    dsimp only
    rw [hw]
    split_ifs
    · cases rest.head? with
      | none => rfl
      | some next =>
        dsimp only
        split_ifs
        · exact ih _ _ hl rfl
        · exact ih _ _ hl hw
    · obtain ⟨h1, h2⟩ := zipAddFile_oblivious X z (erase0 p substr) p a b hl hw
      exact ih _ _ h1 h2

theorem zipWalk_error_mono (X : Ext) (z : Path) (substr : Nat) (paths : List Path) :
    ∀ a r : ZipAcc, zipWalk X z substr paths a = some r → a.error ≠ 0 → r.error ≠ 0 := by
  induction paths with
  | nil => intro a r h he; simp [zipWalk] at h; rw [← h]; exact he
  | cons p rest ih =>
    intro a r h he
    unfold zipWalk at h
    dsimp only at h
    split_ifs at h
    · cases hh : rest.head? with
      | none => rw [hh] at h; simp at h
      | some next =>
        rw [hh] at h
        dsimp only at h
        split_ifs at h
        · exact ih _ _ h he
        · exact ih _ _ h he
    · exact ih _ _ h (zipAddFile_error_mono X z _ p a he)

theorem zipArgs_stops (X : Ext) (z : Path) (args : List Path) (acc : ZipAcc)
    (h : acc.error ≠ 0) : zipArgs X z args acc = some acc := by
  cases args with
  | nil => rfl
  | cons a rest => unfold zipArgs; rw [if_pos h]


theorem ReZipFile_log (X : Ext) (p : Path) (O : ECTOptions) (w : World) :
    (ReZipFile X p O w).2.log = w.log ++ [Event.ReZipFile p] := by
  unfold ReZipFile
  split <;> rfl

theorem zipFinish_runs_pass (X : Ext) (z : Path) (O : ECTOptions) (t : Int) (acc : ZipAcc) :
    (zipFinish X z O t acc).1 = acc.error.toNat
    ∧ Event.ReZipFile z ∈ (zipFinish X z O t acc).2.log := by
  unfold zipFinish
  dsimp only
  refine ⟨rfl, ?_⟩
  split_ifs <;> simp [ReZipFile_log]

/-! ## Dispatch by extension (C9, C10) -/

/-- C9, evaluated on the code. With PNG handling disabled and Gzip mode on, the
top-level call on `a.png` invokes the PNG optimizer; with JPEG handling
disabled and Gzip mode on, the call on `a.jpg` invokes the JPEG transcoder. The
enable flags are tested in the entry condition of `fileHandler` but not in the
dispatch on the extension that follows it. -/
theorem C9_disabled_format_optimised :
    noPngGzip.PNG_ACTIVE = false
    ∧ Event.OptimizePNG "a.png" ∈ (fileHandler demoExt "a.png" noPngGzip 0 worldPng).2.log
    ∧ noJpegGzip.JPEG_ACTIVE = false
    ∧ Event.OptimizeJPEG "a.jpg" ∈ (fileHandler demoExt "a.jpg" noJpegGzip 0 worldJpg).2.log := by
  decide

theorem OptimizePNG_logs_call (X : Ext) (Infile : Path) (O : ECTOptions) (v : World) :
    Quiet (v.emit (Event.OptimizePNG Infile)) (OptimizePNG X Infile O v).2 := by
  have h0 : Quiet (v.emit (Event.OptimizePNG Infile)) (v.emit (Event.OptimizePNG Infile)) :=
    quiet_refl _
  unfold OptimizePNG
  simp only []
  split_ifs
  all_goals
    repeat' first
      | with_reducible exact h0
      | dsimp only
      | with_reducible apply quiet_Optipng
      | with_reducible apply quiet_pngBody
      | with_reducible apply quiet_pngFilter
      | with_reducible apply quiet_pngFirst

theorem OptimizeJPEG_logs_call (X : Ext) (Infile : Path) (O : ECTOptions) (v : World) :
    Quiet (v.emit (Event.OptimizeJPEG Infile)) (OptimizeJPEG X Infile O v).2 := by
  have h0 : Quiet (v.emit (Event.OptimizeJPEG Infile)) (v.emit (Event.OptimizeJPEG Infile)) :=
    quiet_refl _
  unfold OptimizeJPEG
  simp only []
  split_ifs
  all_goals
    repeat' first
      | with_reducible exact h0
      | dsimp only
      | with_reducible apply quiet_mozjpegtran

theorem mem_of_quiet_emit {v u : World} {e : Event} (h : Quiet (v.emit e) u) : e ∈ u.log := by
  have hp := h.1.1
  rw [World.emit_log] at hp
  exact hp.subset (by simp)

/-- After the dispatch, the rest of a top-level call keeps the log of the
dispatch as a prefix of the log. -/
theorem fileHandler_log_of_dispatch (X : Ext) (Infile : Path) (O : ECTOptions) (i : Int)
    (w : World)
    (hcond : (O.PNG_ACTIVE = true ∧ isPngExt (extensionOf Infile) = true)
      ∨ (O.JPEG_ACTIVE = true ∧ isJpegExt (extensionOf Infile) = true)
      ∨ (O.Gzip = true ∧ i = 0))
    (h0 : 0 ≤ filesize w.fs Infile) (h1 : filesize w.fs Infile < 1200000000)
    (h2 : (fileDispatch X Infile O i (extensionOf Infile) (filesize w.fs Infile) w).2.1 ≠ 2) :
    (fileDispatch X Infile O i (extensionOf Infile) (filesize w.fs Infile) w).2.2.log
      <+: (fileHandler X Infile O i w).2.log := by
  unfold fileHandler fileHandlerBody
  dsimp only
  rw [if_pos hcond, if_neg (not_lt.mpr h0), if_pos h1, if_neg h2]
  dsimp only
  split_ifs
  all_goals
    simp only [World.emit_log, set_file_time_log, addSavings_log, List.append_assoc]
    exact List.prefix_append _ _


/-- C11, evaluated on the code. For the directory `d` that holds the file
`d/a.png` and the subdirectory `d/sub` (with the file `d/sub/b.jpg`), the file
list `main` builds from the argument `d` contains the entry `d/sub`, which is a
directory, with the recursive flag off and with it on, and likewise from the
argument `d/`. In Gzip mode the run then hands `d/sub` to `fileHandler`, whose
call fails, and the exit status is 1, although the only regular file of the
directory was handled without error. -/
theorem C11_enumerator_lists_directories :
    isDirectory demoExt worldTree.fs "d/sub" = true
    ∧ buildFileList demoExt defaultOptions worldTree.fs ["d"] ([], 0)
      = (["d/a.png", "d/sub"], 0)
    ∧ buildFileList demoExt recurseOptions worldTree.fs ["d"] ([], 0)
      = (["d/a.png", "d/sub", "d/sub/b.jpg"], 0)
    ∧ buildFileList demoExt defaultOptions worldTree.fs ["d/"] ([], 0)
      = (["d/a.png", "d/sub"], 0)
    ∧ (mainRun demoExt gzipOptions ["d"] worldTree).map (fun r => (r.1, callEvents r.2.log))
      = some (1, [("d/a.png", 0, 0), ("d/sub", 0, 1)]) := by
  decide

/-! ## Counter update and optimizer failure (C12) -/

theorem fileHandler_fst_counted (X : Ext) (O : ECTOptions) (f : Path) (w : World)
    (hS : O.SavingsCounter = true) (hc : counted X O f w) :
    (fileHandler X f O 0 w).1
      = (fileDispatch X f O 0 (extensionOf f) (filesize w.fs f) w).1 := by
  unfold fileHandler
  rw [fileHandlerBody_counted X O f w hS hc]

theorem fileDispatch_fst_png (X : Ext) (O : ECTOptions) (f : Path) (i : Int) (x : String)
    (size : Int) (w : World) (hp : isPngExt x = true) :
    (fileDispatch X f O i x size w).1 = (OptimizePNG X f O w).1 := by
  unfold fileDispatch
  rw [if_pos hp]

theorem fileDispatch_fst_jpeg (X : Ext) (O : ECTOptions) (f : Path) (i : Int) (x : String)
    (size : Int) (w : World) (hp : isPngExt x = false) (hj : isJpegExt x = true) :
    (fileDispatch X f O i x size w).1 = (OptimizeJPEG X f O w).1 := by
  unfold fileDispatch
  rw [if_neg (by simp [hp]), if_pos hj]

/-- C12 (amended). For every top-level `fileHandler` call (`internal = 0`,
savings counter enabled): when the call reaches the counter update (`counted`)
each of the three counters is updated once, `processedfiles` by 1, `bytes` by
the size at the start of the call and `savings` by that size minus the size of
the result; when it does not, none of the three changes. For a PNG or JPEG
file that reaches the update, the value returned is the one the optimizer
returned: a failure of the optimizer is reported through the returned error
code and does not keep the counters from being updated. -/
theorem C12_counter_update (X : Ext) (O : ECTOptions) (Infile : Path) (w : World)
    (hS : O.SavingsCounter = true) :
    (counted X O Infile w →
      (fileHandler X Infile O 0 w).2.processedfiles = (w.processedfiles + 1) % 2 ^ 64
      ∧ (fileHandler X Infile O 0 w).2.bytes = toSizeT (w.bytes + filesize w.fs Infile)
      ∧ (fileHandler X Infile O 0 w).2.savings
          = toLongLong (w.savings + (filesize w.fs Infile - finalSize X O Infile w)))
    ∧ (¬ counted X O Infile w →
      (fileHandler X Infile O 0 w).2.processedfiles = w.processedfiles
      ∧ (fileHandler X Infile O 0 w).2.bytes = w.bytes
      ∧ (fileHandler X Infile O 0 w).2.savings = w.savings)
    ∧ (counted X O Infile w → isPngExt (extensionOf Infile) = true →
      (fileHandler X Infile O 0 w).1 = (OptimizePNG X Infile O w).1)
    ∧ (counted X O Infile w → isPngExt (extensionOf Infile) = false →
      isJpegExt (extensionOf Infile) = true →
      (fileHandler X Infile O 0 w).1 = (OptimizeJPEG X Infile O w).1) := by
  refine ⟨fun hc => fileHandler_counted X O Infile w hS hc, fun hn => ?_, fun hc hp => ?_,
    fun hc hp hj => ?_⟩
  · have h := fileHandler_uncounted X O Infile w (fun hh => hn hh.2)
    exact ⟨congrArg (fun c => c.1) h, congrArg (fun c => c.2.1) h, congrArg (fun c => c.2.2) h⟩
  · rw [fileHandler_fst_counted X O Infile w hS hc]
    exact fileDispatch_fst_png X O Infile 0 _ _ w hp
  · rw [fileHandler_fst_counted X O Infile w hS hc]
    exact fileDispatch_fst_jpeg X O Infile 0 _ _ w hp hj

/-- C12 on a PNG file whose optimizer reports failure. -/
theorem C12_counter_update_witness :
    defaultOptions.SavingsCounter = true
    ∧ counted failingCodecs defaultOptions "a.png" worldPng
    ∧ (fileHandler failingCodecs "a.png" defaultOptions 0 worldPng).2.processedfiles
        = (worldPng.processedfiles + 1) % 2 ^ 64
    ∧ (fileHandler failingCodecs "a.png" defaultOptions 0 worldPng).1
        = (OptimizePNG failingCodecs "a.png" defaultOptions worldPng).1 :=
  ⟨rfl, by decide,
    ((C12_counter_update failingCodecs defaultOptions "a.png" worldPng rfl).1 (by decide)).1,
    (C12_counter_update failingCodecs defaultOptions "a.png" worldPng rfl).2.2.1 (by decide)
      (by decide)⟩

/-- C12 as stated fails. With optimizers that report failure, the top-level
calls on `a.png` and on `a.jpg` return 1 (for PNG: the value `OptimizePNG`
returned), and yet `processedfiles` goes from 0 to 1 and `bytes` from 0 to the
size of the file. -/
theorem C12_counterexample :
    (OptimizePNG failingCodecs "a.png" defaultOptions worldPng).1 = 1
    ∧ (fileHandler failingCodecs "a.png" defaultOptions 0 worldPng).1 = 1
    ∧ worldPng.processedfiles = 0 ∧ worldPng.bytes = 0
    ∧ (fileHandler failingCodecs "a.png" defaultOptions 0 worldPng).2.processedfiles = 1
    ∧ (fileHandler failingCodecs "a.png" defaultOptions 0 worldPng).2.bytes = 8
    ∧ (OptimizeJPEG failingCodecs "a.jpg" defaultOptions worldJpg).1 = 1
    ∧ (fileHandler failingCodecs "a.jpg" defaultOptions 0 worldJpg).2.processedfiles = 1
    ∧ (fileHandler failingCodecs "a.jpg" defaultOptions 0 worldJpg).2.bytes = 8 := by
  decide

/-! ## JPEG retry policy (C13) -/

theorem jpegCalls_append (a b : List Event) : jpegCalls (a ++ b) = jpegCalls a ++ jpegCalls b := by
  simp [jpegCalls, List.filterMap_append]

theorem jpegFirst_log (X : Ext) (f : Path) (O : ECTOptions) (w : World) :
    (jpegFirst X f O w).2.log
      = w.log ++ [Event.OptimizeJPEG f,
          Event.mozjpegtran (O.Progressive && (decide (O.Mode > 1)
            || decide (filesize w.fs f > 5000))) f] := by
  unfold jpegFirst
  rw [mozjpegtran_log]
  simp

theorem jpegSecond_log (X : Ext) (f : Path) (O : ECTOptions) (w : World) :
    (jpegSecond X f O w).2.log = (jpegFirst X f O w).2.log ++ [Event.mozjpegtran false f] := by
  unfold jpegSecond
  rw [mozjpegtran_log]

theorem jpeg_select (O : ECTOptions) (r s : (Int × Nat) × World) :
    (((if (if O.Progressive = true ∧ O.Mode > 1 ∧ r.1.1 ≠ 2 then
          if r.1.1 = 1 ∨ (O.Mode = 2 ∧ r.1.2 < 6500) ∨ (O.Mode = 3 ∧ r.1.2 < 10000)
              ∨ (O.Mode = 4 ∧ r.1.2 < 15000) ∨ (O.Mode > 4 ∧ r.1.2 < 20000) then s
          else r
        else r).1.1 = 2 then 1 else 0 : Nat),
      (if O.Progressive = true ∧ O.Mode > 1 ∧ r.1.1 ≠ 2 then
          if r.1.1 = 1 ∨ (O.Mode = 2 ∧ r.1.2 < 6500) ∨ (O.Mode = 3 ∧ r.1.2 < 10000)
              ∨ (O.Mode = 4 ∧ r.1.2 < 15000) ∨ (O.Mode > 4 ∧ r.1.2 < 20000) then s
          else r
        else r).2) : Nat × World)
      = if r.1.1 ≠ 2 ∧ jpegRetry O r.1.1 r.1.2 then (if s.1.1 = 2 then 1 else 0, s.2)
        else (if r.1.1 = 2 then 1 else 0, r.2) := by
  unfold jpegRetry
  by_cases h1 : O.Progressive = true <;> by_cases h2 : O.Mode > 1 <;>
    by_cases h3 : r.1.1 = 2 <;>
    by_cases h4 : (r.1.1 = 1 ∨ (O.Mode = 2 ∧ r.1.2 < 6500) ∨ (O.Mode = 3 ∧ r.1.2 < 10000)
          ∨ (O.Mode = 4 ∧ r.1.2 < 15000) ∨ (O.Mode > 4 ∧ r.1.2 < 20000)) <;>
    simp [h1, h2, h3, h4]

/-- The result of `OptimizeJPEG` in terms of its one or two attempts. -/
theorem OptimizeJPEG_eq (X : Ext) (f : Path) (O : ECTOptions) (w : World) :
    OptimizeJPEG X f O w
      = if (jpegFirst X f O w).1.1 ≠ 2
            ∧ jpegRetry O (jpegFirst X f O w).1.1 (jpegFirst X f O w).1.2 then
          (if (jpegSecond X f O w).1.1 = 2 then 1 else 0, (jpegSecond X f O w).2)
        else (if (jpegFirst X f O w).1.1 = 2 then 1 else 0, (jpegFirst X f O w).2) :=
  jpeg_select O (jpegFirst X f O w) (jpegSecond X f O w)


/-- C13. `OptimizeJPEG` calls the transcoder once or twice. When the first
attempt did not fail fatally (its result is not 2), a second attempt is made if
and only if progressive encoding was requested, the effort level is greater
than 1, and the first attempt reported no size reduction or a size below the
threshold of the effort level (`jpegRetry`); that attempt is non-progressive.
`OptimizeJPEG` returns 1 exactly when the last attempt made returned 2. -/
theorem C13_jpeg_retry_policy (X : Ext) (Infile : Path) (O : ECTOptions) (w : World) :
    ((jpegCalls (OptimizeJPEG X Infile O w).2.log).length = (jpegCalls w.log).length + 1
      ∨ (jpegCalls (OptimizeJPEG X Infile O w).2.log).length = (jpegCalls w.log).length + 2)
    ∧ ((jpegFirst X Infile O w).1.1 ≠ 2 →
        (jpegRetry O (jpegFirst X Infile O w).1.1 (jpegFirst X Infile O w).1.2 ↔
          (OptimizeJPEG X Infile O w).2 = (jpegSecond X Infile O w).2
          ∧ jpegCalls (OptimizeJPEG X Infile O w).2.log
              = jpegCalls (jpegFirst X Infile O w).2.log ++ [false]))
    ∧ (¬ ((jpegFirst X Infile O w).1.1 ≠ 2
          ∧ jpegRetry O (jpegFirst X Infile O w).1.1 (jpegFirst X Infile O w).1.2) →
        (OptimizeJPEG X Infile O w).2 = (jpegFirst X Infile O w).2)
    ∧ ((OptimizeJPEG X Infile O w).1 = 1 ↔
        (if (jpegFirst X Infile O w).1.1 ≠ 2
              ∧ jpegRetry O (jpegFirst X Infile O w).1.1 (jpegFirst X Infile O w).1.2
          then (jpegSecond X Infile O w).1.1 else (jpegFirst X Infile O w).1.1) = 2)
    ∧ ((OptimizeJPEG X Infile O w).1 = 0 ∨ (OptimizeJPEG X Infile O w).1 = 1) := by
  have hf := jpegFirst_log X Infile O w
  have hs := jpegSecond_log X Infile O w
  have hc1 : jpegCalls (jpegFirst X Infile O w).2.log
      = jpegCalls w.log ++ [O.Progressive && (decide (O.Mode > 1)
            || decide (filesize w.fs Infile > 5000))] := by
    rw [hf, jpegCalls_append]; rfl
  have hc2 : jpegCalls (jpegSecond X Infile O w).2.log
      = jpegCalls (jpegFirst X Infile O w).2.log ++ [false] := by
    rw [hs, jpegCalls_append]; rfl
  rw [OptimizeJPEG_eq]
  by_cases h : (jpegFirst X Infile O w).1.1 ≠ 2
      ∧ jpegRetry O (jpegFirst X Infile O w).1.1 (jpegFirst X Infile O w).1.2
  · rw [if_pos h]
    refine ⟨Or.inr ?_, fun _ => ⟨fun _ => ⟨rfl, hc2⟩, fun _ => h.2⟩, fun hn => absurd h hn,
      ?_, ?_⟩
    · rw [hc2, hc1]; simp
    · dsimp only
      split_ifs <;> simp_all
    · dsimp only
      split_ifs <;> simp
  · rw [if_neg h]
    refine ⟨Or.inl ?_, fun h2 => ⟨fun hr => absurd ⟨h2, hr⟩ h, fun hh => ?_⟩, fun _ => rfl,
      ?_, ?_⟩
    · rw [hc1]; simp
    · exfalso
      have := congrArg List.length hh.2
      simp at this
    · dsimp only
      split_ifs <;> simp_all
    · dsimp only
      split_ifs <;> simp

/-- C13 on a small JPEG file under `-progressive` at effort 3: the first
attempt succeeds with a reported size below 10000, so a second, non-progressive
attempt follows. -/
theorem C13_jpeg_retry_policy_witness :
    (jpegFirst demoExt "a.jpg" progressiveOptions worldJpg).1.1 ≠ 2
    ∧ jpegRetry progressiveOptions (jpegFirst demoExt "a.jpg" progressiveOptions worldJpg).1.1
        (jpegFirst demoExt "a.jpg" progressiveOptions worldJpg).1.2
    ∧ jpegCalls (OptimizeJPEG demoExt "a.jpg" progressiveOptions worldJpg).2.log
        = jpegCalls (jpegFirst demoExt "a.jpg" progressiveOptions worldJpg).2.log ++ [false] :=
  ⟨by decide, by decide,
    (((C13_jpeg_retry_policy demoExt "a.jpg" progressiveOptions worldJpg).2.1 (by decide)).mp
      (by decide)).2⟩

/-! ## Timestamp of the archive (C14) and bounds of the directory walk (C16) -/

theorem timeEvents_append (a b : List Event) :
    timeEvents (a ++ b) = timeEvents a ++ timeEvents b := by
  simp [timeEvents, List.filterMap_append]

theorem mz_zip_add_log (X : Ext) (z : Path) (m : String) (d : Option Bytes) (src : Path)
    (w : World) : (mz_zip_add X z m d src w).2.log = w.log ++ [Event.zipAdd z m] := by
  unfold mz_zip_add
  dsimp only
  split_ifs
  · rfl
  · split <;> rfl

theorem mz_zip_add_isDirNode (X : Ext) (z : Path) (m : String) (d : Option Bytes) (src : Path)
    (w : World) (q : Path) :
    isDirNode (mz_zip_add X z m d src w).2.fs q = isDirNode w.fs q := by
  unfold mz_zip_add
  dsimp only
  split_ifs with hz
  · rfl
  · split
    · simp only [World.setFS_fs]
      unfold isDirNode
      rw [FS.lookup_write]
      by_cases hq : q = z
      · subst hq
        rw [if_pos rfl]
        unfold isDirNode at hz
        revert hz
        cases w.fs.lookup q with
        | none => simp
        | some n => cases n <;> simp
      · rw [if_neg hq]
    · rfl

theorem mz_zip_add_isDirectory (X : Ext) (z : Path) (m : String) (d : Option Bytes) (src : Path)
    (w : World) (q : Path) :
    isDirectory X (mz_zip_add X z m d src w).2.fs q = isDirectory X w.fs q := by
  unfold isDirectory
  rw [mz_zip_add_isDirNode]

theorem mz_zip_add_timeEvents (X : Ext) (z : Path) (m : String) (d : Option Bytes) (src : Path)
    (w : World) : timeEvents (mz_zip_add X z m d src w).2.log = timeEvents w.log := by
  rw [mz_zip_add_log, timeEvents_append]
  simp [timeEvents]

theorem zipAddFile_keeps (X : Ext) (z : Path) (m : String) (src : Path) (acc : ZipAcc) :
    timeEvents (zipAddFile X z m src acc).w.log = timeEvents acc.w.log
    ∧ ∀ q, isDirectory X (zipAddFile X z m src acc).w.fs q = isDirectory X acc.w.fs q := by
  unfold zipAddFile
  dsimp only
  split_ifs
  · exact ⟨rfl, fun _ => rfl⟩
  · exact ⟨rfl, fun _ => rfl⟩
  · cases readFile acc.w.fs src with
    | none => exact ⟨rfl, fun _ => rfl⟩
    | some d =>
      dsimp only
      split_ifs
      · exact ⟨mz_zip_add_timeEvents X z m _ src acc.w,
          mz_zip_add_isDirectory X z m _ src acc.w⟩
      · exact ⟨mz_zip_add_timeEvents X z m _ src acc.w,
          mz_zip_add_isDirectory X z m _ src acc.w⟩


theorem zipWalk_keeps (X : Ext) (z : Path) (substr : Nat) (paths : List Path) :
    ∀ acc r : ZipAcc, zipWalk X z substr paths acc = some r →
      timeEvents r.w.log = timeEvents acc.w.log
      ∧ ∀ q, isDirectory X r.w.fs q = isDirectory X acc.w.fs q := by
  induction paths with
  | nil =>
    intro acc r h
    simp only [zipWalk, Option.some.injEq] at h
    subst h
    exact ⟨rfl, fun _ => rfl⟩
  | cons p rest ih =>
    intro acc r h
    unfold zipWalk at h
    dsimp only at h
    split_ifs at h
    · cases hh : rest.head? with
      | none => rw [hh] at h; simp at h
      | some next =>
        rw [hh] at h
        dsimp only at h
        split_ifs at h
        · obtain ⟨i1, i2⟩ := ih _ r h
          exact ⟨i1.trans (mz_zip_add_timeEvents X z _ none p acc.w),
            fun q => (i2 q).trans (mz_zip_add_isDirectory X z _ none p acc.w q)⟩
        · exact ih _ r h
    · obtain ⟨i1, i2⟩ := ih _ r h
      obtain ⟨k1, k2⟩ := zipAddFile_keeps X z (erase0 p substr) p acc
      exact ⟨i1.trans k1, fun q => (i2 q).trans (k2 q)⟩

theorem zipWalk_none_iff (X : Ext) (z : Path) (substr : Nat) (paths : List Path) :
    ∀ acc : ZipAcc, zipWalk X z substr paths acc = none
      ↔ ∃ p, paths.getLast? = some p ∧ isDirectory X acc.w.fs p = true := by
  induction paths with
  | nil => intro acc; simp [zipWalk]
  | cons p rest ih =>
    intro acc
    unfold zipWalk
    dsimp only
    cases rest with
    | nil =>
      by_cases hd : isDirectory X acc.w.fs p = true
      · simp [hd]
      · simp [hd, zipWalk]
    | cons next more =>
      have hl : (p :: next :: more).getLast? = (next :: more).getLast? := by
        simp [List.getLast?]
      rw [hl]
      by_cases hd : isDirectory X acc.w.fs p = true
      · rw [if_pos hd]
        simp only [List.head?_cons]
        split_ifs
        · rw [ih]
          simp only [mz_zip_add_isDirectory]
        · rw [ih]
      · rw [if_neg hd, ih]
        simp only [(zipAddFile_keeps X z (erase0 p substr) p acc).2]


theorem zipArgs_keeps (X : Ext) (z : Path) (args : List Path) :
    ∀ acc r : ZipAcc, zipArgs X z args acc = some r →
      timeEvents r.w.log = timeEvents acc.w.log
      ∧ ∀ q, isDirectory X r.w.fs q = isDirectory X acc.w.fs q := by
  induction args with
  | nil =>
    intro acc r h
    simp only [zipArgs, Option.some.injEq] at h
    subst h
    exact ⟨rfl, fun _ => rfl⟩
  | cons a rest ih =>
    intro acc r h
    unfold zipArgs at h
    dsimp only at h
    by_cases he : acc.error ≠ 0
    · rw [if_pos he] at h
      simp only [Option.some.injEq] at h
      subst h
      exact ⟨rfl, fun _ => rfl⟩
    · rw [if_neg he] at h
      by_cases hd : isDirectory X acc.w.fs a = true
      · rw [if_pos hd] at h
        split at h
        · exact absurd h (by simp)
        · rename_i acc1 hw
          obtain ⟨w1, w2⟩ := zipWalk_keeps X z _ _ acc acc1 hw
          split_ifs at h
          · obtain ⟨i1, i2⟩ := ih _ r h
            exact ⟨(i1.trans (mz_zip_add_timeEvents X z _ none a acc1.w)).trans w1,
              fun q =>
                ((i2 q).trans (mz_zip_add_isDirectory X z _ none a acc1.w q)).trans (w2 q)⟩
          · obtain ⟨i1, i2⟩ := ih _ r h
            exact ⟨i1.trans w1, fun q => (i2 q).trans (w2 q)⟩
      · rw [if_neg hd] at h
        obtain ⟨i1, i2⟩ := ih _ r h
        obtain ⟨k1, k2⟩ := zipAddFile_keeps X z
          (substrFrom a ((find_last_of a "/\\" + 1) % 2 ^ 64)) a acc
        exact ⟨i1.trans k1, fun q => (i2 q).trans (k2 q)⟩

theorem zipArgs_isSome (X : Ext) (z : Path) (args : List Path) :
    ∀ acc : ZipAcc, (∀ a ∈ args, isDirectory X acc.w.fs a = false) →
      (zipArgs X z args acc).isSome = true := by
  induction args with
  | nil => intro acc _; rfl
  | cons a rest ih =>
    intro acc h
    unfold zipArgs
    dsimp only
    have ha : ¬ isDirectory X acc.w.fs a = true := by
      rw [h a (List.mem_cons_self _ _)]; decide
    by_cases he : acc.error ≠ 0
    · rw [if_pos he]; rfl
    · rw [if_neg he, if_neg ha]
      apply ih
      intro b hb
      rw [(zipAddFile_keeps X z _ a acc).2]
      exact h b (List.mem_cons_of_mem _ hb)

theorem zipFinish_log (X : Ext) (z : Path) (O : ECTOptions) (t : Int) (acc : ZipAcc) :
    (zipFinish X z O t acc).2.log
      = acc.w.log ++ Event.ReZipFile z :: (if t ≥ 0 then [Event.set_file_time z t] else []) := by
  unfold zipFinish
  dsimp only
  split_ifs
  · show (ReZipFile X z O acc.w).2.log ++ [Event.set_file_time z t] = _
    rw [ReZipFile_log]; simp
  · show (ReZipFile X z O acc.w).2.log = _
    rw [ReZipFile_log]


theorem get_file_time_setTime (fs : FS) (z : Path) (t : Int) (h : exists_ fs z = true) :
    get_file_time (setTime fs z t) z = t := by
  unfold exists_ at h
  unfold setTime get_file_time
  cases hl : fs.lookup z with
  | none => rw [hl] at h; exact absurd h (by decide)
  | some n => cases n <;> simp

theorem exists_setTime (fs : FS) (z q : Path) (t : Int) :
    exists_ (setTime fs z t) q = exists_ fs q := by
  unfold setTime exists_
  cases hl : fs.lookup z with
  | none => rfl
  | some n =>
    cases n <;>
    · dsimp only
      rw [FS.lookup_write]
      by_cases hq : q = z
      · subst hq; simp [hl]
      · rw [if_neg hq]

theorem zipFinish_time (X : Ext) (z : Path) (O : ECTOptions) (t : Int) (acc : ZipAcc)
    (ht : 0 ≤ t) (he : exists_ (zipFinish X z O t acc).2.fs z = true) :
    get_file_time (zipFinish X z O t acc).2.fs z = t := by
  unfold zipFinish at he ⊢
  dsimp only at he ⊢
  rw [if_pos ht] at he ⊢
  change exists_ (setTime (ReZipFile X z O acc.w).2.fs z t) z = true at he
  change get_file_time (setTime (ReZipFile X z O acc.w).2.fs z t) z = t
  rw [exists_setTime] at he
  exact get_file_time_setTime _ z t he


theorem zipHandler_given (X : Ext) (arg0 : Path) (rest : List Path) (O : ECTOptions) (w : World)
    (hg : archiveGiven X w.fs arg0 = true) :
    zipHandler X (arg0 :: rest) O w
      = (zipArgs X arg0 rest
          { error := 0,
            local_bytes := if exists_ w.fs arg0 then toSizeT (filesize w.fs arg0) else 0,
            w := w }).map
        (zipFinish X arg0 O
          (if exists_ w.fs arg0 = true ∧ O.keep = true then get_file_time w.fs arg0 else -1)) := by
  unfold archiveGiven at hg
  unfold zipHandler
  dsimp only
  rw [if_pos hg]

theorem zipHandler_derived (X : Ext) (arg0 : Path) (rest : List Path) (O : ECTOptions)
    (w : World) (hg : archiveGiven X w.fs arg0 = false) :
    zipHandler X (arg0 :: rest) O w
      = if exists_ w.fs (zipTargetName X w.fs arg0) then some (1, w)
        else (zipArgs X (zipTargetName X w.fs arg0) (arg0 :: rest)
            { error := 0, local_bytes := 0, w := w }).map
          (zipFinish X (zipTargetName X w.fs arg0) O (-1)) := by
  unfold archiveGiven at hg
  unfold zipHandler
  dsimp only
  rw [if_neg (by rw [hg]; decide)]

/-- C14 (amended). For every run of `zipHandler` that returns: a timestamp is
applied during the run exactly when the option `keep` is set and the first
argument is taken as the archive itself, existed before the run and had a
non-negative time (`zipStamped`); it is then applied once, to the archive,
with the time the archive had before the run, as the last recorded action,
right after the recompression pass, and the archive, if present, carries that
time when the run ends. In every other run, in particular when the option is
unset or when the archive did not exist before the run, no timestamp is
applied. A run whose arguments are not directories returns. -/
theorem C14_zip_timestamp (X : Ext) (arg0 : Path) (rest : List Path) (O : ECTOptions)
    (w : World) :
    (∀ r, zipHandler X (arg0 :: rest) O w = some r →
      timeEvents r.2.log
          = timeEvents w.log
            ++ (if zipStamped X O w arg0 then [(arg0, get_file_time w.fs arg0)] else [])
      ∧ (zipStamped X O w arg0 →
          (∃ pre, r.2.log = pre ++ [Event.ReZipFile arg0,
              Event.set_file_time arg0 (get_file_time w.fs arg0)])
          ∧ (exists_ r.2.fs arg0 = true →
              get_file_time r.2.fs arg0 = get_file_time w.fs arg0)))
    ∧ ((∀ a ∈ arg0 :: rest, isDirectory X w.fs a = false) →
        (zipHandler X (arg0 :: rest) O w).isSome = true) := by
  constructor
  · intro r hr
    by_cases hg : archiveGiven X w.fs arg0 = true
    · rw [zipHandler_given X arg0 rest O w hg] at hr
      cases hz : zipArgs X arg0 rest
          { error := 0,
            local_bytes := if exists_ w.fs arg0 then toSizeT (filesize w.fs arg0) else 0,
            w := w } with
      | none => rw [hz] at hr; exact absurd hr (by simp)
      | some acc =>
        rw [hz] at hr
        simp only [Option.map_some', Option.some.injEq] at hr
        subst hr
        have hk := (zipArgs_keeps X arg0 rest _ acc hz).1
        dsimp only at hk
        by_cases hs : zipStamped X O w arg0
        · obtain ⟨h1, _, h3, h4⟩ := hs
          have ht : (if exists_ w.fs arg0 = true ∧ O.keep = true then get_file_time w.fs arg0
              else -1) = get_file_time w.fs arg0 := if_pos ⟨h3, h1⟩
          rw [ht, if_pos ⟨h1, hg, h3, h4⟩]
          refine ⟨?_, fun _ => ⟨⟨acc.w.log, ?_⟩, fun he => zipFinish_time X arg0 O _ acc h4 he⟩⟩
          · rw [zipFinish_log, timeEvents_append, hk, if_pos h4]
            rfl
          · rw [zipFinish_log, if_pos h4]
        · rw [if_neg hs]
          refine ⟨?_, fun h => absurd h hs⟩
          have ht : ¬ (if exists_ w.fs arg0 = true ∧ O.keep = true then get_file_time w.fs arg0
              else -1) ≥ 0 := by
            by_cases hc : exists_ w.fs arg0 = true ∧ O.keep = true
            · rw [if_pos hc]
              exact fun h0 => hs ⟨hc.2, hg, hc.1, h0⟩
            · rw [if_neg hc]; decide
          rw [zipFinish_log, timeEvents_append, hk, if_neg ht]
          simp [timeEvents]
    · have hg' : archiveGiven X w.fs arg0 = false := by simpa using hg
      have hs : ¬ zipStamped X O w arg0 := fun h => hg h.2.1
      rw [if_neg hs]
      refine ⟨?_, fun h => absurd h hs⟩
      rw [zipHandler_derived X arg0 rest O w hg'] at hr
      split_ifs at hr
      · simp only [Option.some.injEq] at hr
        subst hr
        simp
      · cases hz : zipArgs X (zipTargetName X w.fs arg0) (arg0 :: rest)
            { error := 0, local_bytes := 0, w := w } with
        | none => rw [hz] at hr; exact absurd hr (by simp)
        | some acc =>
          rw [hz] at hr
          simp only [Option.map_some', Option.some.injEq] at hr
          subst hr
          have hk := (zipArgs_keeps X _ _ _ acc hz).1
          dsimp only at hk
          rw [zipFinish_log, timeEvents_append, hk, if_neg (by decide)]
          simp [timeEvents]
  · intro hd
    by_cases hg : archiveGiven X w.fs arg0 = true
    · rw [zipHandler_given X arg0 rest O w hg]
      rw [Option.isSome_map']
      exact zipArgs_isSome X arg0 rest _ (fun a ha => hd a (List.mem_cons_of_mem _ ha))
    · have hg' : archiveGiven X w.fs arg0 = false := by simpa using hg
      rw [zipHandler_derived X arg0 rest O w hg']
      split_ifs
      · rfl
      · rw [Option.isSome_map']
        exact zipArgs_isSome X _ (arg0 :: rest) _ hd


/-- C14 on the archive `a.zip`, extended by `b.txt` under `-zip -keep`. -/
theorem C14_zip_timestamp_witness :
    zipStamped demoExt zipKeepOptions worldArchive "a.zip"
    ∧ (∀ r, zipHandler demoExt ["a.zip", "b.txt"] zipKeepOptions worldArchive = some r →
        timeEvents r.2.log = [("a.zip", 3)])
    ∧ (zipHandler demoExt ["a.zip", "b.txt"] zipKeepOptions worldArchive).isSome = true :=
  ⟨by decide,
    fun r hr => ((C14_zip_timestamp demoExt "a.zip" ["b.txt"] zipKeepOptions worldArchive).1
      r hr).1,
    (C14_zip_timestamp demoExt "a.zip" ["b.txt"] zipKeepOptions worldArchive).2 (by decide)⟩

/-- C14 as stated fails. Under `-zip -keep` with the argument `./data.txt`,
the target `./data.zip` does not exist before the run; the run creates it and
returns 0, and no timestamp is applied: the recorded actions are the addition
of the member and the recompression pass. -/
theorem C14_counterexample :
    zipKeepOptions.keep = true
    ∧ exists_ worldDotData.fs "./data.zip" = false
    ∧ (zipHandler demoExt ["./data.txt"] zipKeepOptions worldDotData).map
        (fun r => (r.1, exists_ r.2.fs "./data.zip")) = some (0, true)
    ∧ (zipHandler demoExt ["./data.txt"] zipKeepOptions worldDotData).map
        (fun r => timeEvents r.2.log) = some []
    ∧ (zipHandler demoExt ["./data.txt"] zipKeepOptions worldDotData).map (fun r => r.2.log)
      = some [Event.zipAdd "./data.zip" "data.txt", Event.ReZipFile "./data.zip"] := by
  decide

/-- C16 fails on the code. The walk of `zipHandler` over the entries of a
directory reads `paths[j + 1]` past the end of the vector exactly when the last
entry of the traversal is a directory. This happens for the directory `d` whose
only entry is the empty directory `d/e`: the traversal is the single entry
`d/e`, and the run of `zipHandler` on `d` reads out of bounds. -/
theorem C16_walk_reads_past_end :
    (∀ (X : Ext) (z : Path) (substr : Nat) (paths : List Path) (acc : ZipAcc),
      zipWalk X z substr paths acc = none
        ↔ ∃ p, paths.getLast? = some p ∧ isDirectory X acc.w.fs p = true)
    ∧ isDirectory demoExt worldEmptyDir.fs "d" = true
    ∧ recursive_directory_iterator demoExt worldEmptyDir.fs "d" = ["d/e"]
    ∧ isDirectory demoExt worldEmptyDir.fs "d/e" = true
    ∧ zipHandler demoExt ["d"] zipOptions worldEmptyDir = none :=
  ⟨fun X z substr paths acc => zipWalk_none_iff X z substr paths acc,
    by decide, by decide, by decide, by decide⟩

/-! ## Failures while building the archive (C8): flag and loops -/

theorem zipAddFile_error (X : Ext) (z : Path) (m : String) (src : Path) (acc : ZipAcc) :
    (memberFails X z m src acc.w → (zipAddFile X z m src acc).error = 1)
    ∧ (¬ memberFails X z m src acc.w → (zipAddFile X z m src acc).error = acc.error) := by
  unfold memberFails zipAddFile
  dsimp only
  by_cases h1 : filesize acc.w.fs src > UINT_MAX
  · rw [if_pos h1]
    exact ⟨fun h => absurd h.2.1 (not_le.mpr h1), fun _ => rfl⟩
  · rw [if_neg h1]
    by_cases h0 : filesize acc.w.fs src < 0
    · rw [if_pos h0]
      exact ⟨fun h => absurd h.1 (not_le.mpr h0), fun _ => rfl⟩
    · rw [if_neg h0]
      cases hr : readFile acc.w.fs src with
      | none =>
        exact ⟨fun _ => rfl, fun h => absurd ⟨not_lt.mp h0, not_lt.mp h1, Or.inl rfl⟩ h⟩
      | some d =>
        dsimp only
        by_cases hm : (mz_zip_add X z m (some d) src acc.w).1 = true
        · rw [if_pos hm]
          refine ⟨fun h => ?_, fun _ => rfl⟩
          rcases h.2.2 with h' | ⟨d', hd, hf⟩
          · exact absurd h' (by simp)
          · simp only [Option.some.injEq] at hd
            subst hd
            rw [hm] at hf
            exact absurd hf (by decide)
        · rw [if_neg hm]
          exact ⟨fun _ => rfl, fun h => absurd
            ⟨not_lt.mp h0, not_lt.mp h1, Or.inr ⟨d, rfl, by simpa using hm⟩⟩ h⟩

theorem zipAddFile_skip (X : Ext) (z : Path) (m : String) (src : Path) (acc : ZipAcc)
    (h : filesize acc.w.fs src < 0 ∨ UINT_MAX < filesize acc.w.fs src) :
    zipAddFile X z m src acc = acc := by
  unfold zipAddFile
  dsimp only
  rcases h with h | h
  · by_cases h1 : filesize acc.w.fs src > UINT_MAX
    · rw [if_pos h1]
    · rw [if_neg h1, if_pos h]
  · rw [if_pos h]

theorem zipWalk_dir_entry (X : Ext) (z : Path) (substr : Nat) (p next : Path) (rest : List Path)
    (acc : ZipAcc) (hd : isDirectory X acc.w.fs p = true) :
    ∃ w1, zipWalk X z substr (p :: next :: rest) acc
      = zipWalk X z substr (next :: rest) { acc with w := w1 } := by
  unfold zipWalk
  dsimp only
  rw [if_pos hd]
  simp only [List.head?_cons]
  split_ifs
  · exact ⟨_, rfl⟩
  · exact ⟨acc.w, rfl⟩

theorem zipArgs_skip (X : Ext) (z : Path) (a : Path) (rest : List Path) (acc : ZipAcc)
    (he : acc.error = 0) (hd : isDirectory X acc.w.fs a = false)
    (h : filesize acc.w.fs a < 0 ∨ UINT_MAX < filesize acc.w.fs a) :
    zipArgs X z (a :: rest) acc = zipArgs X z rest acc := by
  rw [zipArgs]
  dsimp only
  rw [if_neg (by simp [he]), if_neg (by simp [hd]), zipAddFile_skip X z _ a acc h]

theorem zipArgs_append (X : Ext) (z : Path) (l1 l2 : List Path) :
    ∀ acc : ZipAcc, zipArgs X z (l1 ++ l2) acc = (zipArgs X z l1 acc).bind (zipArgs X z l2) := by
  induction l1 with
  | nil => intro acc; simp [zipArgs]
  | cons a rest ih =>
    intro acc
    rw [List.cons_append, zipArgs, zipArgs]
    dsimp only
    by_cases he : acc.error ≠ 0
    · rw [if_pos he, if_pos he]
      simp only [Option.some_bind]
      exact (zipArgs_stops X z l2 acc he).symm
    · rw [if_neg he, if_neg he]
      by_cases hd : isDirectory X acc.w.fs a = true
      · rw [if_pos hd, if_pos hd]
        split
        · rfl
        · split_ifs
          · exact ih _
          · exact ih _
      · rw [if_neg hd, if_neg hd]
        exact ih _


theorem zipArgs_empty_dir (X : Ext) (z : Path) (a : Path) (rest : List Path) (acc : ZipAcc)
    (he : acc.error = 0) (hd : isDirectory X acc.w.fs a = true)
    (hp : recursive_directory_iterator X acc.w.fs (X.canonical a) = []) :
    ∃ w1, zipArgs X z (a :: rest) acc = zipArgs X z rest { acc with w := w1 } := by
  rw [zipArgs]
  dsimp only
  rw [if_neg (by simp [he]), if_pos hd, hp]
  simp only [zipWalk, List.isEmpty_nil, if_true]
  exact ⟨_, rfl⟩

theorem zipFinish_fst_ne_zero (X : Ext) (z : Path) (O : ECTOptions) (t : Int) (acc : ZipAcc)
    (h : (zipFinish X z O t acc).1 ≠ 0) : acc.error ≠ 0 := by
  intro h0
  apply h
  rw [(zipFinish_runs_pass X z O t acc).1, h0]
  rfl

theorem zipArgs_more (X : Ext) (z : Path) (l1 l2 : List Path) (acc r : ZipAcc)
    (h : zipArgs X z l1 acc = some r) (he : r.error ≠ 0) :
    zipArgs X z (l1 ++ l2) acc = some r := by
  rw [zipArgs_append, h, Option.some_bind]
  exact zipArgs_stops X z l2 r he

theorem zipHandler_stops (X : Ext) (args more : List Path) (O : ECTOptions) (w : World)
    (r : Nat × World) (h : zipHandler X args O w = some r) (hr : r.1 ≠ 0) :
    zipHandler X (args ++ more) O w = some r := by
  cases args with
  | nil => simp [zipHandler] at h
  | cons arg0 rest =>
    rw [List.cons_append]
    by_cases hg : archiveGiven X w.fs arg0 = true
    · rw [zipHandler_given X arg0 rest O w hg] at h
      rw [zipHandler_given X arg0 (rest ++ more) O w hg]
      cases hz : zipArgs X arg0 rest
          { error := 0,
            local_bytes := if exists_ w.fs arg0 then toSizeT (filesize w.fs arg0) else 0,
            w := w } with
      | none => rw [hz] at h; exact absurd h (by simp)
      | some acc =>
        rw [hz] at h
        simp only [Option.map_some', Option.some.injEq] at h
        have he : acc.error ≠ 0 := zipFinish_fst_ne_zero X arg0 O _ acc (by rw [h]; exact hr)
        rw [zipArgs_more X arg0 rest more _ acc hz he]
        simp only [Option.map_some', Option.some.injEq]
        exact h
    · have hg' : archiveGiven X w.fs arg0 = false := by simpa using hg
      rw [zipHandler_derived X arg0 rest O w hg'] at h
      rw [zipHandler_derived X arg0 (rest ++ more) O w hg']
      split_ifs at h ⊢
      · exact h
      · cases hz : zipArgs X (zipTargetName X w.fs arg0) (arg0 :: rest)
            { error := 0, local_bytes := 0, w := w } with
        | none => rw [hz] at h; exact absurd h (by simp)
        | some acc =>
          rw [hz] at h
          simp only [Option.map_some', Option.some.injEq] at h
          have he : acc.error ≠ 0 :=
            zipFinish_fst_ne_zero X _ O _ acc (by rw [h]; exact hr)
          have := zipArgs_more X (zipTargetName X w.fs arg0) (arg0 :: rest) more _ acc hz he
          rw [List.cons_append] at this
          rw [this]
          simp only [Option.map_some', Option.some.injEq]
          exact h

theorem zipHandler_result (X : Ext) (arg0 : Path) (rest : List Path) (O : ECTOptions)
    (w : World) (r : Nat × World) (h : zipHandler X (arg0 :: rest) O w = some r) :
    (archiveGiven X w.fs arg0 = false ∧ exists_ w.fs (zipTargetName X w.fs arg0) = true
        ∧ r = (1, w))
    ∨ ∃ (z : Path) (args : List Path) (acc0 acc : ZipAcc),
        acc0.error = 0 ∧ acc0.w = w ∧ zipArgs X z args acc0 = some acc
        ∧ r.1 = acc.error.toNat ∧ Event.ReZipFile z ∈ r.2.log := by
  by_cases hg : archiveGiven X w.fs arg0 = true
  · rw [zipHandler_given X arg0 rest O w hg] at h
    cases hz : zipArgs X arg0 rest
        { error := 0,
          local_bytes := if exists_ w.fs arg0 then toSizeT (filesize w.fs arg0) else 0,
          w := w } with
    | none => rw [hz] at h; exact absurd h (by simp)
    | some acc =>
      rw [hz] at h
      simp only [Option.map_some', Option.some.injEq] at h
      subst h
      exact Or.inr ⟨arg0, rest, _, acc, rfl, rfl, hz, (zipFinish_runs_pass X arg0 O _ acc).1,
        (zipFinish_runs_pass X arg0 O _ acc).2⟩
  · have hg' : archiveGiven X w.fs arg0 = false := by simpa using hg
    rw [zipHandler_derived X arg0 rest O w hg'] at h
    split_ifs at h with hx
    · simp only [Option.some.injEq] at h
      exact Or.inl ⟨hg', hx, h.symm⟩
    · cases hz : zipArgs X (zipTargetName X w.fs arg0) (arg0 :: rest)
          { error := 0, local_bytes := 0, w := w } with
      | none => rw [hz] at h; exact absurd h (by simp)
      | some acc =>
        rw [hz] at h
        simp only [Option.map_some', Option.some.injEq] at h
        subst h
        exact Or.inr ⟨_, _, _, acc, rfl, rfl, hz, (zipFinish_runs_pass X _ O _ acc).1,
          (zipFinish_runs_pass X _ O _ acc).2⟩


theorem reportDuration_eq (T : Int) (h0 : 0 ≤ T) :
    reportDuration T
      = { hours := toInt32 (T / 3600000), minutes := toInt32 (T / 60000 % 60),
          seconds := toInt32 (T / 1000 % 60), milliseconds := toInt32 (T % 1000) } := by
  have d1 : Int.tdiv T 1000 = T / 1000 := Int.tdiv_eq_ediv h0 (by decide)
  have d2 : Int.tdiv T (1000 * 60) = T / 60000 := Int.tdiv_eq_ediv h0 (by decide)
  have d3 : Int.tdiv T (1000 * 60 * 60) = T / 3600000 := Int.tdiv_eq_ediv h0 (by decide)
  have m1 : Int.tmod T 1000 = T % 1000 := Int.tmod_eq_emod h0 (by decide)
  have m2 : Int.tmod (T / 1000) 60 = T / 1000 % 60 :=
    Int.tmod_eq_emod (Int.ediv_nonneg h0 (by decide)) (by decide)
  have m3 : Int.tmod (T / 60000) 60 = T / 60000 % 60 :=
    Int.tmod_eq_emod (Int.ediv_nonneg h0 (by decide)) (by decide)
  unfold reportDuration
  rw [d1, d2, d3, m1, m2, m3]

/-- C15. For every elapsed time of `T` milliseconds with `0 ≤ T` and
`T / 3600000` in the range of `int`, the fields `ECT_ReportSavings` prints as
`HH:MM:SS.mmm` satisfy `0 ≤ mmm < 1000`, `0 ≤ SS < 60`, `0 ≤ MM < 60`,
`0 ≤ HH` and `HH * 3600000 + MM * 60000 + SS * 1000 + mmm = T`. -/
theorem C15_duration_fields (T : Int) (h0 : 0 ≤ T) (hfit : T / 3600000 ≤ 2 ^ 31 - 1) :
    0 ≤ (reportDuration T).milliseconds ∧ (reportDuration T).milliseconds < 1000
    ∧ 0 ≤ (reportDuration T).seconds ∧ (reportDuration T).seconds < 60
    ∧ 0 ≤ (reportDuration T).minutes ∧ (reportDuration T).minutes < 60
    ∧ 0 ≤ (reportDuration T).hours
    ∧ (reportDuration T).hours * 3600000 + (reportDuration T).minutes * 60000
        + (reportDuration T).seconds * 1000 + (reportDuration T).milliseconds = T := by
  rw [reportDuration_eq T h0]
  unfold toInt32
  dsimp only
  omega

/-- The fields of C15 for 1 h 2 min 3.004 s. -/
theorem C15_duration_fields_witness :
    reportDuration 3723004 = { hours := 1, minutes := 2, seconds := 3, milliseconds := 4 }
    ∧ (reportDuration 3723004).hours * 3600000 + (reportDuration 3723004).minutes * 60000
        + (reportDuration 3723004).seconds * 1000 + (reportDuration 3723004).milliseconds
      = 3723004 :=
  ⟨by decide, (C15_duration_fields 3723004 (by decide) (by decide)).2.2.2.2.2.2.2⟩

end ECT
